import Mathlib

/-!
# Maintenance scheduler: `repo/maintenance/maintenance_run.go`

A shallow embedding of `shouldRun`, `updateSchedule` and `RunExclusive`.

Conventions of the embedding.

* A Go `time.Time` is an integer instant (nanoseconds), a `time.Duration` is an
  integer number of nanoseconds; `t.After(u)` is `u < t` and `t.Add(d)` is `t + d`.
* A Go `error` is a value of `Error`; `errors.Wrap(err, msg)` keeps `err` as the cause.
  A function returning `error` returns `Option Error` (`none` is `nil`), a function
  returning `(T, error)` returns `Except Error T`.
* The repository `rep` is explicit state (`Repo`).  The lock file of the host and a log
  of the externally visible steps live next to it in `World`.  The callback handed to
  `RunExclusive` receives the repository only: it can neither reach the `flock` handle,
  which is local to `RunExclusive`, nor the log.
* Calls to the debug and info logger are not part of the embedding.
-/

namespace Maintenance

/-- Instant of time (`time.Time`), in nanoseconds. -/
abbrev Time := Int

/-- Span of time (`time.Duration`), in nanoseconds. -/
abbrev Duration := Int

/-- Go error values: a message, an error wrapped with a contextual message, or the error
made by `errors.Errorf(format, args...)`, whose text is what package `fmt` makes of the
format and the arguments. -/
inductive Error where
  | msg (text : String)
  | wrap (cause : Error) (context : String)
  | errorf (format : String) (args : List String)
deriving DecidableEq, Repr

/-- The call `errors.Wrap(err, context)`. -/
def Error.Wrap (err : Error) (context : String) : Error := Error.wrap err context

/-- The call `errors.Cause(err)`: the innermost error. -/
def Error.Cause : Error → Error
  | Error.msg t => Error.msg t
  | Error.wrap c _ => c.Cause
  | Error.errorf f a => Error.errorf f a

/-- The declaration `type Mode string`. -/
abbrev Mode := String

def ModeNone : Mode := "none"
def ModeQuick : Mode := "quick"
def ModeFull : Mode := "full"
def ModeAuto : Mode := "auto"

/-- Modelled from the spec: the type `CycleParams` (its declaration is in
`maintenance_params.go`, not among the sources): `{enabled, interval}`. -/
structure CycleParams where
  Enabled : Bool
  Interval : Duration
deriving DecidableEq, Repr

/-- Modelled from the spec: the type `DropDeletedContentParams`: `{minAge}`. -/
structure DropDeletedContentParams where
  MinAge : Duration
deriving DecidableEq, Repr

/-- Modelled from the spec: the type `Params` (params manifest):
`{ owner, quickCycle, fullCycle, dropDeletedContent }`. -/
structure Params where
  Owner : String
  QuickCycle : CycleParams
  FullCycle : CycleParams
  DropDeletedContent : DropDeletedContentParams
deriving DecidableEq, Repr

/-- Modelled from the spec: `RunRecord = {start, end, success, error?}`. -/
structure RunRecord where
  Start : Time
  End : Time
  Success : Bool
  Error : Option String
deriving DecidableEq, Repr

/-- Modelled from the spec: the type `Schedule` (schedule manifest):
`{ nextQuickMaintenanceTime, nextFullMaintenanceTime, runs }`. -/
structure Schedule where
  NextFullMaintenanceTime : Time
  NextQuickMaintenanceTime : Time
  Runs : List (Mode × List RunRecord)
deriving DecidableEq, Repr

/-- The struct `RunParameters`.  Its field `rep` is the repository state that the
embedding threads through explicitly. -/
structure RunParameters where
  Mode : Mode
  Params : Params
deriving DecidableEq, Repr

/-- The repository as seen through `MaintainableRepository`.

* `now` is the instant of the clock, `ticks` says by how much the clock moves before each
  of the coming readings of `rep.Time()` (no entry left: the clock stands still);
* `params` is what `GetParams` yields;
* `schedule` is the stored schedule manifest;
* `getScheduleFaults` and `setScheduleFaults` say which of the coming calls of
  `GetSchedule` and `SetSchedule` fail (`some err`), in order; no entry left: the call
  succeeds. -/
structure Repo where
  Username : String
  Hostname : String
  ConfigFilename : String
  now : Time
  ticks : List Duration
  params : Except Error Params
  schedule : Schedule
  getScheduleFaults : List (Option Error)
  setScheduleFaults : List (Option Error)

/-- State of the advisory lock file `ConfigFilename + ".mlock"` on this host. -/
inductive LockState where
  | free
  | heldByOther
  | heldByCaller
  | broken (err : Error)
deriving DecidableEq, Repr

/-- Externally visible steps of a run with their outcomes, in the order in which they
happen.  A `callback` entry records the parameters handed to the callback and the
repository at that moment. -/
inductive Event where
  | getParams (res : Except Error Params)
  | getSchedule (res : Except Error Schedule)
  | setSchedule (s : Schedule) (res : Option Error)
  | tryLock (file : String) (res : Except Error Bool)
  | callback (runParams : RunParameters) (rep : Repo)
  | unlock (file : String)

/-- The repository, the lock file and the log of steps. -/
structure World where
  rep : Repo
  lock : LockState
  trace : List Event

/-- The callback type `func(runParams RunParameters) error`; reaches the repository
through `runParams.rep`. -/
abbrev Callback := RunParameters → Repo → Option Error × Repo

/-- Append a step to the log. -/
def World.emit (w : World) (ev : Event) : World :=
  { w with trace := w.trace ++ [ev] }

/-- The fault, if any, that hits the next call of an operation. -/
def nextFault : List (Option Error) → Option Error
  | some err :: _ => some err
  | _ => none

/-- The call `rep.Time()`: the clock moves by the next tick and is read. -/
def Repo.Time (r : Repo) : Time × Repo :=
  (r.now + r.ticks.headD 0, { r with now := r.now + r.ticks.headD 0, ticks := r.ticks.tail })

/-- The call `rep.Time()` on the world. -/
def World.Time (w : World) : Time × World :=
  ((w.rep.Time).1, { w with rep := (w.rep.Time).2 })

/-- Modelled from the spec: `GetParams` (in `maintenance_params.go`, not among the
sources) reads the params manifest from the manifest store; it can fail. -/
def GetParams (w : World) : Except Error Params × World :=
  (w.rep.params, w.emit (Event.getParams w.rep.params))

/-- Modelled from the spec: `GetSchedule` (in `maintenance_schedule.go`, not among the
sources) reads the schedule manifest from the manifest store; it can fail. -/
def GetSchedule (w : World) : Except Error Schedule × World :=
  let res : Except Error Schedule :=
    match nextFault w.rep.getScheduleFaults with
    | some err => Except.error err
    | none => Except.ok w.rep.schedule
  (res, { w with rep := { w.rep with getScheduleFaults := w.rep.getScheduleFaults.tail } }.emit
    (Event.getSchedule res))

/-- Modelled from the spec: `SetSchedule` (in `maintenance_schedule.go`, not among the
sources) stores the schedule manifest; it can fail, and then nothing is stored. -/
def SetSchedule (w : World) (s : Schedule) : Option Error × World :=
  match nextFault w.rep.setScheduleFaults with
  | some err =>
    (some err,
      { w with rep := { w.rep with setScheduleFaults := w.rep.setScheduleFaults.tail } }.emit
        (Event.setSchedule s (some err)))
  | none =>
    (none,
      { w with rep := { w.rep with
          schedule := s, setScheduleFaults := w.rep.setScheduleFaults.tail } }.emit
        (Event.setSchedule s none))

/-- The calls `flock.New(lockFile)` and `l.TryLock()`: non-blocking; `ok true` takes the
lock, `ok false` means that it is held already, `error` is an I/O failure. -/
def TryLock (w : World) (lockFile : String) : Except Error Bool × World :=
  match w.lock with
  | LockState.free =>
    (Except.ok true,
      { w with lock := LockState.heldByCaller }.emit (Event.tryLock lockFile (Except.ok true)))
  | LockState.heldByOther =>
    (Except.ok false, w.emit (Event.tryLock lockFile (Except.ok false)))
  | LockState.heldByCaller =>
    (Except.ok false, w.emit (Event.tryLock lockFile (Except.ok false)))
  | LockState.broken err =>
    (Except.error err, w.emit (Event.tryLock lockFile (Except.error err)))

/-- The call `l.Unlock()` of a lock that this call holds; its result is discarded. -/
def Unlock (w : World) (lockFile : String) : World :=
  { w with lock := LockState.free }.emit (Event.unlock lockFile)

/-- The call `cb(runParams)`. -/
def invoke (cb : Callback) (runParams : RunParameters) (w : World) : Option Error × World :=
  ((cb runParams w.rep).1,
    { (w.emit (Event.callback runParams w.rep)) with rep := (cb runParams w.rep).2 })

/-- Lines 70-82 of `shouldRun`: the check of the quick cycle. -/
def shouldRunQuick (w : World) (p : Params) (s : Schedule) : Except Error Mode × World :=
  if p.QuickCycle.Enabled then
    if s.NextQuickMaintenanceTime < (w.Time).1 then
      (Except.ok ModeQuick, (w.Time).2)
    else
      (Except.ok ModeNone, (w.Time).2)
  else
    (Except.ok ModeNone, w)

/-- The function `shouldRun`: the mode for which the repository is due. -/
def shouldRun (w : World) (p : Params) : Except Error Mode × World :=
  if p.Owner ≠ w.rep.Username ++ "@" ++ w.rep.Hostname then
    (Except.ok ModeNone, w)
  else
    match GetSchedule w with
    | (Except.error err, w1) => (Except.error (err.Wrap "error getting status"), w1)
    | (Except.ok s, w1) =>
      -- check full cycle first, as it does more than the quick cycle
      if p.FullCycle.Enabled then
        if s.NextFullMaintenanceTime < (w1.Time).1 then
          (Except.ok ModeFull, (w1.Time).2)
        else
          shouldRunQuick (w1.Time).2 p s
      else
        shouldRunQuick w1 p s

/-- The function `updateSchedule`. -/
def updateSchedule (w : World) (runParams : RunParameters) : Option Error × World :=
  let p := runParams.Params
  match GetSchedule w with
  | (Except.error err, w1) => (some (err.Wrap "error getting schedule"), w1)
  | (Except.ok s, w1) =>
    if runParams.Mode = ModeFull then
      -- on full cycle, also update the quick cycle
      let s1 := { s with NextFullMaintenanceTime := (w1.Time).1 + p.FullCycle.Interval }
      let s2 := { s1 with
        NextQuickMaintenanceTime := s1.NextFullMaintenanceTime + p.QuickCycle.Interval }
      SetSchedule (w1.Time).2 s2
    else if runParams.Mode = ModeQuick then
      SetSchedule (w1.Time).2
        { s with NextQuickMaintenanceTime := (w1.Time).1 + p.QuickCycle.Interval }
    else
      (none, w1)

/-- The function `RunExclusive`. -/
def RunExclusive (w : World) (mode : Mode) (cb : Callback) : Option Error × World :=
  match GetParams w with
  | (Except.error err, w1) => (some (err.Wrap "unable to get maintenance params"), w1)
  | (Except.ok p, w1) =>
    if p.Owner ≠ w1.rep.Username ++ "@" ++ w1.rep.Hostname then
      (none, w1)
    else
      match (if mode = ModeAuto then shouldRun w1 p else (Except.ok mode, w1)) with
      | (Except.error err, w2) =>
        (some (err.Wrap "unable to determine if maintenance is required"), w2)
      | (Except.ok mode, w2) =>
        if mode = ModeNone then
          (none, w2)
        else
          let runParams : RunParameters := { Mode := mode, Params := p }
          -- update schedule so that we don't run the maintenance again immediately if
          -- this process crashes.
          match updateSchedule w2 runParams with
          | (some err, w3) => (some (err.Wrap "error updating maintenance schedule"), w3)
          | (none, w3) =>
            let lockFile := w3.rep.ConfigFilename ++ ".mlock"
            -- acquire local lock on a config file
            match TryLock w3 lockFile with
            | (Except.error err, w4) =>
              (some (err.Wrap "error acquiring maintenance lock"), w4)
            | (Except.ok false, w4) => (none, w4)
            | (Except.ok true, w4) =>
              -- the deferred l.Unlock() runs after cb(runParams) has returned
              ((invoke cb runParams w4).1, Unlock (invoke cb runParams w4).2 lockFile)

/-- The steps logged on the way from world `w` to the later world `w2`. -/
def emitted (w w2 : World) : List Event := w2.trace.drop w.trace.length

/-- The parameters of the callback invocations among the steps, in order. -/
def callbacks : List Event → List RunParameters
  | [] => []
  | Event.callback runParams _ :: evs => runParams :: callbacks evs
  | _ :: evs => callbacks evs

/-- What the reading number `k` (from 0) of `rep.Time()` will return. -/
def Repo.reading (r : Repo) : Nat → Maintenance.Time
  | 0 => (r.Time).1
  | k + 1 => ((r.Time).2).reading k

/-- The clock does not run backwards. -/
def Repo.clockForward (r : Repo) : Prop := ∀ d ∈ r.ticks, 0 ≤ d

/-- A process started anew on repository `r` while the clock still reads `r.now`. -/
def restarted (r : Repo) : World :=
  { rep := { r with ticks := [] }, lock := LockState.free, trace := [] }

/-- Mode resolution of `RunExclusive` (lines 140-145), once the params `p` are loaded:
from world `w` and requested mode `mode` it yields mode `m` in world `w2`. -/
def Resolved (w : World) (mode : Mode) (p : Params) (m : Mode) (w2 : World) : Prop :=
  (mode ≠ ModeAuto ∧ m = mode ∧ w2 = w.emit (Event.getParams (Except.ok p))) ∨
  (mode = ModeAuto ∧ shouldRun (w.emit (Event.getParams (Except.ok p))) p = (Except.ok m, w2))

/-- The name of the lock file. -/
def lockFileOf (r : Repo) : String := r.ConfigFilename ++ ".mlock"

/-- A step that failed: a load, a write or a lock attempt that returned an error. -/
def Event.failed : Event → Bool
  | Event.getParams (Except.error _) => true
  | Event.getSchedule (Except.error _) => true
  | Event.setSchedule _ (some _) => true
  | Event.tryLock _ (Except.error _) => true
  | _ => false

/-- A step that attempts to take the lock. -/
def Event.isTryLock : Event → Bool
  | Event.tryLock _ _ => true
  | _ => false

/-- A step that writes the schedule. -/
def Event.isSetSchedule : Event → Bool
  | Event.setSchedule _ _ => true
  | _ => false

/-! ## Sample inputs -/

/-- Sample params owned by `alice@backup1`, both cycles enabled. -/
def sampleParams (fullInterval quickInterval : Duration) : Params :=
  { Owner := "alice@backup1"
    QuickCycle := { Enabled := true, Interval := quickInterval }
    FullCycle := { Enabled := true, Interval := fullInterval }
    DropDeletedContent := { MinAge := 86400 } }

/-- Sample repository of `alice@backup1`: the clock reads 1000 and stands still, nothing
is scheduled yet, no operation fails. -/
def sampleRepo (params : Except Error Params) : Repo :=
  { Username := "alice"
    Hostname := "backup1"
    ConfigFilename := "/etc/kopia/repository.config"
    now := 1000
    ticks := []
    params := params
    schedule := { NextFullMaintenanceTime := 0, NextQuickMaintenanceTime := 0, Runs := [] }
    getScheduleFaults := []
    setScheduleFaults := [] }

/-- Sample world around `sampleRepo`. -/
def sampleWorld (params : Except Error Params) (lock : LockState) : World :=
  { rep := sampleRepo params, lock := lock, trace := [] }

/-- Sample params owned by `alice@backup1` with both cycles disabled. -/
def idleParams : Params :=
  { Owner := "alice@backup1"
    QuickCycle := { Enabled := false, Interval := 10 }
    FullCycle := { Enabled := false, Interval := 100 }
    DropDeletedContent := { MinAge := 86400 } }

/-- Sample world in which nothing is due: the clock reads 1000, both next times are 5000,
both cycles are disabled, the lock is free. -/
def idleWorld : World :=
  { rep := { sampleRepo (Except.ok idleParams) with
      schedule :=
        { NextFullMaintenanceTime := 5000, NextQuickMaintenanceTime := 5000, Runs := [] } }
    lock := LockState.free
    trace := [] }

/-- A callback that succeeds and leaves the repository alone. -/
def cbOk : Callback := fun _ r => (none, r)

/-- A callback that fails and leaves the repository alone. -/
def cbFail : Callback := fun _ r => (some (Error.msg "maintenance failed"), r)

/-! ## The maintenance run: `Run`, `runQuickMaintenance`, `runFullMaintenance`

The three workers `DropDeletedContents`, `RewriteContents` and `DeleteUnreferencedBlobs`
are declared in files that are not among the sources; the orchestrators take them as
parameters (`Workers`) acting on a store of any type, and every call is logged with its
arguments and its outcome. -/

/-- Modelled from the spec: the type `content.IDRange` with its constants `AllIDs` and
`AllPrefixedIDs` (package `content` is not among the sources): a range of content ids is
an inclusive `[minID, maxID]`, or `allIDs`, or `allPrefixedIDs`; `unset` is the value of
an option that was not given (`contentIDRange=none`). -/
inductive IDRange where
  | unset
  | AllIDs
  | AllPrefixedIDs
  | range (minID maxID : String)
deriving DecidableEq, Repr

/-- Modelled from the spec: the constant `content.PackBlobIDPrefixSpecial`: pack blobs carry
one-character prefixes, `p` (data packs) and `q` (metadata/special packs). -/
def PackBlobIDPrefixSpecial : String := "q"

/-- The struct `RewriteContentsOptions` (declared next to `RewriteContents`, not among the
sources; its fields are those set in `cli/command_content_rewrite.go`).  A field that a
struct literal leaves out has the zero value of Go. -/
structure RewriteContentsOptions where
  ContentIDRange : IDRange := IDRange.unset
  ContentIDs : List String := []
  FormatVersion : Int := 0
  PackPrefix : String := ""
  Parallel : Int := 0
  ShortPacks : Bool := false
  DryRun : Bool := false
deriving DecidableEq, Repr

/-- The struct `DeleteUnreferencedBlobsOptions` (declared next to `DeleteUnreferencedBlobs`,
not among the sources; its fields are those set in `cli/command_blob_gc.go`). -/
structure DeleteUnreferencedBlobsOptions where
  DryRun : Bool := false
  Parallel : Int := 0
  Prefix : String := ""
deriving DecidableEq, Repr

/-- The three workers that the orchestrators call, as functions on a store `σ`. -/
structure Workers (σ : Type) where
  DropDeletedContents : DropDeletedContentParams → σ → Option Error × σ
  RewriteContents : RewriteContentsOptions → σ → Option Error × σ
  DeleteUnreferencedBlobs : DeleteUnreferencedBlobsOptions → σ → Except Error Int × σ

/-- A call of a worker, with its arguments and its outcome. -/
inductive Step where
  | dropDeletedContents (params : DropDeletedContentParams) (res : Option Error)
  | rewriteContents (opt : RewriteContentsOptions) (res : Option Error)
  | deleteUnreferencedBlobs (opt : DeleteUnreferencedBlobsOptions) (res : Except Error Int)

/-- The store on which maintenance runs, with the log of the worker calls. -/
structure Running (σ : Type) where
  store : σ
  steps : List Step

/-- The call `DropDeletedContents(ctx, rep, &params)`. -/
def callDropDeletedContents {σ : Type} (ws : Workers σ) (params : DropDeletedContentParams)
    (s : Running σ) : Option Error × Running σ :=
  ((ws.DropDeletedContents params s.store).1,
    { store := (ws.DropDeletedContents params s.store).2
      steps := s.steps ++
        [Step.dropDeletedContents params (ws.DropDeletedContents params s.store).1] })

/-- The call `RewriteContents(ctx, rep, &opt)`. -/
def callRewriteContents {σ : Type} (ws : Workers σ) (opt : RewriteContentsOptions)
    (s : Running σ) : Option Error × Running σ :=
  ((ws.RewriteContents opt s.store).1,
    { store := (ws.RewriteContents opt s.store).2
      steps := s.steps ++ [Step.rewriteContents opt (ws.RewriteContents opt s.store).1] })

/-- The call `DeleteUnreferencedBlobs(ctx, rep, opt)`. -/
def callDeleteUnreferencedBlobs {σ : Type} (ws : Workers σ)
    (opt : DeleteUnreferencedBlobsOptions) (s : Running σ) : Except Error Int × Running σ :=
  ((ws.DeleteUnreferencedBlobs opt s.store).1,
    { store := (ws.DeleteUnreferencedBlobs opt s.store).2
      steps := s.steps ++
        [Step.deleteUnreferencedBlobs opt (ws.DeleteUnreferencedBlobs opt s.store).1] })

/-- The function `runQuickMaintenance`. -/
def runQuickMaintenance {σ : Type} (ws : Workers σ) (s : Running σ)
    (runParams : RunParameters) : Option Error × Running σ :=
  -- rewrite indexes by dropping content entries that have been marked
  -- as deleted for a long time
  match callDropDeletedContents ws runParams.Params.DropDeletedContent s with
  | (some err, s1) => (some (err.Wrap "error dropping deleted contents"), s1)
  | (none, s1) =>
    -- find 'q' packs that are less than 80% full and rewrite contents in them into
    -- new consolidated packs, orphaning old packs in the process.
    match callRewriteContents ws
        { ContentIDRange := IDRange.AllPrefixedIDs
          PackPrefix := PackBlobIDPrefixSpecial
          ShortPacks := true } s1 with
    | (some err, s2) => (some (err.Wrap "error rewriting metadata contents"), s2)
    | (none, s2) =>
      -- delete orphaned 'q' packs after some time.
      match callDeleteUnreferencedBlobs ws { Prefix := PackBlobIDPrefixSpecial } s2 with
      | (Except.error err, s3) =>
        (some (err.Wrap "error deleting unreferenced metadata blobs"), s3)
      | (Except.ok _, s3) => (none, s3)

/-- The function `runFullMaintenance`. -/
def runFullMaintenance {σ : Type} (ws : Workers σ) (s : Running σ)
    (runParams : RunParameters) : Option Error × Running σ :=
  -- rewrite indexes by dropping content entries that have been marked
  -- as deleted for a long time
  match callDropDeletedContents ws runParams.Params.DropDeletedContent s with
  | (some err, s1) => (some (err.Wrap "error dropping deleted contents"), s1)
  | (none, s1) =>
    -- find packs that are less than 80% full and rewrite contents in them into
    -- new consolidated packs, orphaning old packs in the process.
    match callRewriteContents ws
        { ContentIDRange := IDRange.AllIDs
          ShortPacks := true } s1 with
    | (some err, s2) => (some (err.Wrap "error rewriting contents in short packs"), s2)
    | (none, s2) =>
      -- delete orphaned packs after some time.
      match callDeleteUnreferencedBlobs ws {} s2 with
      | (Except.error err, s3) => (some (err.Wrap "error deleting unreferenced blobs"), s3)
      | (Except.ok _, s3) => (none, s3)

/-- The function `Run`. -/
def Run {σ : Type} (ws : Workers σ) (s : Running σ) (runParams : RunParameters) :
    Option Error × Running σ :=
  if runParams.Mode = ModeQuick then
    runQuickMaintenance ws s runParams
  else if runParams.Mode = ModeFull then
    runFullMaintenance ws s runParams
  else
    (some (Error.errorf "unknown mode %q" [runParams.Mode]), s)

/-- The worker calls logged on the way from `s` to the later `s2`. -/
def stepsSince {σ : Type} (s s2 : Running σ) : List Step := s2.steps.drop s.steps.length

/-- Sample workers on a store that counts the calls: every call succeeds. -/
def sampleWorkers : Workers Nat :=
  { DropDeletedContents := fun _ n => (none, n + 1)
    RewriteContents := fun _ n => (none, n + 1)
    DeleteUnreferencedBlobs := fun _ n => (Except.ok 0, n + 1) }

/-- Sample workers on a store that counts the calls: `RewriteContents` fails. -/
def sampleWorkersRewriteFails : Workers Nat :=
  { DropDeletedContents := fun _ n => (none, n + 1)
    RewriteContents := fun _ n => (some (Error.msg "pack not found"), n + 1)
    DeleteUnreferencedBlobs := fun _ n => (Except.ok 0, n + 1) }

/-! ## The command `blob gc`: `cli/command_blob_gc.go`

The values of the command-line flags are inputs (`BlobGcFlags`).  `advancedCommand` and
`DeleteUnreferencedBlobs` are declared in files that are not among the sources and are
taken as parameters (`BlobGcEnv`).  The hint that the command logs is part of the
embedding, as an `info` entry of the output. -/

/-- Modelled from the spec: the type `maintenance.SafetyParameters` (safety profile):
`{ blobDeleteMinAge, dropContentFromIndexExtraMargin, rewriteMinAge,
requireTwoQueueScanPasses }`. -/
structure SafetyParameters where
  BlobDeleteMinAge : Duration
  DropContentFromIndexExtraMargin : Duration
  RewriteMinAge : Duration
  RequireTwoQueueScanPasses : Bool
deriving DecidableEq, Repr

/-- Modelled from the spec: the profile `SafetyNone` sets all grace periods to zero. -/
def SafetyNone : SafetyParameters :=
  { BlobDeleteMinAge := 0
    DropContentFromIndexExtraMargin := 0
    RewriteMinAge := 0
    RequireTwoQueueScanPasses := false }

/-- The flags of `blob gc`: `--delete`, `--parallel`, `--prefix`, `--safety`. -/
structure BlobGcFlags where
  blobGarbageCollectCommandDelete : String
  blobGarbageCollectParallel : Int
  blobGarbageCollectPrefix : String
  blobGarbageCollectSafety : SafetyParameters
deriving DecidableEq, Repr

/-- What `blob gc` calls, on a store `σ`. -/
structure BlobGcEnv (σ : Type) where
  advancedCommand : σ → σ
  DeleteUnreferencedBlobs :
    DeleteUnreferencedBlobsOptions → SafetyParameters → σ → Except Error Int × σ

/-- The visible steps of `blob gc`. -/
inductive BlobGcEvent where
  | advancedCommand
  | deleteUnreferencedBlobs (opts : DeleteUnreferencedBlobsOptions)
      (safety : SafetyParameters) (res : Except Error Int)
  | info (text : String)

/-- The store on which `blob gc` runs, with the log of its steps. -/
structure BlobGcState (σ : Type) where
  store : σ
  out : List BlobGcEvent

/-- The function `runBlobGarbageCollectCommand`. -/
def runBlobGarbageCollectCommand {σ : Type} (env : BlobGcEnv σ) (flags : BlobGcFlags)
    (c : BlobGcState σ) : Option Error × BlobGcState σ :=
  let c1 : BlobGcState σ :=
    { store := env.advancedCommand c.store, out := c.out ++ [BlobGcEvent.advancedCommand] }
  let opts : DeleteUnreferencedBlobsOptions :=
    { DryRun := decide (flags.blobGarbageCollectCommandDelete ≠ "yes")
      Parallel := flags.blobGarbageCollectParallel
      Prefix := flags.blobGarbageCollectPrefix }
  let res := env.DeleteUnreferencedBlobs opts flags.blobGarbageCollectSafety c1.store
  let c2 : BlobGcState σ :=
    { store := res.2
      out := c1.out ++
        [BlobGcEvent.deleteUnreferencedBlobs opts flags.blobGarbageCollectSafety res.1] }
  match res.1 with
  | Except.error err => (some (err.Wrap "error deleting unreferenced blobs"), c2)
  | Except.ok n =>
    if opts.DryRun = true ∧ n > 0 then
      (none, { c2 with out := c2.out ++ [BlobGcEvent.info "Pass --delete=yes to delete."] })
    else
      (none, c2)

/-- The steps of `blob gc` logged on the way from `c` to the later `c2`. -/
def blobGcOutSince {σ : Type} (c c2 : BlobGcState σ) : List BlobGcEvent :=
  c2.out.drop c.out.length

/-- The options and safety profiles of the `DeleteUnreferencedBlobs` calls among the
steps, in order. -/
def gcCalls : List BlobGcEvent → List (DeleteUnreferencedBlobsOptions × SafetyParameters)
  | [] => []
  | BlobGcEvent.deleteUnreferencedBlobs opts safety _ :: evs => (opts, safety) :: gcCalls evs
  | _ :: evs => gcCalls evs

/-- Sample environment of `blob gc` on a store that counts the calls:
`DeleteUnreferencedBlobs` finds three unreferenced blobs. -/
def sampleGcEnv : BlobGcEnv Nat :=
  { advancedCommand := fun n => n
    DeleteUnreferencedBlobs := fun _ _ n => (Except.ok 3, n + 1) }

/-- Sample environment of `blob gc`: listing the blobs fails. -/
def sampleGcEnvFailing : BlobGcEnv Nat :=
  { advancedCommand := fun n => n
    DeleteUnreferencedBlobs := fun _ _ n => (Except.error (Error.msg "listing failed"), n) }

/-- Sample flags of `blob gc` with the given value of `--delete`. -/
def sampleGcFlags (delete : String) : BlobGcFlags :=
  { blobGarbageCollectCommandDelete := delete
    blobGarbageCollectParallel := 16
    blobGarbageCollectPrefix := "q"
    blobGarbageCollectSafety := SafetyNone }

/-! ## The command `manifest list`: `cli/command_manifest_ls.go`

A Go `map[string]string` is an association list with pairwise distinct keys, in the order
in which `range` happens to visit it.  Strings are sequences of characters; Go compares
strings byte by byte, which for UTF-8 text is the order of the characters. -/

/-- A Go `map[string]string`. -/
abbrev StringMap := List (String × String)

/-- The expression `m[key]`: the value stored under `key`, the empty string if there is
none. -/
def StringMap.get (m : StringMap) (key : String) : String := (m.lookup key).getD ""

/-- The statement `m[key] = value`. -/
def StringMap.set : StringMap → String → String → StringMap
  | [], key, value => [(key, value)]
  | (k, v) :: rest, key, value =>
    if k = key then (key, value) :: rest else (k, v) :: StringMap.set rest key value

/-- The comparison `a < b` of two Go strings, evaluated on the character sequences. -/
def stringLess (a b : String) : Bool := decide (a.data < b.data)

/-- The call `sort.Strings(xs)`: the strings in ascending order. -/
def sortStrings (xs : List String) : List String :=
  xs.insertionSort fun a b => stringLess b a = false

/-- The function `sortedMapValues`. -/
def sortedMapValues (m : StringMap) : String :=
  let result : List String :=
    m.filterMap fun kv => if kv.1 = "type" then none else some (kv.1 ++ ":" ++ kv.2)
  -- sort.Strings(result); strings.Join(result, " ")
  " ".intercalate (sortStrings result)

/-- The struct `manifest.EntryMetadata` (declared in package `manifest`, not among the
sources), with the fields that `manifest list` reads. -/
structure EntryMetadata where
  ID : String
  Length : Int
  Labels : StringMap
  ModTime : Time
deriving DecidableEq, Repr

/-- The flags of `manifest list`: `--filter`, `--sort`, `--json`. -/
structure ManifestListFlags where
  manifestListFilter : List String
  manifestListSort : List String
  jsonOutput : Bool
deriving DecidableEq, Repr

/-- What `manifest list` calls on the repository, a store `σ`. -/
structure ManifestListEnv (σ : Type) where
  FindManifests : StringMap → σ → Except Error (List EntryMetadata) × σ

/-- The visible steps of `manifest list`: the calls on the JSON list writer (`jl.begin`,
`jl.emit`, `jl.end`), the query, and the rows printed.  A row holds the five values that
`fmt.Printf` formats: id, length, modification time, type and the other labels. -/
inductive ManifestListEvent where
  | jsonBegin
  | jsonEnd
  | findManifests (filter : StringMap) (res : Except Error (List EntryMetadata))
  | jsonItem (it : EntryMetadata)
  | row (id : String) (length : Int) (modTime : Time) (t : String) (labels : String)

/-- The repository on which `manifest list` runs, with the log of its steps. -/
structure ManifestListState (σ : Type) where
  store : σ
  out : List ManifestListEvent

/-- The call `strings.Index(s, string(c))` for a one-character substring: the position of
the first `c` in `s`, or `-1`.  Positions count characters; `c` is one byte wide in the
use made of it, so the slices taken at this position are the same as in Go. -/
def stringsIndex (s : String) (c : Char) : Int :=
  if c ∈ s.data then (s.data.indexOf c : Nat) else -1

/-- The slice `s[lo:hi]`. -/
def sliceBetween (s : String) (lo hi : Nat) : String := String.mk ((s.data.take hi).drop lo)

/-- The slice `s[lo:]`. -/
def sliceFrom (s : String) (lo : Nat) : String := String.mk (s.data.drop lo)

/-- The loop of `listManifestItems` over `*manifestListFilter` (lines 33-40), from the
filter built so far. -/
def parseFilter : List String → StringMap → Except Error StringMap
  | [], filter => Except.ok filter
  | kv :: rest, filter =>
    if stringsIndex kv ':' ≤ 0 then
      Except.error (Error.errorf "invalid list filter %q, missing ':'" [kv])
    else
      parseFilter rest
        (filter.set (sliceBetween kv 0 (stringsIndex kv ':').toNat)
          (sliceFrom kv ((stringsIndex kv ':').toNat + 1)))

/-- The function literal handed to `sort.Slice` (lines 47-55), for the entries `a` at
index `i` and `b` at index `j`. -/
def manifestLess : List String → EntryMetadata → EntryMetadata → Bool
  | [], a, b => decide (a.ModTime < b.ModTime)
  | key :: keys, a, b =>
    if a.Labels.get key ≠ b.Labels.get key then
      stringLess (a.Labels.get key) (b.Labels.get key)
    else
      manifestLess keys a b

/-- The call `sort.Slice(items, less)`.  The library sort is not stable: where `less`
orders neither of two entries before the other, Go may return them in any order.  The
embedding takes the stable insertion sort, which is one of these results. -/
def sortSlice (less : EntryMetadata → EntryMetadata → Bool) (items : List EntryMetadata) :
    List EntryMetadata :=
  items.insertionSort fun a b => less b a = false

/-- The loop of `listManifestItems` over the sorted items (lines 57-64). -/
def printItems (jsonOutput : Bool) : List EntryMetadata → List ManifestListEvent
  | [] => []
  | it :: rest =>
    (if jsonOutput then
      ManifestListEvent.jsonItem it
    else
      ManifestListEvent.row it.ID it.Length it.ModTime (it.Labels.get "type")
        (sortedMapValues it.Labels)) :: printItems jsonOutput rest

/-- The function `listManifestItems`. -/
def listManifestItems {σ : Type} (env : ManifestListEnv σ) (flags : ManifestListFlags)
    (c : ManifestListState σ) : Option Error × ManifestListState σ :=
  -- jl.begin(); the deferred jl.end() runs on every return
  let c0 : ManifestListState σ := { c with out := c.out ++ [ManifestListEvent.jsonBegin] }
  match parseFilter flags.manifestListFilter [] with
  | Except.error err => (some err, { c0 with out := c0.out ++ [ManifestListEvent.jsonEnd] })
  | Except.ok filter =>
    match env.FindManifests filter c0.store with
    | (Except.error err, store1) =>
      (some (err.Wrap "unable to find manifests"),
        { store := store1
          out := c0.out ++
            [ManifestListEvent.findManifests filter (Except.error err),
             ManifestListEvent.jsonEnd] })
    | (Except.ok items, store1) =>
      (none,
        { store := store1
          out := c0.out ++ [ManifestListEvent.findManifests filter (Except.ok items)] ++
            printItems flags.jsonOutput
              (sortSlice (manifestLess flags.manifestListSort) items) ++
            [ManifestListEvent.jsonEnd] })

/-- The steps of `manifest list` logged on the way from `c` to the later `c2`. -/
def manifestListOutSince {σ : Type} (c c2 : ManifestListState σ) :
    List ManifestListEvent :=
  c2.out.drop c.out.length

/-- The filters with which `FindManifests` is queried among the steps, in order. -/
def findManifestsQueries : List ManifestListEvent → List StringMap
  | [] => []
  | ManifestListEvent.findManifests filter _ :: evs => filter :: findManifestsQueries evs
  | _ :: evs => findManifestsQueries evs

/-- The split of a filter item at its first `:`, in the words of the claim: the key is the
text before the first `:`, the value is everything after it. -/
def splitAtFirstColon (kv : String) : String × String :=
  (String.mk (kv.data.takeWhile fun ch => ch ≠ ':'),
    String.mk ((kv.data.dropWhile fun ch => ch ≠ ':').drop 1))

/-- A filter item that `manifest list` rejects, in the words of the claim: it contains no
`:`, or `:` is its first character. -/
def badFilterItem (kv : String) : Bool :=
  decide (':' ∉ kv.data) || decide (kv.data.head? = some ':')

/-- Sample repository for `manifest list`: `FindManifests` finds nothing. -/
def sampleManifestEnv : ManifestListEnv Nat :=
  { FindManifests := fun _ n => (Except.ok [], n + 1) }

/-- The value that a list of well-formed filter items gives to `key`, in the words of the
claim: the value of the last item whose key is `key`, if there is one. -/
def filterValue (items : List String) (key : String) : Option String :=
  (items.reverse.find? fun kv => decide ((splitAtFirstColon kv).1 = key)).map
    fun kv => (splitAtFirstColon kv).2

/-! ## The content rewriter `RewriteContents`

`RewriteContents` is declared in a file that is not among the sources; its test
(`content_rewrite_test.go`) and its callers are.  The definitions of this section follow
section 4.3 of the specification and its data model. -/

/-- Modelled from the spec: a `BlobID` of a pack blob; pack blobs carry one-character
prefixes, `p` (data packs) and `q` (metadata/special packs).  The embedding keeps the
prefix and the rest of the identifier apart. -/
structure BlobID where
  Prefix : String
  Name : String
deriving DecidableEq, Repr

/-- Modelled from the spec: an index entry, the mapping of a `ContentID` to its pack with
the attributes `length`, `formatVersion` and `deleted` (offset and timestamp play no part
in the selection). -/
structure ContentInfo where
  ContentID : String
  PackBlobID : BlobID
  Length : Nat
  FormatVersion : Int
  Deleted : Bool
deriving DecidableEq, Repr

/-- Modelled from the spec: the storage state that the rewriter works on: the listing of
the pack blobs, the contents of the index, the target pack size, and the contents whose
bytes cannot be read or written back, with the error that this gives. -/
structure Storage where
  packBlobs : List BlobID
  index : List ContentInfo
  targetPackSize : Nat
  faults : List (String × Error)

/-- Modelled from the spec: the listing of the pack blobs with a one-character prefix
(`blob.ListAllBlobs(ctx, st, "p")` in the test). -/
def Storage.listPacks (st : Storage) (pfx : String) : List BlobID :=
  st.packBlobs.filter fun b => decide (b.Prefix = pfx)

/-- Modelled from the spec: the live payload of a pack, the lengths of the contents
recorded in it that are not deleted. -/
def Storage.livePayload (st : Storage) (pack : BlobID) : Nat :=
  ((st.index.filter fun c => decide (c.PackBlobID = pack) && !c.Deleted).map
    fun c => c.Length).sum

/-- Modelled from the spec: a pack is short if its current live payload occupies less than
80% of the target pack size. -/
def Storage.isShortPack (st : Storage) (pack : BlobID) : Bool :=
  decide (st.livePayload pack * 100 < st.targetPackSize * 80)

/-- Modelled from the spec: membership of a content id in a `contentIDRange`: inclusive
`[minID, maxID]`, or `allIDs`, or `allPrefixedIDs` (the `q`-prefix range only); a range
that is not set holds no id. -/
def IDRange.holds : IDRange → String → Bool
  | IDRange.unset, _ => false
  | IDRange.AllIDs, _ => true
  | IDRange.AllPrefixedIDs, id => decide (id.data.head? = some 'q')
  | IDRange.range minID maxID, id => !stringLess id minID && !stringLess maxID id

/-- Modelled from the spec: `packPrefix` restricts to contents whose residence pack begins
with this prefix (an empty prefix restricts nothing). -/
def packBeginsWith (pfx : String) (pack : BlobID) : Bool :=
  pfx.data.isPrefixOf (pack.Prefix.data ++ pack.Name.data)

/-- Modelled from the spec: the filter of step 1.  `contentIDRange` and `contentIDs` are
united; `shortPacks` includes the contents that reside in a short pack; `formatVersion`,
if not negative, includes the contents whose pack format is older; `packPrefix` restricts
the whole selection. -/
def matchesFilter (opt : RewriteContentsOptions) (st : Storage) (c : ContentInfo) : Bool :=
  packBeginsWith opt.PackPrefix c.PackBlobID &&
    (opt.ContentIDRange.holds c.ContentID
      || opt.ContentIDs.contains c.ContentID
      || (opt.ShortPacks && st.isShortPack c.PackBlobID)
      || (decide (0 ≤ opt.FormatVersion) && decide (c.FormatVersion < opt.FormatVersion)))

/-- Modelled from the spec: the source pack is the only pack for its prefix: the listing
holds one pack blob with the prefix of the source pack. -/
def Storage.onlyPackForItsPrefix (st : Storage) (pack : BlobID) : Bool :=
  decide ((st.listPacks pack.Prefix).length = 1)

/-- Modelled from the spec: steps 1 to 3.  The selection set is built by enumerating the
current contents and keeping those that match the filter; it is grouped by source pack;
when `shortPacks` is set, the groups whose source pack is the only pack for its prefix are
dropped. -/
def selectContents (opt : RewriteContentsOptions) (st : Storage) : List ContentInfo :=
  if opt.ShortPacks then
    (st.index.filter (matchesFilter opt st)).filter fun c =>
      !st.onlyPackForItsPrefix c.PackBlobID
  else
    st.index.filter (matchesFilter opt st)

/-- Modelled from the spec: the content manager of steps 4 and 5, which "assigns new
`(packBlobID, offset)`" to a content that is written back.  The spec does not say how many
packs the content manager opens nor how it fills them: which of its new packs receives a
content, by number, is a parameter. -/
structure ContentManager where
  packNumber : ContentInfo → Nat

/-- Modelled from the spec: the name of the new pack with the number `k`; no pack blob of
the listing carries it (a fresh pack destination). -/
def freshName (blobs : List BlobID) (k : Nat) : String :=
  String.mk (List.replicate ((blobs.map fun b => b.Name.length).foldr max 0 + 1) 'n' ++
    (toString k).data)

/-- Modelled from the spec: the new pack to which the content manager writes a content
back: a fresh pack blob with the prefix of the pack in which the content resided (`p` for
data, `q` for metadata). -/
def Storage.newPack (st : Storage) (cm : ContentManager) (c : ContentInfo) : BlobID :=
  { Prefix := c.PackBlobID.Prefix, Name := freshName st.packBlobs (cm.packNumber c) }

/-- Modelled from the spec: the failure of step 4 for a content, if any. -/
def Storage.fault (st : Storage) (c : ContentInfo) : Option Error := st.faults.lookup c.ContentID

/-- Modelled from the spec: the selected contents that are rewritten: a failure on one
content aborts further dispatch but does not retract the contents rewritten before. -/
def rewrittenContents (st : Storage) (selected : List ContentInfo) : List ContentInfo :=
  selected.takeWhile fun c => (st.fault c).isNone

/-- Modelled from the spec: the first error of a pass. -/
def firstError (st : Storage) (selected : List ContentInfo) : Option Error :=
  (selected.find? fun c => (st.fault c).isSome).bind fun c => st.fault c

/-- What a call of `RewriteContents` gives: its error, the storage state after it, and the
selection (the plan that a dry run emits). -/
structure RewriteOutcome where
  err : Option Error
  storage : Storage
  selected : List ContentInfo

/-- Modelled from the spec: `RewriteContents` (section 4.3).  A dry run produces the
selection and performs no I/O.  Otherwise every selected content is read and written back
to the new pack that the content manager assigns to it, in the order of the index, up to
the first failure; the new packs are added to the listing and the index entries of the
rewritten contents point to them; the old packs stay in the listing until the garbage
collector removes them. -/
def RewriteContents (cm : ContentManager) (opt : RewriteContentsOptions) (st : Storage) :
    RewriteOutcome :=
  if opt.DryRun then
    { err := none, storage := st, selected := selectContents opt st }
  else
    let done := rewrittenContents st (selectContents opt st)
    { err := firstError st (selectContents opt st)
      storage :=
        { st with
          packBlobs := st.packBlobs ++ (done.map fun c => st.newPack cm c).dedup
          index := st.index.map fun c =>
            if c ∈ done then { c with PackBlobID := st.newPack cm c } else c }
      selected := selectContents opt st }

/-- Sample storage of the test `TestContentRewrite`: `numP` packs with prefix `p` and `numQ`
packs with prefix `q`, one content of 10 bytes in each, target pack size 1000. -/
def sampleStorage (numP numQ : Nat) : Storage :=
  { packBlobs :=
      (List.range numP).map (fun i => { Prefix := "p", Name := toString i }) ++
      (List.range numQ).map (fun i => { Prefix := "q", Name := toString i })
    index :=
      (List.range numP).map (fun i =>
        { ContentID := "c" ++ toString i
          PackBlobID := { Prefix := "p", Name := toString i }
          Length := 10, FormatVersion := 1, Deleted := false }) ++
      (List.range numQ).map (fun i =>
        { ContentID := "k" ++ toString i
          PackBlobID := { Prefix := "q", Name := toString i }
          Length := 10, FormatVersion := 1, Deleted := false })
    targetPackSize := 1000
    faults := [] }


/-- Sample content manager: every content that is written back goes to one new pack of its
prefix. -/
def onePackManager : ContentManager := { packNumber := fun _ => 0 }

/-- Sample content manager: every content that is written back goes to a new pack of its
own, numbered by the length of the content. -/
def packPerContentManager : ContentManager := { packNumber := fun c => c.Length }

/-- Sample storage: two `q` packs that hold no content (both are short), target pack size
1000. -/
def emptyPacksStorage : Storage :=
  { packBlobs := [{ Prefix := "q", Name := "0" }, { Prefix := "q", Name := "1" }]
    index := []
    targetPackSize := 1000
    faults := [] }

/-- Sample storage: three short `q` packs with one content each, of 10, 20 and 30 bytes,
target pack size 1000; the content `k0` cannot be read if `failing` is set. -/
def threePacksStorage (failing : Bool) : Storage :=
  { packBlobs :=
      [{ Prefix := "q", Name := "0" }, { Prefix := "q", Name := "1" },
       { Prefix := "q", Name := "2" }]
    index :=
      [{ ContentID := "k0", PackBlobID := { Prefix := "q", Name := "0" }, Length := 10,
         FormatVersion := 1, Deleted := false },
       { ContentID := "k1", PackBlobID := { Prefix := "q", Name := "1" }, Length := 20,
         FormatVersion := 1, Deleted := false },
       { ContentID := "k2", PackBlobID := { Prefix := "q", Name := "2" }, Length := 30,
         FormatVersion := 1, Deleted := false }]
    targetPackSize := 1000
    faults := if failing then [("k0", Error.msg "unable to read content")] else [] }


/-! ## The order of the rows of `manifest list` -/

/-- The tuple `(Labels[k1], ..., Labels[kn], ModTime)` of an entry, in the words of the
claim: a label that is missing counts as the empty string. -/
def sortTuple (keys : List String) (it : EntryMetadata) : List String × Time :=
  (keys.map fun key => (it.Labels.lookup key).getD "", it.ModTime)

/-- Lexicographic comparison of the label values of two tuples followed by their times, in
the words of the claim: the first position at which the values differ decides, by the
order of the strings; with no such position the times decide.  (The order of Lean strings
is the order of their code points, which is the order of their UTF-8 bytes.) -/
def valuesBefore : List String → List String → Time → Time → Bool
  | v :: vs, u :: us, t, s => decide (v < u) || (decide (v = u) && valuesBefore vs us t s)
  | _, _, t, s => decide (t < s)

/-- Tuple `x` comes strictly before the tuple `y`. -/
def tupleBefore (x y : List String × Time) : Bool := valuesBefore x.1 y.1 x.2 y.2

/-- Sample entries for `manifest list`. -/
def sampleManifestItems : List EntryMetadata :=
  [ { ID := "m1", Length := 10, Labels := [("type", "snapshot"), ("host", "b")], ModTime := 5 },
    { ID := "m2", Length := 20, Labels := [("type", "policy")], ModTime := 9 },
    { ID := "m3", Length := 30, Labels := [("type", "snapshot"), ("host", "a")], ModTime := 7 },
    { ID := "m4", Length := 40, Labels := [("type", "snapshot"), ("host", "a")], ModTime := 3 } ]

/-- Sample repository for `manifest list`: `FindManifests` finds the sample entries. -/
def sampleManifestEnvWithItems : ManifestListEnv Nat :=
  { FindManifests := fun _ n => (Except.ok sampleManifestItems, n + 1) }

/-! ## Directory entries: `fs/dir_json.go`

Conventions of this section.

* The unsigned 32-bit fields of `directoryEntry` are natural numbers and its `int64` field
  is an integer; `directoryEntry.inRange` says that they are values of their Go types.
* `WriteEntry` is embedded up to the `jsonDirectoryEntry` that it builds; its JSON
  encoding and the bytes written are not part of the embedding.
* The functions of the Go library that the code calls (`strconv.FormatInt`,
  `strconv.ParseUint`, `strconv.ParseInt`, `fmt.Sprintf` and `fmt.Sscanf` with the format
  `%d:%d`, the constants of `os.FileMode`) are embedded after the library; where the
  library walks over the bytes of a string the embedding walks over its characters, and a
  character that is not ASCII is rejected as its bytes are. -/

/-- The constant `os.ModeDir`. -/
def ModeDir : Nat := 2 ^ 31

/-- The constant `os.ModeSymlink`. -/
def ModeSymlink : Nat := 2 ^ 27

/-- The constant `os.ModeDevice`. -/
def ModeDevice : Nat := 2 ^ 26

/-- The constant `os.ModeNamedPipe`. -/
def ModeNamedPipe : Nat := 2 ^ 25

/-- The constant `os.ModeSocket`. -/
def ModeSocket : Nat := 2 ^ 24

/-- The constant `os.ModeCharDevice`. -/
def ModeCharDevice : Nat := 2 ^ 21

/-- The constant `os.ModeIrregular`. -/
def ModeIrregular : Nat := 2 ^ 19

/-- The constant `os.ModeType`, the mask of the type bits. -/
def ModeType : Nat :=
  ModeDir ||| ModeSymlink ||| ModeNamedPipe ||| ModeSocket ||| ModeDevice |||
    ModeCharDevice ||| ModeIrregular

/-- The constant `os.ModePerm`, the Unix permission bits `0777`. -/
def ModePerm : Nat := 0o777

/-- The struct `directoryEntry`; the defaults are the zero values of Go. -/
structure directoryEntry where
  name : String := ""
  fileMode : Nat := 0
  fileSize : Int := 0
  modTime : Time := 0
  userID : Nat := 0
  groupID : Nat := 0
  objectID : String := ""
deriving DecidableEq, Repr

/-- The struct `jsonDirectoryEntry`; the defaults are the zero values of Go. -/
structure jsonDirectoryEntry where
  FileName : String := ""
  DirName : String := ""
  Permissions : String := ""
  Size : String := ""
  Time : Time := 0
  Owner : String := ""
  ObjectID : String := ""
deriving DecidableEq, Repr

/-- The fields of a `directoryEntry` are values of their Go types `uint32` and `int64`. -/
def directoryEntry.inRange (de : directoryEntry) : Prop :=
  de.fileMode < 2 ^ 32 ∧ de.userID < 2 ^ 32 ∧ de.groupID < 2 ^ 32 ∧
    -(2 : Int) ^ 63 ≤ de.fileSize ∧ de.fileSize < (2 : Int) ^ 63

/-- The method `Name`. -/
def directoryEntry.Name (de : directoryEntry) : String := de.name

/-- The method `Mode`. -/
def directoryEntry.Mode (de : directoryEntry) : Nat := de.fileMode

/-- The method `os.FileMode.IsDir`. -/
def FileMode_IsDir (m : Nat) : Bool := decide (m &&& ModeDir ≠ 0)

/-- The method `os.FileMode.IsRegular`. -/
def FileMode_IsRegular (m : Nat) : Bool := decide (m &&& ModeType = 0)

/-- The method `IsDir`. -/
def directoryEntry.IsDir (de : directoryEntry) : Bool := FileMode_IsDir de.Mode

/-- The method `Size`. -/
def directoryEntry.Size (de : directoryEntry) : Int :=
  if FileMode_IsRegular de.Mode then de.fileSize else 0

/-- The method `UserID`. -/
def directoryEntry.UserID (de : directoryEntry) : Nat := de.userID

/-- The method `GroupID`. -/
def directoryEntry.GroupID (de : directoryEntry) : Nat := de.groupID

/-- The method `ModTime`. -/
def directoryEntry.ModTime (de : directoryEntry) : Time := de.modTime

/-- The method `ObjectID`. -/
def directoryEntry.ObjectID (de : directoryEntry) : String := de.objectID

/-- The table `digits` of package `strconv`. -/
def strconvDigits : List Char := "0123456789abcdefghijklmnopqrstuvwxyz".data

/-- The loop of `strconv.formatBits` for a base that is not a power of two handled apart:
it writes the digits of `u` from the last to the first in front of `acc`.  The buffer of
the library holds 65 bytes, which bounds the loop for every 64-bit value. -/
def formatBitsLoop (b : Nat) : Nat → Nat → List Char → List Char
  | 0, u, acc => strconvDigits.getD u '0' :: acc
  | fuel + 1, u, acc =>
    if b ≤ u then formatBitsLoop b fuel (u / b) (strconvDigits.getD (u % b) '0' :: acc)
    else strconvDigits.getD u '0' :: acc

/-- The call `strconv.FormatInt(i, base)`. -/
def FormatInt (i : Int) (base : Nat) : String :=
  String.mk ((if i < 0 then ['-'] else []) ++ formatBitsLoop base 64 i.natAbs [])

/-- The error `&NumError{fn, str, ErrSyntax}` of package `strconv`, by its text. -/
def syntaxError (fn str : String) : Error :=
  Error.errorf "strconv.%s: parsing %q: invalid syntax" [fn, str]

/-- The error `&NumError{fn, str, ErrRange}` of package `strconv`, by its text. -/
def rangeError (fn str : String) : Error :=
  Error.errorf "strconv.%s: parsing %q: value out of range" [fn, str]

/-- The digit that a character stands for in `strconv.ParseUint`: `'0'..'9'`, or a letter
(`lower(c) - 'a' + 10`); no digit otherwise. -/
def digitOf (c : Char) : Option Nat :=
  if '0'.toNat ≤ c.toNat ∧ c.toNat ≤ '9'.toNat then some (c.toNat - '0'.toNat)
  else if 'a'.toNat ≤ (c.toNat ||| 32) ∧ (c.toNat ||| 32) ≤ 'z'.toNat then
    some ((c.toNat ||| 32) - 'a'.toNat + 10)
  else none

/-- The loop of `strconv.ParseUint` for a base from 2 to 36 given explicitly (underscores
are accepted for base 0 only); `fn` and `s0` go into the errors. -/
def parseUintLoop (fn s0 : String) (base cutoff maxVal : Nat) :
    List Char → Nat → Except Error Nat
  | [], n => Except.ok n
  | c :: cs, n =>
    match digitOf c with
    | none => Except.error (syntaxError fn s0)
    | some d =>
      if base ≤ d then Except.error (syntaxError fn s0)
      else if cutoff ≤ n then Except.error (rangeError fn s0)
      else if maxVal < n * base + d then Except.error (rangeError fn s0)
      else parseUintLoop fn s0 base cutoff maxVal cs (n * base + d)

/-- The body of `strconv.ParseUint(s, base, bitSize)` for `2 ≤ base ≤ 36` and
`1 ≤ bitSize ≤ 64`, with the function name that goes into its errors. -/
def parseUintAs (fn : String) (s : String) (base bitSize : Nat) : Except Error Nat :=
  if s = "" then Except.error (syntaxError fn s)
  else parseUintLoop fn s base ((2 ^ 64 - 1) / base + 1) (2 ^ bitSize - 1) s.data 0

/-- The call `strconv.ParseUint(s, base, bitSize)`. -/
def ParseUint (s : String) (base bitSize : Nat) : Except Error Nat :=
  parseUintAs "ParseUint" s base bitSize

/-- The call `strconv.ParseInt(s, base, bitSize)` for `2 ≤ base ≤ 36` and
`1 ≤ bitSize ≤ 64`: a leading sign is picked off, the rest is converted as an unsigned
number and the range is checked.  An error of the unsigned conversion is reported under
the name `ParseInt` with the whole text. -/
def ParseInt (s : String) (base bitSize : Nat) : Except Error Int :=
  if s = "" then Except.error (syntaxError "ParseInt" s)
  else
    let neg : Bool := decide (s.data.head? = some '-')
    let rest : List Char :=
      if s.data.head? = some '+' ∨ s.data.head? = some '-' then s.data.tail else s.data
    match (if rest = [] then Except.error (syntaxError "ParseInt" s)
      else parseUintLoop "ParseInt" s base ((2 ^ 64 - 1) / base + 1) (2 ^ bitSize - 1) rest 0) with
    | Except.error err => Except.error err
    | Except.ok un =>
      if neg = false ∧ 2 ^ (bitSize - 1) ≤ un then Except.error (rangeError "ParseInt" s)
      else if neg = true ∧ 2 ^ (bitSize - 1) < un then Except.error (rangeError "ParseInt" s)
      else Except.ok (if neg then -(un : Int) else (un : Int))

/-- The call `fmt.Sprintf("%d:%d", uid, gid)` for two unsigned numbers. -/
def sprintfOwner (uid gid : Nat) : String :=
  String.mk (formatBitsLoop 10 64 uid [] ++ ':' :: formatBitsLoop 10 64 gid [])

/-- The function `isSpace` of package `fmt` (its table `space`). -/
def fmtIsSpace (r : Char) : Bool :=
  decide ((0x0009 ≤ r.toNat ∧ r.toNat ≤ 0x000d) ∨ r.toNat = 0x0020 ∨ r.toNat = 0x0085 ∨
    r.toNat = 0x00a0 ∨ r.toNat = 0x1680 ∨ (0x2000 ≤ r.toNat ∧ r.toNat ≤ 0x200a) ∨
    (0x2028 ≤ r.toNat ∧ r.toNat ≤ 0x2029) ∨ r.toNat = 0x202f ∨ r.toNat = 0x205f ∨
    r.toNat = 0x3000)

/-- The method `SkipSpace` of the scanner of `fmt.Sscanf`, for which a newline is not a
space: it gives the input that is left, or nothing when it meets a newline. -/
def skipSpace : List Char → Option (List Char)
  | [] => some []
  | r :: rest =>
    -- the newline, character 10
    if r = Char.ofNat 10 then none
    else if fmtIsSpace r then skipSpace rest
    else some (r :: rest)

/-- The method `scanUint` of the scanner for the verb `%d`: spaces are skipped, a run of
decimal digits that is not empty is taken and converted with `strconv.ParseUint(tok, 10,
64)`, and the value has to fit `bitSize` bits.  It gives the value and the input that is
left, or nothing when the scan fails. -/
def scanUint (bitSize : Nat) (input : List Char) : Option (Nat × List Char) :=
  match skipSpace input with
  | none => none
  | some rest =>
    let tok := rest.takeWhile fun c => decide (c ∈ "0123456789".data)
    if tok = [] then none
    else
      match ParseUint (String.mk tok) 10 64 with
      | Except.error _ => none
      | Except.ok i =>
        if i % 2 ^ bitSize ≠ i then none
        else some (i, rest.dropWhile fun c => decide (c ∈ "0123456789".data))

/-- The call `fmt.Sscanf(owner, "%d:%d", &uid, &gid)` on two `uint32` variables: the values
of the two variables after the call.  A variable is written when its number has been
scanned; the scan stops at the first failure.  The result of `Sscanf` is dropped by the
caller. -/
def sscanfOwner (owner : String) (uid gid : Nat) : Nat × Nat :=
  match scanUint 32 owner.data with
  | none => (uid, gid)
  | some (u, rest) =>
    match rest with
    | ':' :: rest2 =>
      match scanUint 32 rest2 with
      | none => (u, gid)
      | some (g, _) => (u, g)
    | _ => (u, gid)

/-- The method `fromJSON`: its result and the entry as the call leaves it. -/
def directoryEntry.fromJSON (de : directoryEntry) (jde : jsonDirectoryEntry) :
    Option Error × directoryEntry :=
  let de1 : directoryEntry :=
    if jde.DirName ≠ "" then { de with name := jde.DirName }
    else if jde.FileName ≠ "" then { de with name := jde.FileName }
    else de
  let mode0 : Nat := if jde.DirName ≠ "" then ModeDir else 0
  match (if jde.Permissions ≠ "" then
      (ParseUint jde.Permissions 8 32).map fun s => mode0 ||| (s % 2 ^ 32)
    else Except.ok mode0) with
  | Except.error err => (some err, de1)
  | Except.ok mode =>
    let de2 : directoryEntry := { de1 with fileMode := mode, modTime := jde.Time }
    let de3 : directoryEntry :=
      if jde.Owner ≠ "" then
        { de2 with
          userID := (sscanfOwner jde.Owner de2.userID de2.groupID).1
          groupID := (sscanfOwner jde.Owner de2.userID de2.groupID).2 }
      else de2
    let de4 : directoryEntry := { de3 with objectID := jde.ObjectID }
    if jde.Size ≠ "" then
      match ParseInt jde.Size 10 64 with
      | Except.error err => (some err, de4)
      | Except.ok s => (none, { de4 with fileSize := s })
    else (none, de4)

/-- The `jsonDirectoryEntry` that the method `WriteEntry` builds for the entry `e` (lines
131-145). -/
def WriteEntry (e : directoryEntry) : jsonDirectoryEntry :=
  let jde : jsonDirectoryEntry :=
    if e.Mode &&& ModeType = ModeDir then { DirName := e.Name }
    else { FileName := e.Name, Size := FormatInt e.Size 10 }
  { jde with
    Permissions := FormatInt ((e.Mode &&& ModePerm : Nat) : Int) 8
    Time := e.ModTime
    Owner := sprintfOwner e.UserID e.GroupID
    ObjectID := e.ObjectID }

/-- Decoding, into a fresh entry, the `jsonDirectoryEntry` that `WriteEntry` builds for
the entry `e`. -/
def decodeWritten (e : directoryEntry) : Option Error × directoryEntry :=
  ({} : directoryEntry).fromJSON (WriteEntry e)

/-- Two entries agree on all accessors (`Sys` returns `nil` for every entry). -/
def sameOnAccessors (a b : directoryEntry) : Prop :=
  a.Name = b.Name ∧ a.Mode = b.Mode ∧ a.IsDir = b.IsDir ∧ a.Size = b.Size ∧
    a.UserID = b.UserID ∧ a.GroupID = b.GroupID ∧ a.ModTime = b.ModTime ∧
    a.ObjectID = b.ObjectID

/-- A valid number of base `base` (at most 10) that does not exceed `max`, in the words of
the claim: a text that is not empty, made of digits below `base`, whose value is at most
`max`. -/
def validNumber (base max : Nat) (cs : List Char) : Bool :=
  decide (cs ≠ []) &&
    cs.all (fun c => decide ('0'.toNat ≤ c.toNat ∧ c.toNat < '0'.toNat + base)) &&
    decide (cs.foldl (fun n c => n * base + (c.toNat - '0'.toNat)) 0 ≤ max)

/-- A valid base-8 unsigned number that fits in 32 bits, in the words of the claim. -/
def validOctal32 (s : String) : Bool := validNumber 8 (2 ^ 32 - 1) s.data

/-- A valid base-10 signed 64-bit number, in the words of the claim: a decimal number after
an optional sign, with a value from `-2^63` to `2^63 - 1`. -/
def validDecimal64 (s : String) : Bool :=
  if s.data.head? = some '-' then validNumber 10 (2 ^ 63) s.data.tail
  else if s.data.head? = some '+' then validNumber 10 (2 ^ 63 - 1) s.data.tail
  else validNumber 10 (2 ^ 63 - 1) s.data

/-- Sample entry: a regular file of 1234 bytes with the permissions `0644`. -/
def sampleFileEntry : directoryEntry :=
  { name := "notes.txt", fileMode := 0o644, fileSize := 1234, modTime := 77, userID := 501,
    groupID := 20, objectID := "D0a1b2" }

/-- Sample entry: a directory with the permissions `0755`. -/
def sampleDirEntry : directoryEntry :=
  { name := "docs", fileMode := 2 ^ 31 + 0o755, fileSize := 0, modTime := 78, userID := 0,
    groupID := 0, objectID := "D77" }

/-- Sample entry: a symbolic link with the set-uid bit. -/
def sampleLinkEntry : directoryEntry :=
  { name := "latest", fileMode := 2 ^ 27 + 2 ^ 23 + 0o777, fileSize := 9, modTime := 79,
    userID := 501, groupID := 20, objectID := "Dff" }


/-! ## Supporting lemmas -/

theorem nextFault_cases (fs : List (Option Error)) :
    nextFault fs = none ∨ ∃ e, nextFault fs = some e := by
  cases h : nextFault fs with
  | none => exact Or.inl rfl
  | some e => exact Or.inr ⟨e, rfl⟩

/-- Reading a clock that does not run backwards. -/
theorem Time_clockForward (r : Repo) (hr : r.clockForward) :
    r.now ≤ (r.Time).2.now ∧ (r.Time).2.clockForward := by
  rcases hticks : r.ticks with _ | ⟨d, ds⟩
  · simp [Repo.Time, Repo.clockForward, hticks]
  · have := hr d (by simp [hticks])
    refine ⟨by simp [Repo.Time, hticks]; linarith, ?_⟩
    intro x hx
    exact hr x (by simp [Repo.Time, hticks] at hx; simp [hticks, hx])

/-- The mode that `shouldRun` returns, in terms of the readings of the clock. -/
theorem shouldRun_eq (w : World) (p : Params)
    (hown : p.Owner = w.rep.Username ++ "@" ++ w.rep.Hostname)
    (hload : nextFault w.rep.getScheduleFaults = none) :
    (shouldRun w p).1 = Except.ok
      (if p.FullCycle.Enabled then
        if w.rep.schedule.NextFullMaintenanceTime < w.rep.reading 0 then ModeFull
        else if p.QuickCycle.Enabled ∧ w.rep.schedule.NextQuickMaintenanceTime < w.rep.reading 1
          then ModeQuick else ModeNone
      else if p.QuickCycle.Enabled ∧ w.rep.schedule.NextQuickMaintenanceTime < w.rep.reading 0
        then ModeQuick else ModeNone) := by
  simp only [shouldRun, GetSchedule, hown, hload, shouldRunQuick, World.Time, World.emit,
    Repo.reading, Repo.Time]
  split_ifs <;> simp_all <;> linarith

/-- What `shouldRun` leaves as it was. -/
theorem shouldRun_frame (w : World) (p : Params) :
    (shouldRun w p).2.lock = w.lock ∧
    (shouldRun w p).2.rep.schedule = w.rep.schedule ∧
    (shouldRun w p).2.rep.Username = w.rep.Username ∧
    (shouldRun w p).2.rep.Hostname = w.rep.Hostname ∧
    (shouldRun w p).2.rep.ConfigFilename = w.rep.ConfigFilename := by
  simp only [shouldRun, GetSchedule, shouldRunQuick, World.Time, World.emit, Repo.Time]
  rcases nextFault_cases w.rep.getScheduleFaults with hf | ⟨e, hf⟩
  · simp only [hf]
    split_ifs <;> simp
  · simp only [hf]
    split_ifs <;> simp

/-- The clock after `shouldRun`. -/
theorem shouldRun_clock (w : World) (p : Params) (hw : w.rep.clockForward) :
    w.rep.now ≤ (shouldRun w p).2.rep.now ∧ (shouldRun w p).2.rep.clockForward := by
  have h0 : ({ w.rep with getScheduleFaults := w.rep.getScheduleFaults.tail } : Repo).clockForward :=
    hw
  have h1 := Time_clockForward _ h0
  have h2 := Time_clockForward _ h1.2
  have h3 : w.rep.now ≤ (({ w.rep with
      getScheduleFaults := w.rep.getScheduleFaults.tail } : Repo).Time.2).Time.2.now :=
    le_trans h1.1 h2.1
  simp only [shouldRun, GetSchedule, shouldRunQuick, World.Time, World.emit]
  rcases nextFault_cases w.rep.getScheduleFaults with hf | ⟨e, hf⟩
  · simp only [hf]
    split_ifs
    all_goals first
      | exact ⟨le_refl _, hw⟩
      | exact ⟨le_refl _, h0⟩
      | exact h1
      | exact ⟨h3, h2.2⟩
  · simp only [hf]
    split_ifs
    all_goals exact ⟨le_refl _, hw⟩

/-- The result of `shouldRun` and what it logs. -/
theorem shouldRun_trace (w : World) (p : Params) :
    (∃ e, nextFault w.rep.getScheduleFaults = some e ∧
        (shouldRun w p).1 = Except.error (e.Wrap "error getting status") ∧
        (shouldRun w p).2.trace = w.trace ++ [Event.getSchedule (Except.error e)]) ∨
    (∃ m, (shouldRun w p).1 = Except.ok m ∧ (m = ModeNone ∨ m = ModeQuick ∨ m = ModeFull) ∧
        ((shouldRun w p).2.trace = w.trace ∨
         (shouldRun w p).2.trace =
            w.trace ++ [Event.getSchedule (Except.ok w.rep.schedule)])) := by
  simp only [shouldRun, GetSchedule, shouldRunQuick, World.Time, World.emit]
  rcases nextFault_cases w.rep.getScheduleFaults with hf | ⟨e, hf⟩
  · simp only [hf]
    right
    split_ifs
    · exact ⟨_, rfl, Or.inl rfl, Or.inl rfl⟩
    · exact ⟨_, rfl, Or.inr (Or.inr rfl), Or.inr rfl⟩
    · exact ⟨_, rfl, Or.inr (Or.inl rfl), Or.inr rfl⟩
    · exact ⟨_, rfl, Or.inl rfl, Or.inr rfl⟩
    · exact ⟨_, rfl, Or.inl rfl, Or.inr rfl⟩
    · exact ⟨_, rfl, Or.inr (Or.inl rfl), Or.inr rfl⟩
    · exact ⟨_, rfl, Or.inl rfl, Or.inr rfl⟩
    · exact ⟨_, rfl, Or.inl rfl, Or.inr rfl⟩
  · simp only [hf]
    split_ifs
    · exact Or.inr ⟨_, rfl, Or.inl rfl, Or.inl rfl⟩
    · exact Or.inl ⟨e, rfl, rfl, rfl⟩

/-- What `updateSchedule` leaves as it was. -/
theorem updateSchedule_frame (w : World) (rp : RunParameters) :
    (updateSchedule w rp).2.lock = w.lock ∧
    (updateSchedule w rp).2.rep.Username = w.rep.Username ∧
    (updateSchedule w rp).2.rep.Hostname = w.rep.Hostname ∧
    (updateSchedule w rp).2.rep.ConfigFilename = w.rep.ConfigFilename := by
  simp only [updateSchedule, GetSchedule, SetSchedule, World.Time, World.emit, Repo.Time]
  rcases nextFault_cases w.rep.getScheduleFaults with hf | ⟨e, hf⟩ <;>
    rcases nextFault_cases w.rep.setScheduleFaults with hs | ⟨e2, hs⟩ <;>
    simp only [hf, hs] <;> first | (split_ifs <;> simp) | simp

/-- The clock after `updateSchedule`. -/
theorem updateSchedule_clock (w : World) (rp : RunParameters) (hw : w.rep.clockForward) :
    w.rep.now ≤ (updateSchedule w rp).2.rep.now ∧ (updateSchedule w rp).2.rep.clockForward := by
  have h1 := Time_clockForward w.rep hw
  simp only [Repo.Time, Repo.clockForward] at h1 hw
  simp only [updateSchedule, GetSchedule, SetSchedule, World.Time, World.emit, Repo.Time,
    Repo.clockForward]
  rcases nextFault_cases w.rep.getScheduleFaults with hf | ⟨e, hf⟩ <;>
    rcases nextFault_cases w.rep.setScheduleFaults with hs | ⟨e2, hs⟩ <;>
    simp only [hf, hs] <;> (try split_ifs) <;>
    first
      | exact ⟨le_refl _, hw⟩
      | exact h1

/-- The result of `updateSchedule`, what it logs and what it stores. -/
theorem updateSchedule_outcome (w : World) (rp : RunParameters) :
    (∃ e, nextFault w.rep.getScheduleFaults = some e ∧
        (updateSchedule w rp).1 = some (e.Wrap "error getting schedule") ∧
        (updateSchedule w rp).2.trace = w.trace ++ [Event.getSchedule (Except.error e)] ∧
        (updateSchedule w rp).2.rep.schedule = w.rep.schedule) ∨
    (∃ e s, (rp.Mode = ModeFull ∨ rp.Mode = ModeQuick) ∧
        (updateSchedule w rp).1 = some e ∧
        (updateSchedule w rp).2.trace = w.trace ++
          [Event.getSchedule (Except.ok w.rep.schedule), Event.setSchedule s (some e)] ∧
        (updateSchedule w rp).2.rep.schedule = w.rep.schedule) ∨
    (rp.Mode ≠ ModeFull ∧ rp.Mode ≠ ModeQuick ∧
        (updateSchedule w rp).1 = none ∧
        (updateSchedule w rp).2.trace = w.trace ++
          [Event.getSchedule (Except.ok w.rep.schedule)] ∧
        (updateSchedule w rp).2.rep.schedule = w.rep.schedule) ∨
    (rp.Mode = ModeFull ∧
        (updateSchedule w rp).1 = none ∧
        (updateSchedule w rp).2.trace = w.trace ++
          [Event.getSchedule (Except.ok w.rep.schedule),
           Event.setSchedule (updateSchedule w rp).2.rep.schedule none] ∧
        (updateSchedule w rp).2.rep.schedule =
          { w.rep.schedule with
            NextFullMaintenanceTime :=
              (updateSchedule w rp).2.rep.now + rp.Params.FullCycle.Interval
            NextQuickMaintenanceTime :=
              (updateSchedule w rp).2.rep.now + rp.Params.FullCycle.Interval
                + rp.Params.QuickCycle.Interval }) ∨
    (rp.Mode = ModeQuick ∧
        (updateSchedule w rp).1 = none ∧
        (updateSchedule w rp).2.trace = w.trace ++
          [Event.getSchedule (Except.ok w.rep.schedule),
           Event.setSchedule (updateSchedule w rp).2.rep.schedule none] ∧
        (updateSchedule w rp).2.rep.schedule =
          { w.rep.schedule with
            NextQuickMaintenanceTime :=
              (updateSchedule w rp).2.rep.now + rp.Params.QuickCycle.Interval }) := by
  simp only [updateSchedule, GetSchedule, SetSchedule, World.Time, World.emit, Repo.Time]
  rcases nextFault_cases w.rep.getScheduleFaults with hf | ⟨e, hf⟩
  · rcases nextFault_cases w.rep.setScheduleFaults with hs | ⟨e2, hs⟩
    · simp only [hf, hs]
      split_ifs with h1 h2
      · simp [h1]
      · simp [h1, h2]
      · simp [h1, h2]
    · simp only [hf, hs]
      split_ifs with h1 h2
      · right; left
        exact ⟨e2, _, Or.inl h1, rfl, List.append_assoc _ _ _, rfl⟩
      · right; left
        exact ⟨e2, _, Or.inr h2, rfl, List.append_assoc _ _ _, rfl⟩
      · simp [h1, h2]
  · left
    exact ⟨e, hf, by simp [hf], by simp [hf], by simp [hf]⟩

/-- The ways in which a call of `RunExclusive` can end. -/
theorem RunExclusive_cases (w : World) (mode : Mode) (cb : Callback)
    (P : Option Error × World → Prop)
    (paramsFail : ∀ e, w.rep.params = Except.error e →
      P (some (e.Wrap "unable to get maintenance params"),
        w.emit (Event.getParams (Except.error e))))
    (notOwner : ∀ p, w.rep.params = Except.ok p →
      p.Owner ≠ w.rep.Username ++ "@" ++ w.rep.Hostname →
      P (none, w.emit (Event.getParams (Except.ok p))))
    (resolveFail : ∀ p e w2, w.rep.params = Except.ok p →
      p.Owner = w.rep.Username ++ "@" ++ w.rep.Hostname → mode = ModeAuto →
      shouldRun (w.emit (Event.getParams (Except.ok p))) p = (Except.error e, w2) →
      P (some (e.Wrap "unable to determine if maintenance is required"), w2))
    (notDue : ∀ p w2, w.rep.params = Except.ok p →
      p.Owner = w.rep.Username ++ "@" ++ w.rep.Hostname →
      Resolved w mode p ModeNone w2 → P (none, w2))
    (updateFail : ∀ p m w2 e w3, w.rep.params = Except.ok p →
      p.Owner = w.rep.Username ++ "@" ++ w.rep.Hostname →
      Resolved w mode p m w2 → m ≠ ModeNone →
      updateSchedule w2 { Mode := m, Params := p } = (some e, w3) →
      P (some (e.Wrap "error updating maintenance schedule"), w3))
    (lockFail : ∀ p m w2 w3 e, w.rep.params = Except.ok p →
      p.Owner = w.rep.Username ++ "@" ++ w.rep.Hostname →
      Resolved w mode p m w2 → m ≠ ModeNone →
      updateSchedule w2 { Mode := m, Params := p } = (none, w3) →
      w3.lock = LockState.broken e →
      P (some (e.Wrap "error acquiring maintenance lock"),
        w3.emit (Event.tryLock (lockFileOf w3.rep) (Except.error e))))
    (lockHeld : ∀ p m w2 w3, w.rep.params = Except.ok p →
      p.Owner = w.rep.Username ++ "@" ++ w.rep.Hostname →
      Resolved w mode p m w2 → m ≠ ModeNone →
      updateSchedule w2 { Mode := m, Params := p } = (none, w3) →
      (w3.lock = LockState.heldByOther ∨ w3.lock = LockState.heldByCaller) →
      P (none, w3.emit (Event.tryLock (lockFileOf w3.rep) (Except.ok false))))
    (locked : ∀ p m w2 w3, w.rep.params = Except.ok p →
      p.Owner = w.rep.Username ++ "@" ++ w.rep.Hostname →
      Resolved w mode p m w2 → m ≠ ModeNone →
      updateSchedule w2 { Mode := m, Params := p } = (none, w3) →
      w3.lock = LockState.free →
      P ((cb { Mode := m, Params := p } w3.rep).1,
        { rep := (cb { Mode := m, Params := p } w3.rep).2
          lock := LockState.free
          trace := w3.trace ++
            [Event.tryLock (lockFileOf w3.rep) (Except.ok true),
             Event.callback { Mode := m, Params := p } w3.rep,
             Event.unlock (lockFileOf w3.rep)] })) :
    P (RunExclusive w mode cb) := by
  unfold RunExclusive
  rcases hp : w.rep.params with e | p
  · simpa [GetParams, hp] using paramsFail e hp
  simp only [GetParams, hp]
  by_cases hown : p.Owner = w.rep.Username ++ "@" ++ w.rep.Hostname
  swap
  · simpa [World.emit, hown] using notOwner p hp hown
  have hown2 : ¬ (p.Owner ≠ (w.emit (Event.getParams (Except.ok p))).rep.Username ++ "@" ++
      (w.emit (Event.getParams (Except.ok p))).rep.Hostname) := not_not.mpr hown
  rw [if_neg hown2]
  -- mode resolution
  generalize hres : (if mode = ModeAuto then shouldRun (w.emit (Event.getParams (Except.ok p))) p
    else (Except.ok mode, w.emit (Event.getParams (Except.ok p)))) = res
  rcases res with ⟨e | m, w2⟩
  · by_cases hauto : mode = ModeAuto
    · rw [if_pos hauto] at hres
      exact resolveFail p e w2 hp hown hauto hres
    · rw [if_neg hauto] at hres
      simp at hres
  have hR : Resolved w mode p m w2 := by
    by_cases hauto : mode = ModeAuto
    · rw [if_pos hauto] at hres
      exact Or.inr ⟨hauto, hres⟩
    · rw [if_neg hauto] at hres
      simp only [Prod.mk.injEq, Except.ok.injEq] at hres
      exact Or.inl ⟨hauto, hres.1.symm, hres.2.symm⟩
  simp only
  by_cases hnone : m = ModeNone
  · rw [if_pos hnone]
    exact notDue p w2 hp hown (hnone ▸ hR)
  rw [if_neg hnone]
  rcases hupd : updateSchedule w2 { Mode := m, Params := p } with ⟨_ | e, w3⟩
  swap
  · exact updateFail p m w2 e w3 hp hown hR hnone hupd
  simp only
  rcases hlock : w3.lock with _ | _ | _ | e
  · simpa [TryLock, hlock, invoke, Unlock, World.emit, lockFileOf] using
      locked p m w2 w3 hp hown hR hnone hupd hlock
  · simpa [TryLock, hlock, lockFileOf] using
      lockHeld p m w2 w3 hp hown hR hnone hupd (Or.inl hlock)
  · simpa [TryLock, hlock, lockFileOf] using
      lockHeld p m w2 w3 hp hown hR hnone hupd (Or.inr hlock)
  · simpa [TryLock, hlock, lockFileOf] using
      lockFail p m w2 w3 e hp hown hR hnone hupd hlock

/-- Facts about the world in which the mode has been resolved. -/
theorem resolved_facts (w : World) (mode : Mode) (p : Params) (m : Mode) (w2 : World)
    (h : Resolved w mode p m w2) :
    w2.lock = w.lock ∧
    w2.rep.schedule = w.rep.schedule ∧
    w2.rep.Username = w.rep.Username ∧
    w2.rep.Hostname = w.rep.Hostname ∧
    w2.rep.ConfigFilename = w.rep.ConfigFilename ∧
    (w.rep.clockForward → w.rep.now ≤ w2.rep.now ∧ w2.rep.clockForward) ∧
    (w2.trace = w.trace ++ [Event.getParams (Except.ok p)] ∨
      w2.trace = w.trace ++
        [Event.getParams (Except.ok p), Event.getSchedule (Except.ok w.rep.schedule)]) ∧
    (mode = ModeAuto → m = ModeNone ∨ m = ModeQuick ∨ m = ModeFull) ∧
    (mode ≠ ModeAuto → m = mode ∧ w2.rep = w.rep ∧
      w2.trace = w.trace ++ [Event.getParams (Except.ok p)]) := by
  rcases h with ⟨hauto, hm, hw2⟩ | ⟨hauto, hsr⟩
  · subst hw2
    simp [World.emit, hauto, hm]
  · have hf := shouldRun_frame (w.emit (Event.getParams (Except.ok p))) p
    have hc := shouldRun_clock (w.emit (Event.getParams (Except.ok p))) p
    have ht := shouldRun_trace (w.emit (Event.getParams (Except.ok p))) p
    rw [hsr] at hf hc ht
    simp only [World.emit] at hf hc ht
    obtain ⟨h1, h2, h3, h4, h5⟩ := hf
    refine ⟨h1, h2, h3, h4, h5, hc, ?_, ?_, fun hne => absurd hauto hne⟩
    · rcases ht with ⟨e, _, he, _⟩ | ⟨m2, _, _, ht | ht⟩
      · simp at he
      · exact Or.inl ht
      · exact Or.inr (by simpa using ht)
    · intro _
      rcases ht with ⟨e, _, he, _⟩ | ⟨m2, hm2, hm, _⟩
      · simp at he
      · simp only [Except.ok.injEq] at hm2
        exact hm2 ▸ hm

/-- Facts about the world in which the schedule has been updated without error. -/
theorem updated_facts (w : World) (mode : Mode) (p : Params) (m : Mode) (w2 w3 : World)
    (h : Resolved w mode p m w2)
    (hupd : updateSchedule w2 { Mode := m, Params := p } = (none, w3)) :
    w3.lock = w.lock ∧
    w3.rep.Username = w.rep.Username ∧
    w3.rep.Hostname = w.rep.Hostname ∧
    lockFileOf w3.rep = lockFileOf w.rep ∧
    (w.rep.clockForward → w.rep.now ≤ w3.rep.now) ∧
    (∃ pre, w3.trace = w.trace ++ pre ∧ callbacks pre = [] ∧
      (∀ ev ∈ pre, ev.failed = false) ∧ (∀ ev ∈ pre, ev.isTryLock = false) ∧
      ((m ≠ ModeFull ∧ m ≠ ModeQuick ∧ w3.rep.schedule = w.rep.schedule ∧
          (∀ ev ∈ pre, ev.isSetSchedule = false)) ∨
       ((m = ModeFull ∨ m = ModeQuick) ∧
          ∃ pre0, pre = pre0 ++ [Event.setSchedule w3.rep.schedule none]))) ∧
    (m = ModeFull → w3.rep.schedule =
      { w.rep.schedule with
        NextFullMaintenanceTime := w3.rep.now + p.FullCycle.Interval
        NextQuickMaintenanceTime :=
          w3.rep.now + p.FullCycle.Interval + p.QuickCycle.Interval }) ∧
    (m = ModeQuick → w3.rep.schedule =
      { w.rep.schedule with
        NextQuickMaintenanceTime := w3.rep.now + p.QuickCycle.Interval }) := by
  obtain ⟨r1, r2, r3, r4, r5, r6, r7, -, -⟩ := resolved_facts w mode p m w2 h
  have hf := updateSchedule_frame w2 { Mode := m, Params := p }
  have hc := updateSchedule_clock w2 { Mode := m, Params := p }
  have ho := updateSchedule_outcome w2 { Mode := m, Params := p }
  rw [hupd] at hf hc ho
  simp only at hf hc ho
  obtain ⟨f1, f2, f3, f4⟩ := hf
  have hQF : ModeQuick ≠ ModeFull := by decide
  refine ⟨f1.trans r1, f2.trans r3, f3.trans r4, by simp [lockFileOf, f4, r5],
    fun hw => le_trans (r6 hw).1 (hc (r6 hw).2).1, ?_, ?_, ?_⟩
  · have hpre : ∀ A B : List Event, w2.trace = w.trace ++ A → w3.trace = w2.trace ++ B →
        w3.trace = w.trace ++ (A ++ B) := by
      intro A B hA hB
      rw [hB, hA, List.append_assoc]
    rcases ho with ⟨e, _, he, _⟩ | ⟨e, s2, _, he, _⟩ | ⟨h1, h2, _, ht, hs⟩ |
      ⟨h1, _, ht, hs⟩ | ⟨h1, _, ht, hs⟩
    · simp at he
    · simp at he
    · rcases r7 with r7 | r7 <;>
      exact ⟨_, hpre _ _ r7 ht, by simp [callbacks], by simp [Event.failed],
        by simp [Event.isTryLock],
        Or.inl ⟨h1, h2, hs.trans r2, by simp [Event.isSetSchedule]⟩⟩
    · rcases r7 with r7 | r7
      · exact ⟨_, hpre _ _ r7 ht, by simp [callbacks], by simp [Event.failed],
          by simp [Event.isTryLock],
          Or.inr ⟨Or.inl h1, [Event.getParams (Except.ok p),
            Event.getSchedule (Except.ok w2.rep.schedule)], by simp⟩⟩
      · exact ⟨_, hpre _ _ r7 ht, by simp [callbacks], by simp [Event.failed],
          by simp [Event.isTryLock],
          Or.inr ⟨Or.inl h1, [Event.getParams (Except.ok p),
            Event.getSchedule (Except.ok w.rep.schedule),
            Event.getSchedule (Except.ok w2.rep.schedule)], by simp⟩⟩
    · rcases r7 with r7 | r7
      · exact ⟨_, hpre _ _ r7 ht, by simp [callbacks], by simp [Event.failed],
          by simp [Event.isTryLock],
          Or.inr ⟨Or.inr h1, [Event.getParams (Except.ok p),
            Event.getSchedule (Except.ok w2.rep.schedule)], by simp⟩⟩
      · exact ⟨_, hpre _ _ r7 ht, by simp [callbacks], by simp [Event.failed],
          by simp [Event.isTryLock],
          Or.inr ⟨Or.inr h1, [Event.getParams (Except.ok p),
            Event.getSchedule (Except.ok w.rep.schedule),
            Event.getSchedule (Except.ok w2.rep.schedule)], by simp⟩⟩
  · intro hm
    rcases ho with ⟨e, _, he, _⟩ | ⟨e, s2, _, he, _⟩ | ⟨h1, h2, _, ht, hs⟩ |
      ⟨h1, _, ht, hs⟩ | ⟨h1, _, ht, hs⟩
    · simp at he
    · simp at he
    · exact absurd hm h1
    · rw [hs, r2]
    · exact absurd (h1.symm.trans hm) hQF
  · intro hm
    rcases ho with ⟨e, _, he, _⟩ | ⟨e, s2, _, he, _⟩ | ⟨h1, h2, _, ht, hs⟩ |
      ⟨h1, _, ht, hs⟩ | ⟨h1, _, ht, hs⟩
    · simp at he
    · simp at he
    · exact absurd hm h2
    · exact absurd (hm.symm.trans h1) hQF
    · rw [hs, r2]

/-- The shape of a call of `RunExclusive`: either it ends before the lock attempt, and
then without a callback, or it reaches the lock attempt with the schedule updated. -/
theorem RunExclusive_shape (w : World) (mode : Mode) (cb : Callback) :
    ((∀ ev ∈ emitted w (RunExclusive w mode cb).2, ev.isTryLock = false) ∧
      callbacks (emitted w (RunExclusive w mode cb).2) = [] ∧
      ((∃ ev ∈ emitted w (RunExclusive w mode cb).2, ev.failed = true) →
        (RunExclusive w mode cb).1 ≠ none)) ∨
    ∃ p m w2 w3, w.rep.params = Except.ok p ∧
      p.Owner = w.rep.Username ++ "@" ++ w.rep.Hostname ∧
      Resolved w mode p m w2 ∧ m ≠ ModeNone ∧
      updateSchedule w2 { Mode := m, Params := p } = (none, w3) ∧
      ((∃ e, w3.lock = LockState.broken e ∧
          RunExclusive w mode cb =
            (some (e.Wrap "error acquiring maintenance lock"),
              w3.emit (Event.tryLock (lockFileOf w3.rep) (Except.error e)))) ∨
       ((w3.lock = LockState.heldByOther ∨ w3.lock = LockState.heldByCaller) ∧
          RunExclusive w mode cb =
            (none, w3.emit (Event.tryLock (lockFileOf w3.rep) (Except.ok false)))) ∨
       (w3.lock = LockState.free ∧
          RunExclusive w mode cb =
            ((cb { Mode := m, Params := p } w3.rep).1,
              { rep := (cb { Mode := m, Params := p } w3.rep).2
                lock := LockState.free
                trace := w3.trace ++
                  [Event.tryLock (lockFileOf w3.rep) (Except.ok true),
                   Event.callback { Mode := m, Params := p } w3.rep,
                   Event.unlock (lockFileOf w3.rep)] }))) := by
  refine RunExclusive_cases w mode cb
    (fun o =>
      ((∀ ev ∈ emitted w o.2, ev.isTryLock = false) ∧
        callbacks (emitted w o.2) = [] ∧
        ((∃ ev ∈ emitted w o.2, ev.failed = true) → o.1 ≠ none)) ∨
      ∃ p m w2 w3, w.rep.params = Except.ok p ∧
        p.Owner = w.rep.Username ++ "@" ++ w.rep.Hostname ∧
        Resolved w mode p m w2 ∧ m ≠ ModeNone ∧
        updateSchedule w2 { Mode := m, Params := p } = (none, w3) ∧
        ((∃ e, w3.lock = LockState.broken e ∧
            o = (some (e.Wrap "error acquiring maintenance lock"),
                w3.emit (Event.tryLock (lockFileOf w3.rep) (Except.error e)))) ∨
         ((w3.lock = LockState.heldByOther ∨ w3.lock = LockState.heldByCaller) ∧
            o = (none, w3.emit (Event.tryLock (lockFileOf w3.rep) (Except.ok false)))) ∨
         (w3.lock = LockState.free ∧
            o = ((cb { Mode := m, Params := p } w3.rep).1,
                { rep := (cb { Mode := m, Params := p } w3.rep).2
                  lock := LockState.free
                  trace := w3.trace ++
                    [Event.tryLock (lockFileOf w3.rep) (Except.ok true),
                     Event.callback { Mode := m, Params := p } w3.rep,
                     Event.unlock (lockFileOf w3.rep)] }))))
    ?_ ?_ ?_ ?_ ?_ ?_ ?_ ?_
  · intro e _
    left
    simp [emitted, World.emit, Event.isTryLock, callbacks]
  · intro p _ _
    left
    simp [emitted, World.emit, Event.isTryLock, callbacks, Event.failed]
  · intro p e w2 _ _ _ hsr
    left
    have ht := shouldRun_trace (w.emit (Event.getParams (Except.ok p))) p
    rw [hsr] at ht
    rcases ht with ⟨e2, _, _, ht⟩ | ⟨m2, hm2, _⟩
    · simp only [World.emit] at ht
      simp [emitted, ht, Event.isTryLock, callbacks]
    · simp at hm2
  · intro p w2 _ _ hR
    left
    obtain ⟨-, -, -, -, -, -, r7, -, -⟩ := resolved_facts w mode p _ w2 hR
    rcases r7 with r7 | r7 <;>
      simp [emitted, r7, Event.isTryLock, callbacks, Event.failed]
  · intro p m w2 e w3 _ _ hR _ hupd
    left
    obtain ⟨-, -, -, -, -, -, r7, -, -⟩ := resolved_facts w mode p _ w2 hR
    have ho := updateSchedule_outcome w2 { Mode := m, Params := p }
    rw [hupd] at ho
    simp only at ho
    rcases ho with ⟨e2, _, _, ht, _⟩ | ⟨e2, s2, _, _, ht, _⟩ | ⟨_, _, he, _⟩ |
      ⟨_, he, _⟩ | ⟨_, he, _⟩
    · rcases r7 with r7 | r7 <;>
        simp [emitted, ht, r7, Event.isTryLock, callbacks]
    · rcases r7 with r7 | r7 <;>
        simp [emitted, ht, r7, Event.isTryLock, callbacks]
    · simp at he
    · simp at he
    · simp at he
  · intro p m w2 w3 e hp hown hR hm hupd hlock
    exact Or.inr ⟨p, m, w2, w3, hp, hown, hR, hm, hupd, Or.inl ⟨e, hlock, rfl⟩⟩
  · intro p m w2 w3 hp hown hR hm hupd hlock
    exact Or.inr ⟨p, m, w2, w3, hp, hown, hR, hm, hupd, Or.inr (Or.inl ⟨hlock, rfl⟩)⟩
  · intro p m w2 w3 hp hown hR hm hupd hlock
    exact Or.inr ⟨p, m, w2, w3, hp, hown, hR, hm, hupd, Or.inr (Or.inr ⟨hlock, rfl⟩)⟩

theorem callbacks_append (xs ys : List Event) :
    callbacks (xs ++ ys) = callbacks xs ++ callbacks ys := by
  induction xs with
  | nil => rfl
  | cons x xs ih => cases x <;> simp [callbacks, ih]

theorem mem_callbacks (evs : List Event) (rp : RunParameters) (r : Repo)
    (h : Event.callback rp r ∈ evs) : rp ∈ callbacks evs := by
  induction evs with
  | nil => simp at h
  | cons x xs ih =>
    rcases List.mem_cons.mp h with hx | hx
    · subst hx
      simp [callbacks]
    · cases x <;> simp [callbacks, ih hx]

/-- A callback among the logged steps: the call took the lock, after a schedule update
that succeeded, and the callback step is the one between lock and unlock. -/
theorem callback_run (w : World) (mode : Mode) (cb : Callback) (rp : RunParameters) (r : Repo)
    (h : Event.callback rp r ∈ emitted w (RunExclusive w mode cb).2) :
    ∃ w2 w3, w.rep.params = Except.ok rp.Params ∧
      rp.Params.Owner = w.rep.Username ++ "@" ++ w.rep.Hostname ∧
      Resolved w mode rp.Params rp.Mode w2 ∧ rp.Mode ≠ ModeNone ∧
      updateSchedule w2 rp = (none, w3) ∧ r = w3.rep ∧
      RunExclusive w mode cb =
        ((cb rp r).1,
          { rep := (cb rp r).2
            lock := LockState.free
            trace := w3.trace ++
              [Event.tryLock (lockFileOf r) (Except.ok true),
               Event.callback rp r,
               Event.unlock (lockFileOf r)] }) := by
  rcases RunExclusive_shape w mode cb with hA | ⟨p, m, w2, w3, hp, hown, hR, hm, hupd, hB⟩
  · have := mem_callbacks _ _ _ h
    rw [hA.2.1] at this
    simp at this
  obtain ⟨-, -, -, -, -, ⟨pre, hpre, hcb, -, -, -⟩, -, -⟩ :=
    updated_facts w mode p m w2 w3 hR hupd
  have hnotpre : ∀ rp2 r2, Event.callback rp2 r2 ∉ pre := by
    intro rp2 r2 hmem
    have := mem_callbacks _ _ _ hmem
    rw [hcb] at this
    simp at this
  rcases hB with ⟨e, -, ho⟩ | ⟨-, ho⟩ | ⟨-, ho⟩
  · rw [ho] at h
    simp [emitted, World.emit, hpre, hnotpre] at h
  · rw [ho] at h
    simp [emitted, World.emit, hpre, hnotpre] at h
  · rw [ho] at h
    simp [emitted, hpre, hnotpre] at h
    obtain ⟨h1, h2⟩ := h
    subst h1 h2
    exact ⟨w2, w3, hp, hown, hR, hm, hupd, rfl, ho⟩

/-- The mode that `shouldRun` returns does not depend on the log. -/
theorem shouldRun_emit (w : World) (ev : Event) (p : Params) :
    (shouldRun (w.emit ev) p).1 = (shouldRun w p).1 := by
  simp only [shouldRun, GetSchedule, shouldRunQuick, World.Time, World.emit]
  rcases nextFault_cases w.rep.getScheduleFaults with hf | ⟨e, hf⟩
  · simp only [hf]
    split_ifs <;> rfl
  · simp only [hf]
    split_ifs <;> rfl

/-! ## Theorems -/

/-- C1: the code at the failing input.  Sample repository of `alice@backup1`, clock at
1000, full interval 100, quick interval 10, nothing scheduled (both next times 0), lock
held by another process, forced mode `full`: the lock attempt reports "not acquired" and
the call returns success without invoking the callback, but the stored schedule has moved
from 0 and 0 to 1100 and 1110, because `updateSchedule` (line 156) runs before `TryLock`
(line 166).  The claim says that the stored schedule is the same after the call as before
it. -/
theorem RunExclusive_lock_held_writes_schedule :
    Event.tryLock "/etc/kopia/repository.config.mlock" (Except.ok false) ∈
      emitted (sampleWorld (Except.ok (sampleParams 100 10)) LockState.heldByOther)
        (RunExclusive (sampleWorld (Except.ok (sampleParams 100 10)) LockState.heldByOther)
          ModeFull cbOk).2 ∧
    (RunExclusive (sampleWorld (Except.ok (sampleParams 100 10)) LockState.heldByOther)
      ModeFull cbOk).1 = none ∧
    callbacks (emitted (sampleWorld (Except.ok (sampleParams 100 10)) LockState.heldByOther)
      (RunExclusive (sampleWorld (Except.ok (sampleParams 100 10)) LockState.heldByOther)
        ModeFull cbOk).2) = [] ∧
    (sampleWorld (Except.ok (sampleParams 100 10))
      LockState.heldByOther).rep.schedule.NextFullMaintenanceTime = 0 ∧
    (sampleWorld (Except.ok (sampleParams 100 10))
      LockState.heldByOther).rep.schedule.NextQuickMaintenanceTime = 0 ∧
    (RunExclusive (sampleWorld (Except.ok (sampleParams 100 10)) LockState.heldByOther)
      ModeFull cbOk).2.rep.schedule.NextFullMaintenanceTime = 1100 ∧
    (RunExclusive (sampleWorld (Except.ok (sampleParams 100 10)) LockState.heldByOther)
      ModeFull cbOk).2.rep.schedule.NextQuickMaintenanceTime = 1110 := by
  have hrun : RunExclusive (sampleWorld (Except.ok (sampleParams 100 10)) LockState.heldByOther)
      ModeFull cbOk =
      (none,
        { rep := { sampleRepo (Except.ok (sampleParams 100 10)) with
            schedule :=
              { NextFullMaintenanceTime := 1100, NextQuickMaintenanceTime := 1110, Runs := [] } }
          lock := LockState.heldByOther
          trace :=
            [Event.getParams (Except.ok (sampleParams 100 10)),
             Event.getSchedule (Except.ok
               { NextFullMaintenanceTime := 0, NextQuickMaintenanceTime := 0, Runs := [] }),
             Event.setSchedule
               { NextFullMaintenanceTime := 1100, NextQuickMaintenanceTime := 1110, Runs := [] }
               none,
             Event.tryLock "/etc/kopia/repository.config.mlock" (Except.ok false)] }) := by
    rfl
  rw [hrun]
  simp [emitted, sampleWorld, sampleRepo, callbacks]

/-- The run of `RunExclusive` whose lock attempt reports "not acquired": the call returns
success, the callback is not invoked and the lock stays as it was.  The schedule has been
written before the lock attempt: it is unchanged only for a requested mode other than
`quick`, `full` and `auto`; for `full` and for `quick` it is the loaded schedule advanced
from the clock reading taken by `updateSchedule` (which is the instant `now` of the clock
after the call); for `auto` it is the schedule that the logged, successful `SetSchedule`
wrote. -/
theorem RunExclusive_lock_held (w : World) (mode : Mode) (cb : Callback) (f : String)
    (h : Event.tryLock f (Except.ok false) ∈ emitted w (RunExclusive w mode cb).2) :
    (RunExclusive w mode cb).1 = none ∧
    callbacks (emitted w (RunExclusive w mode cb).2) = [] ∧
    (RunExclusive w mode cb).2.lock = w.lock ∧
    (mode ≠ ModeQuick → mode ≠ ModeFull → mode ≠ ModeAuto →
      (RunExclusive w mode cb).2.rep.schedule = w.rep.schedule) ∧
    (∀ p, w.rep.params = Except.ok p → mode = ModeFull →
      (RunExclusive w mode cb).2.rep.schedule =
        { w.rep.schedule with
          NextFullMaintenanceTime :=
            (RunExclusive w mode cb).2.rep.now + p.FullCycle.Interval
          NextQuickMaintenanceTime :=
            (RunExclusive w mode cb).2.rep.now + p.FullCycle.Interval
              + p.QuickCycle.Interval }) ∧
    (∀ p, w.rep.params = Except.ok p → mode = ModeQuick →
      (RunExclusive w mode cb).2.rep.schedule =
        { w.rep.schedule with
          NextQuickMaintenanceTime :=
            (RunExclusive w mode cb).2.rep.now + p.QuickCycle.Interval }) ∧
    (mode = ModeAuto →
      Event.setSchedule (RunExclusive w mode cb).2.rep.schedule none ∈
        emitted w (RunExclusive w mode cb).2) := by
  rcases RunExclusive_shape w mode cb with hA | ⟨p, m, w2, w3, hp, hown, hR, hm, hupd, hB⟩
  · have := hA.1 _ h
    simp [Event.isTryLock] at this
  obtain ⟨u1, -, -, -, -, ⟨pre, hpre, hcb, -, hlk, hsched⟩, ufull, uquick⟩ :=
    updated_facts w mode p m w2 w3 hR hupd
  obtain ⟨-, -, -, -, -, -, -, rauto, rforced⟩ := resolved_facts w mode p m w2 hR
  have hnotpre : ∀ f2 r, Event.tryLock f2 r ∉ pre := by
    intro f2 r hmem
    have := hlk _ hmem
    simp [Event.isTryLock] at this
  rcases hB with ⟨e, -, ho⟩ | ⟨-, ho⟩ | ⟨-, ho⟩
  · rw [ho] at h
    simp [emitted, World.emit, hpre, hnotpre] at h
  · rw [ho]
    have hE : emitted w (w3.emit (Event.tryLock (lockFileOf w3.rep) (Except.ok false))) =
        pre ++ [Event.tryLock (lockFileOf w3.rep) (Except.ok false)] := by
      simp [emitted, World.emit, hpre]
    rw [hE]
    have hFA : ModeFull ≠ ModeAuto := by decide
    have hQA : ModeQuick ≠ ModeAuto := by decide
    refine ⟨rfl, by simp [callbacks_append, hcb, callbacks], u1, ?_, ?_, ?_, ?_⟩
    · intro h1 h2 h3
      obtain ⟨hmm, -, -⟩ := rforced h3
      rcases hsched with ⟨-, -, hs, -⟩ | ⟨hs | hs, -⟩
      · exact hs
      · exact absurd (hmm ▸ hs) h2
      · exact absurd (hmm ▸ hs) h1
    · intro p2 hp2 hmode
      have hpp : p2 = p := by
        rw [hp] at hp2
        exact (Except.ok.inj hp2).symm
      obtain ⟨hmm, -, -⟩ := rforced (hmode ▸ hFA)
      rw [hpp]
      exact ufull (hmm.trans hmode)
    · intro p2 hp2 hmode
      have hpp : p2 = p := by
        rw [hp] at hp2
        exact (Except.ok.inj hp2).symm
      obtain ⟨hmm, -, -⟩ := rforced (hmode ▸ hQA)
      rw [hpp]
      exact uquick (hmm.trans hmode)
    · intro hauto
      rcases hsched with ⟨h1, h2, -, -⟩ | ⟨-, pre0, hpre0⟩
      · rcases rauto hauto with h3 | h3 | h3
        · exact absurd h3 hm
        · exact absurd h3 h2
        · exact absurd h3 h1
      · simp [hpre0, World.emit]
  · rw [ho] at h
    simp [emitted, hpre, hnotpre] at h

/-- The sample run with the lock held by another process, as an instance of
`RunExclusive_lock_held`. -/
theorem RunExclusive_lock_held_witness :
    Event.tryLock "/etc/kopia/repository.config.mlock" (Except.ok false) ∈
      emitted (sampleWorld (Except.ok (sampleParams 100 10)) LockState.heldByOther)
        (RunExclusive (sampleWorld (Except.ok (sampleParams 100 10)) LockState.heldByOther)
          ModeFull cbOk).2 ∧
    (RunExclusive (sampleWorld (Except.ok (sampleParams 100 10)) LockState.heldByOther)
      ModeFull cbOk).1 = none ∧
    callbacks (emitted (sampleWorld (Except.ok (sampleParams 100 10)) LockState.heldByOther)
      (RunExclusive (sampleWorld (Except.ok (sampleParams 100 10)) LockState.heldByOther)
        ModeFull cbOk).2) = [] :=
  have h : Event.tryLock "/etc/kopia/repository.config.mlock" (Except.ok false) ∈
      emitted (sampleWorld (Except.ok (sampleParams 100 10)) LockState.heldByOther)
        (RunExclusive (sampleWorld (Except.ok (sampleParams 100 10)) LockState.heldByOther)
          ModeFull cbOk).2 := by
    simp [emitted, sampleWorld, sampleRepo, RunExclusive, GetParams, updateSchedule,
      GetSchedule, SetSchedule, TryLock, World.emit, World.Time, Repo.Time, nextFault,
      sampleParams, ModeFull, ModeAuto, ModeNone, ModeQuick]
  ⟨h, (RunExclusive_lock_held _ ModeFull cbOk _ h).1, (RunExclusive_lock_held _ ModeFull cbOk _ h).2.1⟩

/-- C2.  Auto-mode resolution.  For params `p` whose owner is the running `user@host`, a
successfully loaded schedule `s` and a clock that reads `now` at the checks, `shouldRun`
returns `full` if the full cycle is enabled and `now` is strictly after
`s.NextFullMaintenanceTime`; otherwise `quick` if the quick cycle is enabled and `now` is
strictly after `s.NextQuickMaintenanceTime`; otherwise `none`.  In particular `full` wins
whenever the full cycle is enabled and due, and a cycle whose next time equals `now` is
not due. -/
theorem shouldRun_auto_resolution (w : World) (p : Params) (s : Schedule) (now : Time)
    (hown : p.Owner = w.rep.Username ++ "@" ++ w.rep.Hostname)
    (hload : (GetSchedule w).1 = Except.ok s)
    (h0 : w.rep.reading 0 = now) (h1 : w.rep.reading 1 = now) :
    (shouldRun w p).1 = Except.ok
      (if p.FullCycle.Enabled = true ∧ s.NextFullMaintenanceTime < now then ModeFull
       else if p.QuickCycle.Enabled = true ∧ s.NextQuickMaintenanceTime < now then ModeQuick
       else ModeNone) ∧
    (p.FullCycle.Enabled = true → s.NextFullMaintenanceTime < now →
      (shouldRun w p).1 = Except.ok ModeFull) ∧
    (s.NextFullMaintenanceTime = now → (shouldRun w p).1 ≠ Except.ok ModeFull) ∧
    (s.NextQuickMaintenanceTime = now → (shouldRun w p).1 ≠ Except.ok ModeQuick) := by
  have hf : nextFault w.rep.getScheduleFaults = none ∧ s = w.rep.schedule := by
    rcases nextFault_cases w.rep.getScheduleFaults with hf | ⟨e, hf⟩
    · simp [GetSchedule, hf] at hload
      exact ⟨hf, hload.symm⟩
    · simp [GetSchedule, hf] at hload
  obtain ⟨hf, hs⟩ := hf
  have hQF : ModeQuick ≠ ModeFull := by decide
  have hNF : ModeNone ≠ ModeFull := by decide
  have hNQ : ModeNone ≠ ModeQuick := by decide
  have heq := shouldRun_eq w p hown hf
  rw [h0, h1, ← hs] at heq
  rw [heq]
  refine ⟨?_, ?_, ?_, ?_⟩
  · cases hF : p.FullCycle.Enabled <;> cases hQ : p.QuickCycle.Enabled <;> simp
  · intro hen hdue
    simp [hen, hdue]
  · intro hnow
    simp only [hnow, lt_irrefl, if_false, ne_eq, Except.ok.injEq]
    split_ifs
    · exact hQF
    · exact hNF
    · exact hQF
    · exact hNF
  · intro hnow
    simp only [hnow, lt_irrefl, and_false, if_false, ne_eq, Except.ok.injEq]
    split_ifs
    · exact hQF.symm
    · exact hNQ
    · exact hNQ

/-- Witness of C2: the sample repository, clock at 1000, both cycles enabled and due. -/
theorem shouldRun_auto_resolution_witness :
    (sampleParams 100 10).Owner =
      (sampleWorld (Except.ok (sampleParams 100 10)) LockState.free).rep.Username ++ "@" ++
        (sampleWorld (Except.ok (sampleParams 100 10)) LockState.free).rep.Hostname ∧
    (shouldRun (sampleWorld (Except.ok (sampleParams 100 10)) LockState.free)
      (sampleParams 100 10)).1 = Except.ok ModeFull :=
  ⟨by decide,
    (shouldRun_auto_resolution (sampleWorld (Except.ok (sampleParams 100 10)) LockState.free)
      (sampleParams 100 10)
      { NextFullMaintenanceTime := 0, NextQuickMaintenanceTime := 0, Runs := [] } 1000
      (by decide) rfl rfl rfl).2.1 rfl (by decide)⟩

/-- C3.  Schedule update values.  With the schedule `s` loaded and `now` the reading of the
clock that `updateSchedule` takes: in mode `full` the schedule handed to `SetSchedule` is
`s` with `NextFullMaintenanceTime = now + FullCycle.Interval` and
`NextQuickMaintenanceTime = (now + FullCycle.Interval) + QuickCycle.Interval`; in mode
`quick` it is `s` with `NextQuickMaintenanceTime = now + QuickCycle.Interval` and
`NextFullMaintenanceTime` unchanged; the result of `updateSchedule` is the result of that
one write, and when the write succeeds the stored schedule is the one written.  In every
other mode nothing is written and the stored schedule stays.  The remaining field `Runs`
is written as it was loaded. -/
theorem updateSchedule_values (w : World) (runParams : RunParameters) (s : Schedule)
    (hload : (GetSchedule w).1 = Except.ok s) :
    (runParams.Mode = ModeFull →
      emitted w (updateSchedule w runParams).2 =
        [Event.getSchedule (Except.ok s),
         Event.setSchedule
          { NextFullMaintenanceTime := w.rep.reading 0 + runParams.Params.FullCycle.Interval
            NextQuickMaintenanceTime :=
              (w.rep.reading 0 + runParams.Params.FullCycle.Interval)
                + runParams.Params.QuickCycle.Interval
            Runs := s.Runs }
          (nextFault w.rep.setScheduleFaults)] ∧
      (updateSchedule w runParams).1 = nextFault w.rep.setScheduleFaults ∧
      (nextFault w.rep.setScheduleFaults = none →
        (updateSchedule w runParams).2.rep.schedule =
          { NextFullMaintenanceTime := w.rep.reading 0 + runParams.Params.FullCycle.Interval
            NextQuickMaintenanceTime :=
              (w.rep.reading 0 + runParams.Params.FullCycle.Interval)
                + runParams.Params.QuickCycle.Interval
            Runs := s.Runs })) ∧
    (runParams.Mode = ModeQuick →
      emitted w (updateSchedule w runParams).2 =
        [Event.getSchedule (Except.ok s),
         Event.setSchedule
          { NextFullMaintenanceTime := s.NextFullMaintenanceTime
            NextQuickMaintenanceTime :=
              w.rep.reading 0 + runParams.Params.QuickCycle.Interval
            Runs := s.Runs }
          (nextFault w.rep.setScheduleFaults)] ∧
      (updateSchedule w runParams).1 = nextFault w.rep.setScheduleFaults ∧
      (nextFault w.rep.setScheduleFaults = none →
        (updateSchedule w runParams).2.rep.schedule =
          { NextFullMaintenanceTime := s.NextFullMaintenanceTime
            NextQuickMaintenanceTime :=
              w.rep.reading 0 + runParams.Params.QuickCycle.Interval
            Runs := s.Runs })) ∧
    (runParams.Mode ≠ ModeFull → runParams.Mode ≠ ModeQuick →
      emitted w (updateSchedule w runParams).2 = [Event.getSchedule (Except.ok s)] ∧
      (updateSchedule w runParams).1 = none ∧
      (updateSchedule w runParams).2.rep.schedule = w.rep.schedule) := by
  have hf : nextFault w.rep.getScheduleFaults = none ∧ s = w.rep.schedule := by
    rcases nextFault_cases w.rep.getScheduleFaults with hf | ⟨e, hf⟩
    · simp [GetSchedule, hf] at hload
      exact ⟨hf, hload.symm⟩
    · simp [GetSchedule, hf] at hload
  obtain ⟨hf, hs⟩ := hf
  have hQF : ModeQuick ≠ ModeFull := by decide
  subst hs
  refine ⟨?_, ?_, ?_⟩
  · intro hm
    rcases nextFault_cases w.rep.setScheduleFaults with hsf | ⟨e, hsf⟩ <;>
      simp [updateSchedule, GetSchedule, SetSchedule, World.Time, World.emit, Repo.Time,
        Repo.reading, emitted, hf, hsf, hm]
  · intro hm
    rcases nextFault_cases w.rep.setScheduleFaults with hsf | ⟨e, hsf⟩ <;>
      simp [updateSchedule, GetSchedule, SetSchedule, World.Time, World.emit, Repo.Time,
        Repo.reading, emitted, hf, hsf, hm, hQF]
  · intro h1 h2
    simp [updateSchedule, GetSchedule, World.emit, emitted, hf, h1, h2]

/-- Witness of C3: a full update on the sample repository (clock at 1000, full interval
100, quick interval 10) stores the next full time 1100 and the next quick time 1110. -/
theorem updateSchedule_values_witness :
    (GetSchedule (sampleWorld (Except.ok (sampleParams 100 10)) LockState.free)).1 =
      Except.ok { NextFullMaintenanceTime := 0, NextQuickMaintenanceTime := 0, Runs := [] } ∧
    (updateSchedule (sampleWorld (Except.ok (sampleParams 100 10)) LockState.free)
      { Mode := ModeFull, Params := sampleParams 100 10 }).2.rep.schedule =
      { NextFullMaintenanceTime := 1100, NextQuickMaintenanceTime := 1110, Runs := [] } :=
  ⟨rfl,
    ((updateSchedule_values (sampleWorld (Except.ok (sampleParams 100 10)) LockState.free)
      { Mode := ModeFull, Params := sampleParams 100 10 }
      { NextFullMaintenanceTime := 0, NextQuickMaintenanceTime := 0, Runs := [] }
      rfl).1 rfl).2.2 rfl⟩

/-- C4, as stated, fails.  Sample repository, clock standing at 1000, full interval 0,
forced mode `full`, lock free, failing callback: the call runs in mode `full`, writes the
schedule and fails, and the stored next full time is 1000, the instant at which the call
started, not a later one. -/
theorem RunExclusive_full_zero_interval :
    callbacks (emitted (sampleWorld (Except.ok (sampleParams 0 10)) LockState.free)
      (RunExclusive (sampleWorld (Except.ok (sampleParams 0 10)) LockState.free)
        ModeFull cbFail).2) = [{ Mode := ModeFull, Params := sampleParams 0 10 }] ∧
    Event.setSchedule
      { NextFullMaintenanceTime := 1000, NextQuickMaintenanceTime := 1010, Runs := [] } none ∈
      emitted (sampleWorld (Except.ok (sampleParams 0 10)) LockState.free)
        (RunExclusive (sampleWorld (Except.ok (sampleParams 0 10)) LockState.free)
          ModeFull cbFail).2 ∧
    (RunExclusive (sampleWorld (Except.ok (sampleParams 0 10)) LockState.free)
      ModeFull cbFail).1 = some (Error.msg "maintenance failed") ∧
    (sampleWorld (Except.ok (sampleParams 0 10)) LockState.free).rep.now = 1000 ∧
    (RunExclusive (sampleWorld (Except.ok (sampleParams 0 10)) LockState.free)
      ModeFull cbFail).2.rep.schedule.NextFullMaintenanceTime = 1000 ∧
    ¬ ((sampleWorld (Except.ok (sampleParams 0 10)) LockState.free).rep.now <
      (RunExclusive (sampleWorld (Except.ok (sampleParams 0 10)) LockState.free)
        ModeFull cbFail).2.rep.schedule.NextFullMaintenanceTime) := by
  have hrun : RunExclusive (sampleWorld (Except.ok (sampleParams 0 10)) LockState.free)
      ModeFull cbFail =
      (some (Error.msg "maintenance failed"),
        { rep := { sampleRepo (Except.ok (sampleParams 0 10)) with
            schedule :=
              { NextFullMaintenanceTime := 1000, NextQuickMaintenanceTime := 1010, Runs := [] } }
          lock := LockState.free
          trace :=
            [Event.getParams (Except.ok (sampleParams 0 10)),
             Event.getSchedule (Except.ok
               { NextFullMaintenanceTime := 0, NextQuickMaintenanceTime := 0, Runs := [] }),
             Event.setSchedule
               { NextFullMaintenanceTime := 1000, NextQuickMaintenanceTime := 1010, Runs := [] }
               none,
             Event.tryLock "/etc/kopia/repository.config.mlock" (Except.ok true),
             Event.callback { Mode := ModeFull, Params := sampleParams 0 10 }
               { sampleRepo (Except.ok (sampleParams 0 10)) with
                 schedule :=
                   { NextFullMaintenanceTime := 1000, NextQuickMaintenanceTime := 1010,
                     Runs := [] } },
             Event.unlock "/etc/kopia/repository.config.mlock"] }) := by
    rfl
  rw [hrun]
  simp [emitted, sampleWorld, sampleRepo, callbacks]

/-- C4, amended.  For every call of `RunExclusive` that invokes the callback in mode `full`
(requested as `full` or resolved from `auto`; the schedule has then been updated), whether
the callback fails or not: the stored `NextFullMaintenanceTime` after the call is the clock
reading of the schedule update plus `FullCycle.Interval`; it is strictly later than the
instant `t_start = w.rep.now` at which the call started provided `FullCycle.Interval` is
positive, the clock does not run backwards and the callback does not rewrite the
schedule. -/
theorem RunExclusive_full_next_after_start (w : World) (mode : Mode) (cb : Callback)
    (p : Params) (r : Repo)
    (hrun : Event.callback { Mode := ModeFull, Params := p } r ∈
      emitted w (RunExclusive w mode cb).2)
    (hpos : 0 < p.FullCycle.Interval)
    (hclock : w.rep.clockForward)
    (hcb : (cb { Mode := ModeFull, Params := p } r).2.schedule = r.schedule) :
    (RunExclusive w mode cb).2.rep.schedule.NextFullMaintenanceTime =
      r.now + p.FullCycle.Interval ∧
    w.rep.now ≤ r.now ∧
    w.rep.now < (RunExclusive w mode cb).2.rep.schedule.NextFullMaintenanceTime := by
  obtain ⟨w2, w3, -, -, hR, -, hupd, hr, ho⟩ := callback_run w mode cb _ r hrun
  obtain ⟨-, -, -, -, u5, -, ufull, -⟩ := updated_facts w mode p ModeFull w2 w3 hR hupd
  have hle : w.rep.now ≤ r.now := hr ▸ u5 hclock
  have hnf : (RunExclusive w mode cb).2.rep.schedule.NextFullMaintenanceTime =
      r.now + p.FullCycle.Interval := by
    rw [ho]
    simp only
    rw [hcb, hr, ufull rfl]
  refine ⟨hnf, hle, ?_⟩
  rw [hnf]
  linarith

/-- Witness of C4 (amended): the sample run with full interval 100 and a failing callback;
the call started at 1000 and leaves the next full time at 1100. -/
theorem RunExclusive_full_next_after_start_witness :
    (0 : Duration) < (sampleParams 100 10).FullCycle.Interval ∧
    (sampleWorld (Except.ok (sampleParams 100 10)) LockState.free).rep.clockForward ∧
    (RunExclusive (sampleWorld (Except.ok (sampleParams 100 10)) LockState.free)
      ModeFull cbFail).1 = some (Error.msg "maintenance failed") ∧
    (sampleWorld (Except.ok (sampleParams 100 10)) LockState.free).rep.now <
      (RunExclusive (sampleWorld (Except.ok (sampleParams 100 10)) LockState.free)
        ModeFull cbFail).2.rep.schedule.NextFullMaintenanceTime :=
  have hc : (sampleWorld (Except.ok (sampleParams 100 10)) LockState.free).rep.clockForward := by
    intro d hd
    simp [sampleWorld, sampleRepo] at hd
  ⟨by decide, hc, rfl,
    (RunExclusive_full_next_after_start
      (sampleWorld (Except.ok (sampleParams 100 10)) LockState.free) ModeFull cbFail
      (sampleParams 100 10)
      { sampleRepo (Except.ok (sampleParams 100 10)) with
        schedule :=
          { NextFullMaintenanceTime := 1100, NextQuickMaintenanceTime := 1110, Runs := [] } }
      (by
        have hrun : (RunExclusive (sampleWorld (Except.ok (sampleParams 100 10)) LockState.free)
            ModeFull cbFail).2.trace =
            [Event.getParams (Except.ok (sampleParams 100 10)),
             Event.getSchedule (Except.ok
               { NextFullMaintenanceTime := 0, NextQuickMaintenanceTime := 0, Runs := [] }),
             Event.setSchedule
               { NextFullMaintenanceTime := 1100, NextQuickMaintenanceTime := 1110, Runs := [] }
               none,
             Event.tryLock "/etc/kopia/repository.config.mlock" (Except.ok true),
             Event.callback { Mode := ModeFull, Params := sampleParams 100 10 }
               { sampleRepo (Except.ok (sampleParams 100 10)) with
                 schedule :=
                   { NextFullMaintenanceTime := 1100, NextQuickMaintenanceTime := 1110,
                     Runs := [] } },
             Event.unlock "/etc/kopia/repository.config.mlock"] := by
          rfl
        rw [emitted, hrun]
        simp [sampleWorld])
      (by decide) hc rfl).2.2⟩

/-- C5, as stated, fails.  Sample repository, clock standing at 1000, full interval -100,
forced mode `full`, lock free: the callback is invoked in mode `full` after the schedule
write (next full time 900), and `shouldRun` against that stored schedule at the same clock
reading returns `full` again. -/
theorem RunExclusive_negative_interval_reenters :
    Event.callback { Mode := ModeFull, Params := sampleParams (-100) 10 }
      { sampleRepo (Except.ok (sampleParams (-100) 10)) with
        schedule :=
          { NextFullMaintenanceTime := 900, NextQuickMaintenanceTime := 910, Runs := [] } } ∈
      emitted (sampleWorld (Except.ok (sampleParams (-100) 10)) LockState.free)
        (RunExclusive (sampleWorld (Except.ok (sampleParams (-100) 10)) LockState.free)
          ModeFull cbOk).2 ∧
    (shouldRun
      (restarted { sampleRepo (Except.ok (sampleParams (-100) 10)) with
        schedule :=
          { NextFullMaintenanceTime := 900, NextQuickMaintenanceTime := 910, Runs := [] } })
      (sampleParams (-100) 10)).1 = Except.ok ModeFull := by
  have hrun : (RunExclusive (sampleWorld (Except.ok (sampleParams (-100) 10)) LockState.free)
      ModeFull cbOk).2.trace =
      [Event.getParams (Except.ok (sampleParams (-100) 10)),
       Event.getSchedule (Except.ok
         { NextFullMaintenanceTime := 0, NextQuickMaintenanceTime := 0, Runs := [] }),
       Event.setSchedule
         { NextFullMaintenanceTime := 900, NextQuickMaintenanceTime := 910, Runs := [] } none,
       Event.tryLock "/etc/kopia/repository.config.mlock" (Except.ok true),
       Event.callback { Mode := ModeFull, Params := sampleParams (-100) 10 }
         { sampleRepo (Except.ok (sampleParams (-100) 10)) with
           schedule :=
             { NextFullMaintenanceTime := 900, NextQuickMaintenanceTime := 910, Runs := [] } },
       Event.unlock "/etc/kopia/repository.config.mlock"] := by
    rfl
  refine ⟨?_, rfl⟩
  rw [emitted, hrun]
  simp [sampleWorld]

/-- C5, amended.  In every execution of `RunExclusive` that invokes the callback with mode
`m` in `{quick, full}`, the schedule write for `m` has succeeded before (the steps logged
last are that write, the lock attempt, the callback and the unlock, and the stored schedule
seen by the callback is the written one); and, provided the interval of cycle `m` is not
negative, `shouldRun` evaluated against that repository at the same clock reading does not
return `m`. -/
theorem RunExclusive_schedule_before_callback (w : World) (mode : Mode) (cb : Callback)
    (rp : RunParameters) (r : Repo)
    (hrun : Event.callback rp r ∈ emitted w (RunExclusive w mode cb).2)
    (hmode : rp.Mode = ModeQuick ∨ rp.Mode = ModeFull)
    (hfull : rp.Mode = ModeFull → 0 ≤ rp.Params.FullCycle.Interval)
    (hquick : rp.Mode = ModeQuick → 0 ≤ rp.Params.QuickCycle.Interval) :
    (∃ pre, emitted w (RunExclusive w mode cb).2 =
      pre ++ [Event.setSchedule r.schedule none,
              Event.tryLock (lockFileOf r) (Except.ok true),
              Event.callback rp r,
              Event.unlock (lockFileOf r)]) ∧
    (shouldRun (restarted r) rp.Params).1 ≠ Except.ok rp.Mode := by
  obtain ⟨w2, w3, -, hown, hR, -, hupd, hr, ho⟩ := callback_run w mode cb rp r hrun
  obtain ⟨-, u2, u3, -, -, ⟨pre, hpre, -, -, -, hsched⟩, ufull, uquick⟩ :=
    updated_facts w mode rp.Params rp.Mode w2 w3 hR hupd
  have hQF : ModeQuick ≠ ModeFull := by decide
  have hNF : ModeNone ≠ ModeFull := by decide
  have hNQ : ModeNone ≠ ModeQuick := by decide
  refine ⟨?_, ?_⟩
  · rcases hsched with ⟨h1, h2, -, -⟩ | ⟨-, pre0, hpre0⟩
    · rcases hmode with h | h
      · exact absurd h h2
      · exact absurd h h1
    · refine ⟨pre0, ?_⟩
      rw [ho]
      simp [emitted, hpre, hpre0, hr]
  · have hown2 : rp.Params.Owner =
        (restarted r).rep.Username ++ "@" ++ (restarted r).rep.Hostname := by
      simp only [restarted, hr, u2, u3]
      exact hown
    rcases nextFault_cases (restarted r).rep.getScheduleFaults with hf | ⟨e, hf⟩
    swap
    · simp [shouldRun, GetSchedule, hf, hown2]
    rw [shouldRun_eq (restarted r) rp.Params hown2 hf]
    have h0 : (restarted r).rep.reading 0 = r.now := by
      simp [restarted, Repo.reading, Repo.Time]
    have h1 : (restarted r).rep.reading 1 = r.now := by
      simp [restarted, Repo.reading, Repo.Time]
    have hs : (restarted r).rep.schedule = r.schedule := rfl
    rw [h0, h1, hs]
    rcases hmode with hm | hm
    · have hq := uquick hm
      have hi := hquick hm
      have hnd : ¬ (r.schedule.NextQuickMaintenanceTime < r.now) := by
        rw [hr, hq]
        simp only [not_lt]
        linarith
      rw [hm]
      simp only [hnd, and_false, if_false, ne_eq, Except.ok.injEq]
      split_ifs
      · exact hQF.symm
      · exact hNQ
      · exact hNQ
    · have hq := ufull hm
      have hi := hfull hm
      have hnd : ¬ (r.schedule.NextFullMaintenanceTime < r.now) := by
        rw [hr, hq]
        simp only [not_lt]
        linarith
      rw [hm]
      simp only [hnd, if_false, ne_eq, Except.ok.injEq]
      split_ifs
      · exact hQF
      · exact hNF
      · exact hQF
      · exact hNF

/-- Witness of C5 (amended): the sample run in forced mode `full` with full interval 100;
after the write the next full time is 1100 and `shouldRun` at clock reading 1000 does not
return `full`. -/
theorem RunExclusive_schedule_before_callback_witness :
    (0 : Duration) ≤ (sampleParams 100 10).FullCycle.Interval ∧
    (shouldRun
      (restarted { sampleRepo (Except.ok (sampleParams 100 10)) with
        schedule :=
          { NextFullMaintenanceTime := 1100, NextQuickMaintenanceTime := 1110, Runs := [] } })
      (sampleParams 100 10)).1 ≠ Except.ok ModeFull :=
  ⟨by decide,
    (RunExclusive_schedule_before_callback
      (sampleWorld (Except.ok (sampleParams 100 10)) LockState.free) ModeFull cbOk
      { Mode := ModeFull, Params := sampleParams 100 10 }
      { sampleRepo (Except.ok (sampleParams 100 10)) with
        schedule :=
          { NextFullMaintenanceTime := 1100, NextQuickMaintenanceTime := 1110, Runs := [] } }
      (by
        have hrun : (RunExclusive (sampleWorld (Except.ok (sampleParams 100 10)) LockState.free)
            ModeFull cbOk).2.trace =
            [Event.getParams (Except.ok (sampleParams 100 10)),
             Event.getSchedule (Except.ok
               { NextFullMaintenanceTime := 0, NextQuickMaintenanceTime := 0, Runs := [] }),
             Event.setSchedule
               { NextFullMaintenanceTime := 1100, NextQuickMaintenanceTime := 1110, Runs := [] }
               none,
             Event.tryLock "/etc/kopia/repository.config.mlock" (Except.ok true),
             Event.callback { Mode := ModeFull, Params := sampleParams 100 10 }
               { sampleRepo (Except.ok (sampleParams 100 10)) with
                 schedule :=
                   { NextFullMaintenanceTime := 1100, NextQuickMaintenanceTime := 1110,
                     Runs := [] } },
             Event.unlock "/etc/kopia/repository.config.mlock"] := by
          rfl
        rw [emitted, hrun]
        simp [sampleWorld])
      (Or.inr rfl) (fun _ => by decide) (fun h => absurd h (by decide))).2⟩

/-- C6.  Owner check.  For every requested mode (forced `quick` and `full` included), if
the loaded params name an owner other than `Username() + "@" + Hostname()` of the running
process, `RunExclusive` returns success and the load of the params is the only step it
takes: the callback is not invoked, the schedule is neither read nor written, the lock is
not attempted, and the repository and the lock are as before. -/
theorem RunExclusive_owner_mismatch (w : World) (mode : Mode) (cb : Callback) (p : Params)
    (hp : w.rep.params = Except.ok p) (hown : p.Owner ≠ w.rep.Username ++ "@" ++ w.rep.Hostname) :
    (RunExclusive w mode cb).1 = none ∧
    emitted w (RunExclusive w mode cb).2 = [Event.getParams (Except.ok p)] ∧
    callbacks (emitted w (RunExclusive w mode cb).2) = [] ∧
    (RunExclusive w mode cb).2.rep = w.rep ∧
    (RunExclusive w mode cb).2.lock = w.lock := by
  simp [RunExclusive, GetParams, hp, World.emit, hown, emitted, callbacks]

/-- Witness of C6: the sample repository of `alice@backup1` with params owned by
`bob@backup2`, forced mode `full`. -/
theorem RunExclusive_owner_mismatch_witness :
    ({ sampleParams 100 10 with Owner := "bob@backup2" } : Params).Owner ≠
      (sampleWorld (Except.ok { sampleParams 100 10 with Owner := "bob@backup2" })
        LockState.free).rep.Username ++ "@" ++
      (sampleWorld (Except.ok { sampleParams 100 10 with Owner := "bob@backup2" })
        LockState.free).rep.Hostname ∧
    (RunExclusive (sampleWorld (Except.ok { sampleParams 100 10 with Owner := "bob@backup2" })
      LockState.free) ModeFull cbOk).1 = none ∧
    callbacks (emitted
      (sampleWorld (Except.ok { sampleParams 100 10 with Owner := "bob@backup2" })
        LockState.free)
      (RunExclusive (sampleWorld (Except.ok { sampleParams 100 10 with Owner := "bob@backup2" })
        LockState.free) ModeFull cbOk).2) = [] :=
  ⟨by decide,
    (RunExclusive_owner_mismatch
      (sampleWorld (Except.ok { sampleParams 100 10 with Owner := "bob@backup2" })
        LockState.free) ModeFull cbOk
      { sampleParams 100 10 with Owner := "bob@backup2" } rfl (by decide)).1,
    (RunExclusive_owner_mismatch
      (sampleWorld (Except.ok { sampleParams 100 10 with Owner := "bob@backup2" })
        LockState.free) ModeFull cbOk
      { sampleParams 100 10 with Owner := "bob@backup2" } rfl (by decide)).2.2.1⟩

/-- C7.  Forced modes.  For requested mode `quick` or `full`, whenever the params load and
name the running `user@host` as owner, the schedule load and write do not fail and the lock
is free, `RunExclusive` invokes the callback exactly once, with `RunParameters` whose mode
is the requested mode and whose params are the loaded params, and returns what the
callback returns.  Nothing is assumed about `NextQuickMaintenanceTime`,
`NextFullMaintenanceTime` or the `Enabled` flags: the only schedule read is the one of
`updateSchedule`. -/
theorem RunExclusive_forced (w : World) (mode : Mode) (cb : Callback) (p : Params)
    (hmode : mode = ModeQuick ∨ mode = ModeFull)
    (hp : w.rep.params = Except.ok p)
    (hown : p.Owner = w.rep.Username ++ "@" ++ w.rep.Hostname)
    (hget : nextFault w.rep.getScheduleFaults = none)
    (hset : nextFault w.rep.setScheduleFaults = none)
    (hlock : w.lock = LockState.free) :
    callbacks (emitted w (RunExclusive w mode cb).2) = [{ Mode := mode, Params := p }] ∧
    ∃ s r, emitted w (RunExclusive w mode cb).2 =
        [Event.getParams (Except.ok p),
         Event.getSchedule (Except.ok w.rep.schedule),
         Event.setSchedule s none,
         Event.tryLock (lockFileOf w.rep) (Except.ok true),
         Event.callback { Mode := mode, Params := p } r,
         Event.unlock (lockFileOf w.rep)] ∧
      (RunExclusive w mode cb).1 = (cb { Mode := mode, Params := p } r).1 ∧
      (RunExclusive w mode cb).2.rep = (cb { Mode := mode, Params := p } r).2 := by
  have hQF : ModeQuick ≠ ModeFull := by decide
  have hQA : ModeQuick ≠ ModeAuto := by decide
  have hQN : ModeQuick ≠ ModeNone := by decide
  have hFA : ModeFull ≠ ModeAuto := by decide
  have hFN : ModeFull ≠ ModeNone := by decide
  rcases hmode with hm | hm <;> subst hm
  · simp [RunExclusive, GetParams, hp, hown, updateSchedule, GetSchedule, hget, SetSchedule,
      hset, TryLock, hlock, invoke, Unlock, World.emit, World.Time, Repo.Time, emitted,
      callbacks, lockFileOf, hQF, hQA, hQN]
    exact ⟨_, _, ⟨rfl, rfl⟩, rfl, rfl⟩
  · simp [RunExclusive, GetParams, hp, hown, updateSchedule, GetSchedule, hget, SetSchedule,
      hset, TryLock, hlock, invoke, Unlock, World.emit, World.Time, Repo.Time, emitted,
      callbacks, lockFileOf, hFA, hFN]
    exact ⟨_, _, ⟨rfl, rfl⟩, rfl, rfl⟩

/-- Witness of C7: the sample repository with both cycles disabled and not due (next
times 5000, clock at 1000), forced mode `quick`. -/
theorem RunExclusive_forced_witness :
    nextFault idleWorld.rep.getScheduleFaults = none ∧
    nextFault idleWorld.rep.setScheduleFaults = none ∧
    idleWorld.lock = LockState.free ∧
    callbacks (emitted idleWorld (RunExclusive idleWorld ModeQuick cbOk).2) =
      [{ Mode := ModeQuick, Params := idleParams }] :=
  ⟨rfl, rfl, rfl,
    (RunExclusive_forced idleWorld ModeQuick cbOk idleParams (Or.inl rfl) rfl (by decide)
      rfl rfl rfl).1⟩

/-- C8, as stated, fails.  Requested mode `none` on a repository whose params cannot be
loaded: `RunExclusive` returns the wrapped load error, not success. -/
theorem RunExclusive_none_params_failure :
    RunExclusive
      (sampleWorld (Except.error (Error.msg "manifest store unavailable")) LockState.free)
      ModeNone cbOk =
    (some ((Error.msg "manifest store unavailable").Wrap "unable to get maintenance params"),
      { rep := sampleRepo (Except.error (Error.msg "manifest store unavailable"))
        lock := LockState.free
        trace := [Event.getParams (Except.error (Error.msg "manifest store unavailable"))] }) ∧
    (RunExclusive
      (sampleWorld (Except.error (Error.msg "manifest store unavailable")) LockState.free)
      ModeNone cbOk).1 ≠ none := by
  refine ⟨rfl, ?_⟩
  simp [RunExclusive, GetParams, sampleWorld, sampleRepo]

/-- C8, amended.  Not due is a silent no-op once the params are loaded: if the params load
succeeds and the requested mode is `none`, or the requested mode is `auto` and `shouldRun`
resolves to `none`, `RunExclusive` returns success; the steps it takes are the load of the
params and, for `auto` with a matching owner, the one schedule read of `shouldRun`: the
callback is not invoked, the schedule is not written, the lock is not attempted. -/
theorem RunExclusive_not_due (w : World) (mode : Mode) (cb : Callback) (p : Params)
    (hp : w.rep.params = Except.ok p)
    (hnd : mode = ModeNone ∨ (mode = ModeAuto ∧ (shouldRun w p).1 = Except.ok ModeNone)) :
    (RunExclusive w mode cb).1 = none ∧
    (emitted w (RunExclusive w mode cb).2 = [Event.getParams (Except.ok p)] ∨
      emitted w (RunExclusive w mode cb).2 =
        [Event.getParams (Except.ok p), Event.getSchedule (Except.ok w.rep.schedule)]) ∧
    callbacks (emitted w (RunExclusive w mode cb).2) = [] ∧
    (∀ ev ∈ emitted w (RunExclusive w mode cb).2, ev.isSetSchedule = false) ∧
    (∀ ev ∈ emitted w (RunExclusive w mode cb).2, ev.isTryLock = false) ∧
    (RunExclusive w mode cb).2.rep.schedule = w.rep.schedule ∧
    (RunExclusive w mode cb).2.lock = w.lock := by
  have hAN : ModeAuto ≠ ModeNone := by decide
  have key : ∀ p2 m w2, w.rep.params = Except.ok p2 → Resolved w mode p2 m w2 →
      m = ModeNone := by
    intro p2 m w2 hp2 hR
    have hpp : p2 = p := by
      rw [hp] at hp2
      exact (Except.ok.inj hp2).symm
    subst hpp
    rcases hR with ⟨hna, hmm, -⟩ | ⟨ha, hsr⟩
    · rcases hnd with h | ⟨h, -⟩
      · exact hmm.trans h
      · exact absurd h hna
    · rcases hnd with h | ⟨-, h⟩
      · exact absurd (ha.symm.trans h) hAN
      · have h2 := shouldRun_emit w (Event.getParams (Except.ok p2)) p2
        rw [hsr, h] at h2
        exact Except.ok.inj h2
  refine RunExclusive_cases w mode cb
    (fun o => o.1 = none ∧
      (emitted w o.2 = [Event.getParams (Except.ok p)] ∨
        emitted w o.2 =
          [Event.getParams (Except.ok p), Event.getSchedule (Except.ok w.rep.schedule)]) ∧
      callbacks (emitted w o.2) = [] ∧
      (∀ ev ∈ emitted w o.2, ev.isSetSchedule = false) ∧
      (∀ ev ∈ emitted w o.2, ev.isTryLock = false) ∧
      o.2.rep.schedule = w.rep.schedule ∧
      o.2.lock = w.lock)
    ?_ ?_ ?_ ?_ ?_ ?_ ?_ ?_
  · intro e he
    rw [hp] at he
    simp at he
  · intro p2 hp2 _
    have hpp : p2 = p := by
      rw [hp] at hp2
      exact (Except.ok.inj hp2).symm
    subst hpp
    simp [emitted, World.emit, callbacks, Event.isSetSchedule, Event.isTryLock]
  · intro p2 e w2 hp2 _ ha hsr
    have hpp : p2 = p := by
      rw [hp] at hp2
      exact (Except.ok.inj hp2).symm
    subst hpp
    rcases hnd with h | ⟨-, h⟩
    · exact absurd (ha.symm.trans h) hAN
    · have h2 := shouldRun_emit w (Event.getParams (Except.ok p2)) p2
      rw [hsr, h] at h2
      simp at h2
  · intro p2 w2 hp2 _ hR
    have hpp : p2 = p := by
      rw [hp] at hp2
      exact (Except.ok.inj hp2).symm
    subst hpp
    obtain ⟨r1, r2, -, -, -, -, r7, -, -⟩ := resolved_facts w mode p2 _ w2 hR
    rcases r7 with r7 | r7 <;>
      simp [emitted, r7, r1, r2, callbacks, Event.isSetSchedule, Event.isTryLock]
  · intro p2 m w2 e w3 hp2 _ hR hm _
    exact absurd (key p2 m w2 hp2 hR) hm
  · intro p2 m w2 w3 e hp2 _ hR hm _ _
    exact absurd (key p2 m w2 hp2 hR) hm
  · intro p2 m w2 w3 hp2 _ hR hm _ _
    exact absurd (key p2 m w2 hp2 hR) hm
  · intro p2 m w2 w3 hp2 _ hR hm _ _
    exact absurd (key p2 m w2 hp2 hR) hm

/-- Witness of C8 (amended): requested mode `auto` on the sample world in which nothing is
due. -/
theorem RunExclusive_not_due_witness :
    (shouldRun idleWorld idleParams).1 = Except.ok ModeNone ∧
    (RunExclusive idleWorld ModeAuto cbOk).1 = none ∧
    callbacks (emitted idleWorld (RunExclusive idleWorld ModeAuto cbOk).2) = [] :=
  ⟨rfl,
    (RunExclusive_not_due idleWorld ModeAuto cbOk idleParams rfl (Or.inr ⟨rfl, rfl⟩)).1,
    (RunExclusive_not_due idleWorld ModeAuto cbOk idleParams rfl (Or.inr ⟨rfl, rfl⟩)).2.2.1⟩

/-- C9.  Fatal failures.  If, during a call of `RunExclusive`, loading the params fails, or
loading the schedule fails (in the auto resolution or in the schedule update), or writing
the schedule fails, or the lock attempt fails with an I/O error, then `RunExclusive` returns
a non-nil error and the callback is not invoked. -/
theorem RunExclusive_fatal_failures (w : World) (mode : Mode) (cb : Callback)
    (h : (∃ e, Event.getParams (Except.error e) ∈ emitted w (RunExclusive w mode cb).2) ∨
      (∃ e, Event.getSchedule (Except.error e) ∈ emitted w (RunExclusive w mode cb).2) ∨
      (∃ s e, Event.setSchedule s (some e) ∈ emitted w (RunExclusive w mode cb).2) ∨
      (∃ f e, Event.tryLock f (Except.error e) ∈ emitted w (RunExclusive w mode cb).2)) :
    (RunExclusive w mode cb).1 ≠ none ∧
    callbacks (emitted w (RunExclusive w mode cb).2) = [] := by
  have hfailed : ∃ ev ∈ emitted w (RunExclusive w mode cb).2, ev.failed = true := by
    rcases h with ⟨e, he⟩ | ⟨e, he⟩ | ⟨s, e, he⟩ | ⟨f, e, he⟩
    · exact ⟨_, he, rfl⟩
    · exact ⟨_, he, rfl⟩
    · exact ⟨_, he, rfl⟩
    · exact ⟨_, he, rfl⟩
  rcases RunExclusive_shape w mode cb with hA | ⟨p, m, w2, w3, hp, hown, hR, hm, hupd, hB⟩
  · exact ⟨hA.2.2 hfailed, hA.2.1⟩
  obtain ⟨-, -, -, -, -, ⟨pre, hpre, hcb, hfail, -, -⟩, -, -⟩ :=
    updated_facts w mode p m w2 w3 hR hupd
  obtain ⟨ev, hev, hevf⟩ := hfailed
  rcases hB with ⟨e, -, ho⟩ | ⟨-, ho⟩ | ⟨-, ho⟩
  · rw [ho]
    refine ⟨by simp, ?_⟩
    simp [emitted, World.emit, hpre, callbacks_append, hcb, callbacks]
  · rw [ho] at hev
    simp only [emitted, World.emit, hpre, List.append_assoc, List.drop_left,
      List.mem_append, List.mem_singleton] at hev
    rcases hev with hev | hev
    · rw [hfail ev hev] at hevf
      simp at hevf
    · rw [hev] at hevf
      simp [Event.failed] at hevf
  · rw [ho] at hev
    simp only [emitted, hpre, List.append_assoc, List.drop_left,
      List.mem_append, List.mem_cons, List.mem_singleton] at hev
    rcases hev with hev | hev | hev | hev | hev
    · rw [hfail ev hev] at hevf
      simp at hevf
    · rw [hev] at hevf
      simp [Event.failed] at hevf
    · rw [hev] at hevf
      simp [Event.failed] at hevf
    · rw [hev] at hevf
      simp [Event.failed] at hevf
    · simp at hev

/-- Witness of C9: on the sample repository the first schedule load fails; requested mode
`auto`. -/
theorem RunExclusive_fatal_failures_witness :
    (RunExclusive
      { rep := { sampleRepo (Except.ok (sampleParams 100 10)) with
          getScheduleFaults := [some (Error.msg "read failed")] }
        lock := LockState.free
        trace := [] }
      ModeAuto cbOk).1 =
      some (((Error.msg "read failed").Wrap "error getting status").Wrap
        "unable to determine if maintenance is required") ∧
    (RunExclusive
      { rep := { sampleRepo (Except.ok (sampleParams 100 10)) with
          getScheduleFaults := [some (Error.msg "read failed")] }
        lock := LockState.free
        trace := [] }
      ModeAuto cbOk).1 ≠ none :=
  ⟨rfl,
    (RunExclusive_fatal_failures
      { rep := { sampleRepo (Except.ok (sampleParams 100 10)) with
          getScheduleFaults := [some (Error.msg "read failed")] }
        lock := LockState.free
        trace := [] }
      ModeAuto cbOk
      (Or.inr (Or.inl ⟨Error.msg "read failed", by
        have hrun : (RunExclusive
            { rep := { sampleRepo (Except.ok (sampleParams 100 10)) with
                getScheduleFaults := [some (Error.msg "read failed")] }
              lock := LockState.free
              trace := [] }
            ModeAuto cbOk).2.trace =
            [Event.getParams (Except.ok (sampleParams 100 10)),
             Event.getSchedule (Except.error (Error.msg "read failed"))] := by
          rfl
        rw [emitted, hrun]
        simp⟩))).1⟩

/-- C10.  Once `RunExclusive` has acquired the lock: the steps that follow the successful
lock attempt are exactly one callback invocation and the unlock, in this order, so the
callback runs while the lock is held; the return value of `RunExclusive` is the return
value of the callback (`nil` or the same error, not wrapped); and after the call, whether
the callback succeeded or failed, the lock is free again. -/
theorem RunExclusive_locked (w : World) (mode : Mode) (cb : Callback) (f : String)
    (h : Event.tryLock f (Except.ok true) ∈ emitted w (RunExclusive w mode cb).2) :
    ∃ pre rp r,
      emitted w (RunExclusive w mode cb).2 =
        pre ++ [Event.tryLock f (Except.ok true), Event.callback rp r, Event.unlock f] ∧
      callbacks pre = [] ∧
      (∀ ev ∈ pre, ev.isTryLock = false) ∧
      f = lockFileOf w.rep ∧
      w.lock = LockState.free ∧
      (RunExclusive w mode cb).1 = (cb rp r).1 ∧
      (RunExclusive w mode cb).2.rep = (cb rp r).2 ∧
      (RunExclusive w mode cb).2.lock = LockState.free := by
  rcases RunExclusive_shape w mode cb with hA | ⟨p, m, w2, w3, hp, hown, hR, hm, hupd, hB⟩
  · have := hA.1 _ h
    simp [Event.isTryLock] at this
  obtain ⟨u1, -, -, u4, -, ⟨pre, hpre, hcb, -, hlk, -⟩, -, -⟩ :=
    updated_facts w mode p m w2 w3 hR hupd
  have hnotpre : ∀ f2 r, Event.tryLock f2 r ∉ pre := by
    intro f2 r hmem
    have := hlk _ hmem
    simp [Event.isTryLock] at this
  rcases hB with ⟨e, -, ho⟩ | ⟨-, ho⟩ | ⟨hfree, ho⟩
  · rw [ho] at h
    simp [emitted, World.emit, hpre, hnotpre] at h
  · rw [ho] at h
    simp [emitted, World.emit, hpre, hnotpre] at h
  · rw [ho] at h
    simp [emitted, hpre, hnotpre] at h
    subst h
    refine ⟨pre, { Mode := m, Params := p }, w3.rep, ?_, hcb, hlk, u4, u1 ▸ hfree, ?_, ?_, ?_⟩
    · rw [ho]
      simp [emitted, hpre]
    · rw [ho]
    · rw [ho]
    · rw [ho]

/-- Witness of C10: the sample run in forced mode `full` with a failing callback; the
error of the callback is returned as it is and the lock is free afterwards. -/
theorem RunExclusive_locked_witness :
    (RunExclusive (sampleWorld (Except.ok (sampleParams 100 10)) LockState.free)
      ModeFull cbFail).1 = some (Error.msg "maintenance failed") ∧
    ∃ pre rp r,
      emitted (sampleWorld (Except.ok (sampleParams 100 10)) LockState.free)
        (RunExclusive (sampleWorld (Except.ok (sampleParams 100 10)) LockState.free)
          ModeFull cbFail).2 =
        pre ++ [Event.tryLock "/etc/kopia/repository.config.mlock" (Except.ok true),
          Event.callback rp r, Event.unlock "/etc/kopia/repository.config.mlock"] ∧
      (RunExclusive (sampleWorld (Except.ok (sampleParams 100 10)) LockState.free)
        ModeFull cbFail).2.lock = LockState.free :=
  ⟨rfl,
    (RunExclusive_locked (sampleWorld (Except.ok (sampleParams 100 10)) LockState.free)
      ModeFull cbFail "/etc/kopia/repository.config.mlock"
      (by
        have hrun : (RunExclusive (sampleWorld (Except.ok (sampleParams 100 10)) LockState.free)
            ModeFull cbFail).2.trace =
            [Event.getParams (Except.ok (sampleParams 100 10)),
             Event.getSchedule (Except.ok
               { NextFullMaintenanceTime := 0, NextQuickMaintenanceTime := 0, Runs := [] }),
             Event.setSchedule
               { NextFullMaintenanceTime := 1100, NextQuickMaintenanceTime := 1110, Runs := [] }
               none,
             Event.tryLock "/etc/kopia/repository.config.mlock" (Except.ok true),
             Event.callback { Mode := ModeFull, Params := sampleParams 100 10 }
               { sampleRepo (Except.ok (sampleParams 100 10)) with
                 schedule :=
                   { NextFullMaintenanceTime := 1100, NextQuickMaintenanceTime := 1110,
                     Runs := [] } },
             Event.unlock "/etc/kopia/repository.config.mlock"] := by
          rfl
        rw [emitted, hrun]
        simp [sampleWorld])).elim
      fun pre hpre => hpre.elim fun rp hrp => hrp.elim fun r hr =>
        ⟨pre, rp, r, hr.1, hr.2.2.2.2.2.2.2⟩⟩

/-! ## Theorems on the maintenance run -/

/-- C11.  An unknown mode is fatal.  For every `RunParameters` whose mode is neither `quick`
nor `full` (so also for `none`, `auto` and any other string), `Run` returns the error
`unknown mode` and calls none of the workers: the store and the log of worker calls are as
before.  For `quick` it runs exactly `runQuickMaintenance`, for `full` exactly
`runFullMaintenance`. -/
theorem Run_unknown_mode {σ : Type} (ws : Workers σ) (s : Running σ)
    (runParams : RunParameters) :
    (runParams.Mode ≠ ModeQuick → runParams.Mode ≠ ModeFull →
      Run ws s runParams = (some (Error.errorf "unknown mode %q" [runParams.Mode]), s) ∧
      (Run ws s runParams).1 ≠ none ∧
      stepsSince s (Run ws s runParams).2 = []) ∧
    (runParams.Mode = ModeNone →
      Run ws s runParams = (some (Error.errorf "unknown mode %q" [ModeNone]), s)) ∧
    (runParams.Mode = ModeAuto →
      Run ws s runParams = (some (Error.errorf "unknown mode %q" [ModeAuto]), s)) ∧
    (runParams.Mode = ModeQuick → Run ws s runParams = runQuickMaintenance ws s runParams) ∧
    (runParams.Mode = ModeFull → Run ws s runParams = runFullMaintenance ws s runParams) := by
  have hFQ : ModeFull ≠ ModeQuick := by decide
  have hNQ : ModeNone ≠ ModeQuick := by decide
  have hNF : ModeNone ≠ ModeFull := by decide
  have hAQ : ModeAuto ≠ ModeQuick := by decide
  have hAF : ModeAuto ≠ ModeFull := by decide
  refine ⟨?_, ?_, ?_, ?_, ?_⟩
  · intro h1 h2
    simp [Run, h1, h2, stepsSince]
  · intro h
    simp [Run, h, hNQ, hNF]
  · intro h
    simp [Run, h, hAQ, hAF]
  · intro h
    simp [Run, h]
  · intro h
    simp [Run, h, hFQ]

/-- Witness of C11: `Run` in mode `auto` with the sample workers. -/
theorem Run_unknown_mode_witness :
    ModeAuto ≠ ModeQuick ∧ ModeAuto ≠ ModeFull ∧
    Run sampleWorkers { store := 0, steps := [] }
        { Mode := ModeAuto, Params := sampleParams 100 10 } =
      (some (Error.errorf "unknown mode %q" ["auto"]), { store := 0, steps := [] }) :=
  ⟨by decide, by decide,
    ((Run_unknown_mode sampleWorkers { store := 0, steps := [] }
      { Mode := ModeAuto, Params := sampleParams 100 10 }).1 (by decide) (by decide)).1⟩

/-- The four ways in which `runQuickMaintenance` can go. -/
theorem runQuickMaintenance_steps {σ : Type} (ws : Workers σ) (s : Running σ)
    (runParams : RunParameters) :
    (∃ e, stepsSince s (runQuickMaintenance ws s runParams).2 =
        [Step.dropDeletedContents runParams.Params.DropDeletedContent (some e)] ∧
      (runQuickMaintenance ws s runParams).1 =
        some (e.Wrap "error dropping deleted contents")) ∨
    (∃ e, stepsSince s (runQuickMaintenance ws s runParams).2 =
        [Step.dropDeletedContents runParams.Params.DropDeletedContent none,
         Step.rewriteContents
          { ContentIDRange := IDRange.AllPrefixedIDs, ContentIDs := [], FormatVersion := 0,
            PackPrefix := "q", Parallel := 0, ShortPacks := true, DryRun := false }
          (some e)] ∧
      (runQuickMaintenance ws s runParams).1 =
        some (e.Wrap "error rewriting metadata contents")) ∨
    (∃ e, stepsSince s (runQuickMaintenance ws s runParams).2 =
        [Step.dropDeletedContents runParams.Params.DropDeletedContent none,
         Step.rewriteContents
          { ContentIDRange := IDRange.AllPrefixedIDs, ContentIDs := [], FormatVersion := 0,
            PackPrefix := "q", Parallel := 0, ShortPacks := true, DryRun := false }
          none,
         Step.deleteUnreferencedBlobs { DryRun := false, Parallel := 0, Prefix := "q" }
          (Except.error e)] ∧
      (runQuickMaintenance ws s runParams).1 =
        some (e.Wrap "error deleting unreferenced metadata blobs")) ∨
    (∃ n, stepsSince s (runQuickMaintenance ws s runParams).2 =
        [Step.dropDeletedContents runParams.Params.DropDeletedContent none,
         Step.rewriteContents
          { ContentIDRange := IDRange.AllPrefixedIDs, ContentIDs := [], FormatVersion := 0,
            PackPrefix := "q", Parallel := 0, ShortPacks := true, DryRun := false }
          none,
         Step.deleteUnreferencedBlobs { DryRun := false, Parallel := 0, Prefix := "q" }
          (Except.ok n)] ∧
      (runQuickMaintenance ws s runParams).1 = none) := by
  rcases h1 : (ws.DropDeletedContents runParams.Params.DropDeletedContent s.store).1 with
    _ | e1
  swap
  · left
    exact ⟨e1,
      by simp [runQuickMaintenance, callDropDeletedContents, h1, stepsSince],
      by simp [runQuickMaintenance, callDropDeletedContents, h1]⟩
  right
  rcases h2 : (ws.RewriteContents
      { ContentIDRange := IDRange.AllPrefixedIDs, PackPrefix := PackBlobIDPrefixSpecial,
        ShortPacks := true }
      (ws.DropDeletedContents runParams.Params.DropDeletedContent s.store).2).1 with _ | e2
  swap
  · left
    exact ⟨e2,
      by simp [runQuickMaintenance, callDropDeletedContents, callRewriteContents, h1, h2,
        stepsSince, PackBlobIDPrefixSpecial] at *,
      by simp [runQuickMaintenance, callDropDeletedContents, callRewriteContents, h1, h2]⟩
  right
  rcases h3 : (ws.DeleteUnreferencedBlobs { Prefix := PackBlobIDPrefixSpecial }
      (ws.RewriteContents
        { ContentIDRange := IDRange.AllPrefixedIDs, PackPrefix := PackBlobIDPrefixSpecial,
          ShortPacks := true }
        (ws.DropDeletedContents runParams.Params.DropDeletedContent s.store).2).2).1 with
    e3 | n
  · left
    exact ⟨e3,
      by simp [runQuickMaintenance, callDropDeletedContents, callRewriteContents,
        callDeleteUnreferencedBlobs, h1, h2, h3, stepsSince, PackBlobIDPrefixSpecial] at *,
      by simp [runQuickMaintenance, callDropDeletedContents, callRewriteContents,
        callDeleteUnreferencedBlobs, h1, h2, h3]⟩
  · right
    exact ⟨n,
      by simp [runQuickMaintenance, callDropDeletedContents, callRewriteContents,
        callDeleteUnreferencedBlobs, h1, h2, h3, stepsSince, PackBlobIDPrefixSpecial] at *,
      by simp [runQuickMaintenance, callDropDeletedContents, callRewriteContents,
        callDeleteUnreferencedBlobs, h1, h2, h3]⟩

/-- The four ways in which `runFullMaintenance` can go. -/
theorem runFullMaintenance_steps {σ : Type} (ws : Workers σ) (s : Running σ)
    (runParams : RunParameters) :
    (∃ e, stepsSince s (runFullMaintenance ws s runParams).2 =
        [Step.dropDeletedContents runParams.Params.DropDeletedContent (some e)] ∧
      (runFullMaintenance ws s runParams).1 =
        some (e.Wrap "error dropping deleted contents")) ∨
    (∃ e, stepsSince s (runFullMaintenance ws s runParams).2 =
        [Step.dropDeletedContents runParams.Params.DropDeletedContent none,
         Step.rewriteContents
          { ContentIDRange := IDRange.AllIDs, ContentIDs := [], FormatVersion := 0,
            PackPrefix := "", Parallel := 0, ShortPacks := true, DryRun := false }
          (some e)] ∧
      (runFullMaintenance ws s runParams).1 =
        some (e.Wrap "error rewriting contents in short packs")) ∨
    (∃ e, stepsSince s (runFullMaintenance ws s runParams).2 =
        [Step.dropDeletedContents runParams.Params.DropDeletedContent none,
         Step.rewriteContents
          { ContentIDRange := IDRange.AllIDs, ContentIDs := [], FormatVersion := 0,
            PackPrefix := "", Parallel := 0, ShortPacks := true, DryRun := false }
          none,
         Step.deleteUnreferencedBlobs { DryRun := false, Parallel := 0, Prefix := "" }
          (Except.error e)] ∧
      (runFullMaintenance ws s runParams).1 =
        some (e.Wrap "error deleting unreferenced blobs")) ∨
    (∃ n, stepsSince s (runFullMaintenance ws s runParams).2 =
        [Step.dropDeletedContents runParams.Params.DropDeletedContent none,
         Step.rewriteContents
          { ContentIDRange := IDRange.AllIDs, ContentIDs := [], FormatVersion := 0,
            PackPrefix := "", Parallel := 0, ShortPacks := true, DryRun := false }
          none,
         Step.deleteUnreferencedBlobs { DryRun := false, Parallel := 0, Prefix := "" }
          (Except.ok n)] ∧
      (runFullMaintenance ws s runParams).1 = none) := by
  rcases h1 : (ws.DropDeletedContents runParams.Params.DropDeletedContent s.store).1 with
    _ | e1
  swap
  · left
    exact ⟨e1,
      by simp [runFullMaintenance, callDropDeletedContents, h1, stepsSince],
      by simp [runFullMaintenance, callDropDeletedContents, h1]⟩
  right
  rcases h2 : (ws.RewriteContents
      { ContentIDRange := IDRange.AllIDs, ShortPacks := true }
      (ws.DropDeletedContents runParams.Params.DropDeletedContent s.store).2).1 with _ | e2
  swap
  · left
    exact ⟨e2,
      by simp [runFullMaintenance, callDropDeletedContents, callRewriteContents, h1, h2,
        stepsSince] at *,
      by simp [runFullMaintenance, callDropDeletedContents, callRewriteContents, h1, h2]⟩
  right
  rcases h3 : (ws.DeleteUnreferencedBlobs {}
      (ws.RewriteContents
        { ContentIDRange := IDRange.AllIDs, ShortPacks := true }
        (ws.DropDeletedContents runParams.Params.DropDeletedContent s.store).2).2).1 with
    e3 | n
  · left
    exact ⟨e3,
      by simp [runFullMaintenance, callDropDeletedContents, callRewriteContents,
        callDeleteUnreferencedBlobs, h1, h2, h3, stepsSince] at *,
      by simp [runFullMaintenance, callDropDeletedContents, callRewriteContents,
        callDeleteUnreferencedBlobs, h1, h2, h3]⟩
  · right
    exact ⟨n,
      by simp [runFullMaintenance, callDropDeletedContents, callRewriteContents,
        callDeleteUnreferencedBlobs, h1, h2, h3, stepsSince] at *,
      by simp [runFullMaintenance, callDropDeletedContents, callRewriteContents,
        callDeleteUnreferencedBlobs, h1, h2, h3]⟩

/-- The run of `runQuickMaintenance` by the outcomes `d`, `r`, `g` of the three worker
calls: the steps logged, the store left and the result. -/
theorem runQuickMaintenance_run {σ : Type} (ws : Workers σ) (s : Running σ)
    (runParams : RunParameters) (d r : Option Error × σ) (g : Except Error Int × σ)
    (hd : ws.DropDeletedContents runParams.Params.DropDeletedContent s.store = d)
    (hr : ws.RewriteContents
      { ContentIDRange := IDRange.AllPrefixedIDs, ContentIDs := [], FormatVersion := 0,
        PackPrefix := "q", Parallel := 0, ShortPacks := true, DryRun := false } d.2 = r)
    (hg : ws.DeleteUnreferencedBlobs { DryRun := false, Parallel := 0, Prefix := "q" } r.2
      = g) :
    stepsSince s (runQuickMaintenance ws s runParams).2 =
      Step.dropDeletedContents runParams.Params.DropDeletedContent d.1 ::
        (if d.1 = none then
          Step.rewriteContents
              { ContentIDRange := IDRange.AllPrefixedIDs, ContentIDs := [],
                FormatVersion := 0, PackPrefix := "q", Parallel := 0, ShortPacks := true,
                DryRun := false } r.1 ::
            (if r.1 = none then
              [Step.deleteUnreferencedBlobs { DryRun := false, Parallel := 0, Prefix := "q" }
                g.1]
            else [])
        else []) ∧
    (runQuickMaintenance ws s runParams).2.store =
      (if d.1 = none then if r.1 = none then g.2 else r.2 else d.2) ∧
    (runQuickMaintenance ws s runParams).1 =
      (match d.1 with
        | some e => some (e.Wrap "error dropping deleted contents")
        | none =>
          match r.1 with
          | some e => some (e.Wrap "error rewriting metadata contents")
          | none =>
            match g.1 with
            | Except.error e => some (e.Wrap "error deleting unreferenced metadata blobs")
            | Except.ok _ => none) := by
  subst hd hr hg
  rcases h1 : (ws.DropDeletedContents runParams.Params.DropDeletedContent s.store).1 with
    _ | e1
  swap
  · simp [runQuickMaintenance, callDropDeletedContents, h1, stepsSince]
  rcases h2 : (ws.RewriteContents
      { ContentIDRange := IDRange.AllPrefixedIDs, PackPrefix := PackBlobIDPrefixSpecial,
        ShortPacks := true }
      (ws.DropDeletedContents runParams.Params.DropDeletedContent s.store).2).1 with _ | e2
  swap
  · simp [runQuickMaintenance, callDropDeletedContents, callRewriteContents, h1, h2,
      stepsSince, PackBlobIDPrefixSpecial] at *
  rcases h3 : (ws.DeleteUnreferencedBlobs { Prefix := PackBlobIDPrefixSpecial }
      (ws.RewriteContents
        { ContentIDRange := IDRange.AllPrefixedIDs, PackPrefix := PackBlobIDPrefixSpecial,
          ShortPacks := true }
        (ws.DropDeletedContents runParams.Params.DropDeletedContent s.store).2).2).1 with
    e3 | n
  · simp [runQuickMaintenance, callDropDeletedContents, callRewriteContents,
      callDeleteUnreferencedBlobs, h1, h2, h3, stepsSince, PackBlobIDPrefixSpecial] at *
  · simp [runQuickMaintenance, callDropDeletedContents, callRewriteContents,
      callDeleteUnreferencedBlobs, h1, h2, h3, stepsSince, PackBlobIDPrefixSpecial] at *

/-- The run of `runFullMaintenance` by the outcomes `d`, `r`, `g` of the three worker
calls: the steps logged, the store left and the result. -/
theorem runFullMaintenance_run {σ : Type} (ws : Workers σ) (s : Running σ)
    (runParams : RunParameters) (d r : Option Error × σ) (g : Except Error Int × σ)
    (hd : ws.DropDeletedContents runParams.Params.DropDeletedContent s.store = d)
    (hr : ws.RewriteContents
      { ContentIDRange := IDRange.AllIDs, ContentIDs := [], FormatVersion := 0,
        PackPrefix := "", Parallel := 0, ShortPacks := true, DryRun := false } d.2 = r)
    (hg : ws.DeleteUnreferencedBlobs { DryRun := false, Parallel := 0, Prefix := "" } r.2
      = g) :
    stepsSince s (runFullMaintenance ws s runParams).2 =
      Step.dropDeletedContents runParams.Params.DropDeletedContent d.1 ::
        (if d.1 = none then
          Step.rewriteContents
              { ContentIDRange := IDRange.AllIDs, ContentIDs := [],
                FormatVersion := 0, PackPrefix := "", Parallel := 0, ShortPacks := true,
                DryRun := false } r.1 ::
            (if r.1 = none then
              [Step.deleteUnreferencedBlobs { DryRun := false, Parallel := 0, Prefix := "" }
                g.1]
            else [])
        else []) ∧
    (runFullMaintenance ws s runParams).2.store =
      (if d.1 = none then if r.1 = none then g.2 else r.2 else d.2) ∧
    (runFullMaintenance ws s runParams).1 =
      (match d.1 with
        | some e => some (e.Wrap "error dropping deleted contents")
        | none =>
          match r.1 with
          | some e => some (e.Wrap "error rewriting contents in short packs")
          | none =>
            match g.1 with
            | Except.error e => some (e.Wrap "error deleting unreferenced blobs")
            | Except.ok _ => none) := by
  subst hd hr hg
  rcases h1 : (ws.DropDeletedContents runParams.Params.DropDeletedContent s.store).1 with
    _ | e1
  swap
  · simp [runFullMaintenance, callDropDeletedContents, h1, stepsSince]
  rcases h2 : (ws.RewriteContents
      { ContentIDRange := IDRange.AllIDs, ShortPacks := true }
      (ws.DropDeletedContents runParams.Params.DropDeletedContent s.store).2).1 with _ | e2
  swap
  · simp [runFullMaintenance, callDropDeletedContents, callRewriteContents, h1, h2,
      stepsSince] at *
  rcases h3 : (ws.DeleteUnreferencedBlobs {}
      (ws.RewriteContents
        { ContentIDRange := IDRange.AllIDs, ShortPacks := true }
        (ws.DropDeletedContents runParams.Params.DropDeletedContent s.store).2).2).1 with
    e3 | n
  · simp [runFullMaintenance, callDropDeletedContents, callRewriteContents,
      callDeleteUnreferencedBlobs, h1, h2, h3, stepsSince] at *
  · simp [runFullMaintenance, callDropDeletedContents, callRewriteContents,
      callDeleteUnreferencedBlobs, h1, h2, h3, stepsSince] at *

/-- C12.  With `d`, `r`, `g` the outcomes of the calls of the workers `DropDeletedContents`,
`RewriteContents` (on the store that the first call left) and `DeleteUnreferencedBlobs` (on
the store that the second call left), both orchestrators call the three workers in this
order, each at most once.  If a call fails, no later worker is called, the store is the one
that the failing call left, and the orchestrator returns the error of that call wrapped
with a phrase (the cause of the returned error is the cause of that error): for the quick
orchestrator "error dropping deleted contents", "error rewriting metadata contents", "error
deleting unreferenced metadata blobs"; for the full one "error dropping deleted
contents", "error rewriting contents in short packs", "error deleting unreferenced blobs".
If the three calls succeed the orchestrator returns `nil`. -/
theorem orchestrators_abort_on_failure {σ : Type} (ws : Workers σ) (s : Running σ)
    (runParams : RunParameters) (d rq rf : Option Error × σ) (gq gf : Except Error Int × σ)
    (hd : ws.DropDeletedContents runParams.Params.DropDeletedContent s.store = d)
    (hrq : ws.RewriteContents
      { ContentIDRange := IDRange.AllPrefixedIDs, ContentIDs := [], FormatVersion := 0,
        PackPrefix := "q", Parallel := 0, ShortPacks := true, DryRun := false } d.2 = rq)
    (hgq : ws.DeleteUnreferencedBlobs { DryRun := false, Parallel := 0, Prefix := "q" } rq.2
      = gq)
    (hrf : ws.RewriteContents
      { ContentIDRange := IDRange.AllIDs, ContentIDs := [], FormatVersion := 0,
        PackPrefix := "", Parallel := 0, ShortPacks := true, DryRun := false } d.2 = rf)
    (hgf : ws.DeleteUnreferencedBlobs { DryRun := false, Parallel := 0, Prefix := "" } rf.2
      = gf) :
    ((∀ e, d.1 = some e →
        (runQuickMaintenance ws s runParams).1 =
          some (e.Wrap "error dropping deleted contents") ∧
        stepsSince s (runQuickMaintenance ws s runParams).2 =
          [Step.dropDeletedContents runParams.Params.DropDeletedContent (some e)] ∧
        (runQuickMaintenance ws s runParams).2.store = d.2) ∧
      (d.1 = none → ∀ e, rq.1 = some e →
        (runQuickMaintenance ws s runParams).1 =
          some (e.Wrap "error rewriting metadata contents") ∧
        stepsSince s (runQuickMaintenance ws s runParams).2 =
          [Step.dropDeletedContents runParams.Params.DropDeletedContent none,
           Step.rewriteContents
            { ContentIDRange := IDRange.AllPrefixedIDs, ContentIDs := [], FormatVersion := 0,
              PackPrefix := "q", Parallel := 0, ShortPacks := true, DryRun := false }
            (some e)] ∧
        (runQuickMaintenance ws s runParams).2.store = rq.2) ∧
      (d.1 = none → rq.1 = none → ∀ e, gq.1 = Except.error e →
        (runQuickMaintenance ws s runParams).1 =
          some (e.Wrap "error deleting unreferenced metadata blobs") ∧
        stepsSince s (runQuickMaintenance ws s runParams).2 =
          [Step.dropDeletedContents runParams.Params.DropDeletedContent none,
           Step.rewriteContents
            { ContentIDRange := IDRange.AllPrefixedIDs, ContentIDs := [], FormatVersion := 0,
              PackPrefix := "q", Parallel := 0, ShortPacks := true, DryRun := false } none,
           Step.deleteUnreferencedBlobs { DryRun := false, Parallel := 0, Prefix := "q" }
            (Except.error e)] ∧
        (runQuickMaintenance ws s runParams).2.store = gq.2) ∧
      (d.1 = none → rq.1 = none → ∀ n, gq.1 = Except.ok n →
        (runQuickMaintenance ws s runParams).1 = none ∧
        stepsSince s (runQuickMaintenance ws s runParams).2 =
          [Step.dropDeletedContents runParams.Params.DropDeletedContent none,
           Step.rewriteContents
            { ContentIDRange := IDRange.AllPrefixedIDs, ContentIDs := [], FormatVersion := 0,
              PackPrefix := "q", Parallel := 0, ShortPacks := true, DryRun := false } none,
           Step.deleteUnreferencedBlobs { DryRun := false, Parallel := 0, Prefix := "q" }
            (Except.ok n)] ∧
        (runQuickMaintenance ws s runParams).2.store = gq.2)) ∧
    ((∀ e, d.1 = some e →
        (runFullMaintenance ws s runParams).1 =
          some (e.Wrap "error dropping deleted contents") ∧
        stepsSince s (runFullMaintenance ws s runParams).2 =
          [Step.dropDeletedContents runParams.Params.DropDeletedContent (some e)] ∧
        (runFullMaintenance ws s runParams).2.store = d.2) ∧
      (d.1 = none → ∀ e, rf.1 = some e →
        (runFullMaintenance ws s runParams).1 =
          some (e.Wrap "error rewriting contents in short packs") ∧
        stepsSince s (runFullMaintenance ws s runParams).2 =
          [Step.dropDeletedContents runParams.Params.DropDeletedContent none,
           Step.rewriteContents
            { ContentIDRange := IDRange.AllIDs, ContentIDs := [], FormatVersion := 0,
              PackPrefix := "", Parallel := 0, ShortPacks := true, DryRun := false }
            (some e)] ∧
        (runFullMaintenance ws s runParams).2.store = rf.2) ∧
      (d.1 = none → rf.1 = none → ∀ e, gf.1 = Except.error e →
        (runFullMaintenance ws s runParams).1 =
          some (e.Wrap "error deleting unreferenced blobs") ∧
        stepsSince s (runFullMaintenance ws s runParams).2 =
          [Step.dropDeletedContents runParams.Params.DropDeletedContent none,
           Step.rewriteContents
            { ContentIDRange := IDRange.AllIDs, ContentIDs := [], FormatVersion := 0,
              PackPrefix := "", Parallel := 0, ShortPacks := true, DryRun := false } none,
           Step.deleteUnreferencedBlobs { DryRun := false, Parallel := 0, Prefix := "" }
            (Except.error e)] ∧
        (runFullMaintenance ws s runParams).2.store = gf.2) ∧
      (d.1 = none → rf.1 = none → ∀ n, gf.1 = Except.ok n →
        (runFullMaintenance ws s runParams).1 = none ∧
        stepsSince s (runFullMaintenance ws s runParams).2 =
          [Step.dropDeletedContents runParams.Params.DropDeletedContent none,
           Step.rewriteContents
            { ContentIDRange := IDRange.AllIDs, ContentIDs := [], FormatVersion := 0,
              PackPrefix := "", Parallel := 0, ShortPacks := true, DryRun := false } none,
           Step.deleteUnreferencedBlobs { DryRun := false, Parallel := 0, Prefix := "" }
            (Except.ok n)] ∧
        (runFullMaintenance ws s runParams).2.store = gf.2)) ∧
    (∀ (e : Error) (context : String), (e.Wrap context).Cause = e.Cause) := by
  obtain ⟨hqs, hqst, hqr⟩ := runQuickMaintenance_run ws s runParams d rq gq hd hrq hgq
  obtain ⟨hfs, hfst, hfr⟩ := runFullMaintenance_run ws s runParams d rf gf hd hrf hgf
  refine ⟨⟨?_, ?_, ?_, ?_⟩, ⟨?_, ?_, ?_, ?_⟩, fun e context => rfl⟩
  · intro e h1
    rw [hqs, hqst, hqr]
    simp [h1]
  · intro h1 e h2
    rw [hqs, hqst, hqr]
    simp [h1, h2]
  · intro h1 h2 e h3
    rw [hqs, hqst, hqr]
    simp [h1, h2, h3]
  · intro h1 h2 n h3
    rw [hqs, hqst, hqr]
    simp [h1, h2, h3]
  · intro e h1
    rw [hfs, hfst, hfr]
    simp [h1]
  · intro h1 e h2
    rw [hfs, hfst, hfr]
    simp [h1, h2]
  · intro h1 h2 e h3
    rw [hfs, hfst, hfr]
    simp [h1, h2, h3]
  · intro h1 h2 n h3
    rw [hfs, hfst, hfr]
    simp [h1, h2, h3]

/-- Witness of C12: with workers whose `RewriteContents` fails, the full orchestrator stops
after the second call (the store counts two calls) and returns the wrapped error. -/
theorem orchestrators_abort_on_failure_witness :
    (runFullMaintenance sampleWorkersRewriteFails { store := 0, steps := [] }
        { Mode := ModeFull, Params := sampleParams 100 10 }).1 =
      some ((Error.msg "pack not found").Wrap "error rewriting contents in short packs") ∧
    stepsSince { store := 0, steps := [] }
        (runFullMaintenance sampleWorkersRewriteFails { store := 0, steps := [] }
          { Mode := ModeFull, Params := sampleParams 100 10 }).2 =
      [Step.dropDeletedContents { MinAge := 86400 } none,
       Step.rewriteContents
        { ContentIDRange := IDRange.AllIDs, ContentIDs := [], FormatVersion := 0,
          PackPrefix := "", Parallel := 0, ShortPacks := true, DryRun := false }
        (some (Error.msg "pack not found"))] ∧
    (runFullMaintenance sampleWorkersRewriteFails { store := 0, steps := [] }
        { Mode := ModeFull, Params := sampleParams 100 10 }).2.store = 2 :=
  (orchestrators_abort_on_failure sampleWorkersRewriteFails { store := 0, steps := [] }
    { Mode := ModeFull, Params := sampleParams 100 10 }
    (none, 1) (some (Error.msg "pack not found"), 2) (some (Error.msg "pack not found"), 2)
    (Except.ok 0, 3) (Except.ok 0, 3) rfl rfl rfl rfl rfl).2.1.2.1 rfl
    (Error.msg "pack not found") rfl

/-- C13.  Scopes of the orchestrators.  With `d` the outcome of the call of
`DropDeletedContents` on the run's `Params.DropDeletedContent`: the quick orchestrator
then calls `RewriteContents` with `ShortPacks = true`, `PackPrefix = "q"`,
`ContentIDRange = AllPrefixedIDs` and nothing else set, and then
`DeleteUnreferencedBlobs` with `Prefix = "q"` and nothing else set; the full orchestrator
calls `RewriteContents` with `ShortPacks = true`, `ContentIDRange = AllIDs` and no pack
prefix, and then `DeleteUnreferencedBlobs` with no prefix.  Each call is made on the store
that the call before it left, when that call succeeded, its outcome is the one logged,
and the store that the orchestrator leaves is the one that the last call left.  Neither
orchestrator sets `DryRun`. -/
theorem orchestrators_scopes {σ : Type} (ws : Workers σ) (s : Running σ)
    (runParams : RunParameters) (d rq rf : Option Error × σ) (gq gf : Except Error Int × σ)
    (hd : ws.DropDeletedContents runParams.Params.DropDeletedContent s.store = d)
    (hrq : ws.RewriteContents
      { ContentIDRange := IDRange.AllPrefixedIDs, ContentIDs := [], FormatVersion := 0,
        PackPrefix := "q", Parallel := 0, ShortPacks := true, DryRun := false } d.2 = rq)
    (hgq : ws.DeleteUnreferencedBlobs { DryRun := false, Parallel := 0, Prefix := "q" } rq.2
      = gq)
    (hrf : ws.RewriteContents
      { ContentIDRange := IDRange.AllIDs, ContentIDs := [], FormatVersion := 0,
        PackPrefix := "", Parallel := 0, ShortPacks := true, DryRun := false } d.2 = rf)
    (hgf : ws.DeleteUnreferencedBlobs { DryRun := false, Parallel := 0, Prefix := "" } rf.2
      = gf) :
    (stepsSince s (runQuickMaintenance ws s runParams).2 =
        Step.dropDeletedContents runParams.Params.DropDeletedContent d.1 ::
          (if d.1 = none then
            Step.rewriteContents
                { ContentIDRange := IDRange.AllPrefixedIDs, ContentIDs := [],
                  FormatVersion := 0, PackPrefix := "q", Parallel := 0, ShortPacks := true,
                  DryRun := false } rq.1 ::
              (if rq.1 = none then
                [Step.deleteUnreferencedBlobs
                  { DryRun := false, Parallel := 0, Prefix := "q" } gq.1]
              else [])
          else []) ∧
      (runQuickMaintenance ws s runParams).2.store =
        (if d.1 = none then if rq.1 = none then gq.2 else rq.2 else d.2)) ∧
    (stepsSince s (runFullMaintenance ws s runParams).2 =
        Step.dropDeletedContents runParams.Params.DropDeletedContent d.1 ::
          (if d.1 = none then
            Step.rewriteContents
                { ContentIDRange := IDRange.AllIDs, ContentIDs := [],
                  FormatVersion := 0, PackPrefix := "", Parallel := 0, ShortPacks := true,
                  DryRun := false } rf.1 ::
              (if rf.1 = none then
                [Step.deleteUnreferencedBlobs
                  { DryRun := false, Parallel := 0, Prefix := "" } gf.1]
              else [])
          else []) ∧
      (runFullMaintenance ws s runParams).2.store =
        (if d.1 = none then if rf.1 = none then gf.2 else rf.2 else d.2)) :=
  ⟨⟨(runQuickMaintenance_run ws s runParams d rq gq hd hrq hgq).1,
      (runQuickMaintenance_run ws s runParams d rq gq hd hrq hgq).2.1⟩,
    ⟨(runFullMaintenance_run ws s runParams d rf gf hd hrf hgf).1,
      (runFullMaintenance_run ws s runParams d rf gf hd hrf hgf).2.1⟩⟩

/-- Witness of C13: with workers that succeed, the quick orchestrator makes the three calls
with the options of the `q` scope and leaves the store of the third call. -/
theorem orchestrators_scopes_witness :
    stepsSince { store := 0, steps := [] }
        (runQuickMaintenance sampleWorkers { store := 0, steps := [] }
          { Mode := ModeQuick, Params := sampleParams 100 10 }).2 =
      [Step.dropDeletedContents { MinAge := 86400 } none,
       Step.rewriteContents
        { ContentIDRange := IDRange.AllPrefixedIDs, ContentIDs := [], FormatVersion := 0,
          PackPrefix := "q", Parallel := 0, ShortPacks := true, DryRun := false } none,
       Step.deleteUnreferencedBlobs { DryRun := false, Parallel := 0, Prefix := "q" }
        (Except.ok 0)] ∧
    (runQuickMaintenance sampleWorkers { store := 0, steps := [] }
        { Mode := ModeQuick, Params := sampleParams 100 10 }).2.store = 3 :=
  (orchestrators_scopes sampleWorkers { store := 0, steps := [] }
    { Mode := ModeQuick, Params := sampleParams 100 10 }
    (none, 1) (none, 2) (none, 2) (Except.ok 0, 3) (Except.ok 0, 3)
    rfl rfl rfl rfl rfl).1

/-! ## Theorems on `blob gc` -/

/-- C14.  `blob gc` calls `DeleteUnreferencedBlobs` exactly once, with `DryRun` true if and
only if the value of `--delete` differs from the literal `yes`, and with the values of
`--parallel` and `--prefix` (and of `--safety`) passed through unchanged.  In particular the
empty default, `no`, `YES` and `true` give a dry run, and `yes` does not. -/
theorem blob_gc_dry_run_flag {σ : Type} (env : BlobGcEnv σ) (flags : BlobGcFlags)
    (c : BlobGcState σ) :
    ∃ o, gcCalls (blobGcOutSince c (runBlobGarbageCollectCommand env flags c).2) =
        [(o, flags.blobGarbageCollectSafety)] ∧
      (o.DryRun = true ↔ flags.blobGarbageCollectCommandDelete ≠ "yes") ∧
      o.Parallel = flags.blobGarbageCollectParallel ∧
      o.Prefix = flags.blobGarbageCollectPrefix ∧
      (flags.blobGarbageCollectCommandDelete = "" ∨
        flags.blobGarbageCollectCommandDelete = "no" ∨
        flags.blobGarbageCollectCommandDelete = "YES" ∨
        flags.blobGarbageCollectCommandDelete = "true" → o.DryRun = true) ∧
      (flags.blobGarbageCollectCommandDelete = "yes" → o.DryRun = false) := by
  refine ⟨{ DryRun := decide (flags.blobGarbageCollectCommandDelete ≠ "yes")
            Parallel := flags.blobGarbageCollectParallel
            Prefix := flags.blobGarbageCollectPrefix }, ?_, by simp, rfl, rfl, ?_, ?_⟩
  · simp only [runBlobGarbageCollectCommand]
    split
    · simp [blobGcOutSince, gcCalls]
    · split <;> simp [blobGcOutSince, gcCalls]
  · intro hd
    show decide (flags.blobGarbageCollectCommandDelete ≠ "yes") = true
    rcases hd with h | h | h | h <;> rw [h] <;> decide
  · intro h
    show decide (flags.blobGarbageCollectCommandDelete ≠ "yes") = false
    rw [h]
    decide

/-- C15, as stated, fails.  `blob gc` with the default `--delete` (a dry run) on a store
whose blobs cannot be listed: `DeleteUnreferencedBlobs` fails and the command returns the
wrapped error, not success. -/
theorem blob_gc_dry_run_failure :
    gcCalls (blobGcOutSince { store := 0, out := [] }
      (runBlobGarbageCollectCommand sampleGcEnvFailing (sampleGcFlags "")
        { store := 0, out := [] }).2) =
      [({ DryRun := true, Parallel := 16, Prefix := "q" }, SafetyNone)] ∧
    (runBlobGarbageCollectCommand sampleGcEnvFailing (sampleGcFlags "")
      { store := 0, out := [] }).1 =
      some ((Error.msg "listing failed").Wrap "error deleting unreferenced blobs") ∧
    (runBlobGarbageCollectCommand sampleGcEnvFailing (sampleGcFlags "")
      { store := 0, out := [] }).1 ≠ none := by
  refine ⟨?_, rfl, ?_⟩
  · simp [runBlobGarbageCollectCommand, sampleGcEnvFailing, sampleGcFlags, blobGcOutSince,
      gcCalls]
  · simp [runBlobGarbageCollectCommand, sampleGcEnvFailing, sampleGcFlags]

/-- C15, amended.  Whenever `DeleteUnreferencedBlobs` succeeds with count `n`, `blob gc`
returns success, and it logs the hint `Pass --delete=yes to delete.` if and only if the run
is a dry run (`--delete` other than `yes`) and `n` is greater than zero; so a dry run logs
the hint exactly when blobs would have been deleted, and a non-dry run never logs it. -/
theorem blob_gc_hint {σ : Type} (env : BlobGcEnv σ) (flags : BlobGcFlags)
    (c : BlobGcState σ) (n : Int)
    (hok : (env.DeleteUnreferencedBlobs
      { DryRun := decide (flags.blobGarbageCollectCommandDelete ≠ "yes")
        Parallel := flags.blobGarbageCollectParallel
        Prefix := flags.blobGarbageCollectPrefix }
      flags.blobGarbageCollectSafety (env.advancedCommand c.store)).1 = Except.ok n) :
    (runBlobGarbageCollectCommand env flags c).1 = none ∧
    (BlobGcEvent.info "Pass --delete=yes to delete." ∈
        blobGcOutSince c (runBlobGarbageCollectCommand env flags c).2 ↔
      flags.blobGarbageCollectCommandDelete ≠ "yes" ∧ 0 < n) ∧
    (flags.blobGarbageCollectCommandDelete = "yes" →
      ∀ text, BlobGcEvent.info text ∉
        blobGcOutSince c (runBlobGarbageCollectCommand env flags c).2) := by
  simp only [runBlobGarbageCollectCommand, hok]
  by_cases hd : flags.blobGarbageCollectCommandDelete = "yes"
  · simp [hd, blobGcOutSince]
  · by_cases hn : 0 < n
    · simp [hd, hn, blobGcOutSince]
    · simp [hd, hn, blobGcOutSince]

/-- Witness of C15 (amended): `blob gc --delete=no` on the sample store with three
unreferenced blobs returns success and logs the hint. -/
theorem blob_gc_hint_witness :
    (runBlobGarbageCollectCommand sampleGcEnv (sampleGcFlags "no")
      { store := 0, out := [] }).1 = none ∧
    BlobGcEvent.info "Pass --delete=yes to delete." ∈
      blobGcOutSince { store := 0, out := [] }
        (runBlobGarbageCollectCommand sampleGcEnv (sampleGcFlags "no")
          { store := 0, out := [] }).2 :=
  ⟨(blob_gc_hint sampleGcEnv (sampleGcFlags "no") { store := 0, out := [] } 3 rfl).1,
    (blob_gc_hint sampleGcEnv (sampleGcFlags "no") { store := 0, out := [] } 3 rfl).2.1.mpr
      ⟨by decide, by decide⟩⟩

/-! ## Theorems on `manifest list` -/

theorem stringLess_eq_false_iff (a b : String) : stringLess b a = false ↔ a ≤ b := by
  rw [String.le_iff_toList_le]
  simp only [stringLess, decide_eq_false_iff_not, not_lt]
  rfl

theorem sortStrings_sorted (xs : List String) : (sortStrings xs).Sorted fun a b => a ≤ b := by
  have htotal : IsTotal String fun a b => stringLess b a = false :=
    ⟨fun a b => by
      simp only [stringLess_eq_false_iff]
      exact le_total a b⟩
  have htrans : IsTrans String fun a b => stringLess b a = false :=
    ⟨fun a b c => by
      simp only [stringLess_eq_false_iff]
      exact le_trans⟩
  have h := List.sorted_insertionSort (fun a b => stringLess b a = false) xs
  exact List.Pairwise.imp (fun {a b} hab => (stringLess_eq_false_iff a b).mp hab) h

theorem sortStrings_perm (xs : List String) : (sortStrings xs).Perm xs :=
  List.perm_insertionSort _ xs

theorem filterMap_labels (m : StringMap) :
    (m.filterMap fun kv => if kv.1 = "type" then none else some (kv.1 ++ ":" ++ kv.2)) =
      (m.filter fun kv => decide (kv.1 ≠ "type")).map fun kv => kv.1 ++ ":" ++ kv.2 := by
  induction m with
  | nil => rfl
  | cons kv rest ih =>
    by_cases h : kv.1 = "type"
    · simp [List.filterMap_cons, h, ih]
    · simp [List.filterMap_cons, h, ih]

/-- C16, as stated, fails.  For the labels `user:x`, `type:snapshot` and `user-id:y` the
text after `type:snapshot` is `user-id:y user:x`: the label with key `user-id` comes first
although `user` is the smaller key. -/
theorem sortedMapValues_not_in_key_order :
    sortedMapValues [("user", "x"), ("type", "snapshot"), ("user-id", "y")] =
      "user-id:y user:x" ∧
    "user" < "user-id" ∧
    sortedMapValues [("user", "x"), ("type", "snapshot"), ("user-id", "y")] ≠
      "user:x user-id:y" := by
  refine ⟨by decide, String.lt_iff_toList_lt.mpr (by decide), by decide⟩

/-- C16, amended.  For every label map, the text that `sortedMapValues` returns lists every
label other than `type` exactly once, rendered as `key:value`, separated by single spaces,
in ascending order of the rendered strings `key:value` (not of the keys alone); the `type`
label is not among them, and the result is the empty string when there are no other
labels. -/
theorem sortedMapValues_sorted_labels (m : StringMap) :
    (∃ rendered : List String,
      sortedMapValues m = " ".intercalate rendered ∧
      rendered.Sorted (fun a b => a ≤ b) ∧
      rendered.Perm
        ((m.filter fun kv => decide (kv.1 ≠ "type")).map fun kv => kv.1 ++ ":" ++ kv.2)) ∧
    ((∀ kv ∈ m, kv.1 = "type") → sortedMapValues m = "") := by
  constructor
  · refine ⟨sortStrings
      (m.filterMap fun (kv : String × String) =>
        if kv.1 = "type" then none else some (kv.1 ++ ":" ++ kv.2)),
      rfl, sortStrings_sorted _, ?_⟩
    rw [← filterMap_labels]
    exact sortStrings_perm _
  · intro h
    have hnil : (m.filterMap fun kv =>
        if kv.1 = "type" then none else some (kv.1 ++ ":" ++ kv.2)) = [] := by
      rw [filterMap_labels]
      simp only [List.map_eq_nil_iff, List.filter_eq_nil_iff]
      intro kv hkv
      simp [h kv hkv]
    simp only [sortedMapValues, hnil]
    rfl

/-- Witness of C16 (amended): a map that holds only the `type` label. -/
theorem sortedMapValues_sorted_labels_witness :
    sortedMapValues [("type", "snapshot")] = "" :=
  (sortedMapValues_sorted_labels [("type", "snapshot")]).2 (by decide)

theorem take_indexOf_eq_takeWhile (c : Char) (l : List Char) :
    l.take (l.indexOf c) = l.takeWhile fun ch => ch ≠ c := by
  induction l with
  | nil => rfl
  | cons a rest ih =>
    by_cases h : a = c
    · simp [List.indexOf_cons, h, List.takeWhile_cons]
    · simp [List.indexOf_cons, h, List.takeWhile_cons, ih]

theorem drop_indexOf_eq_dropWhile (c : Char) (l : List Char) :
    l.drop (l.indexOf c + 1) = (l.dropWhile fun ch => ch ≠ c).drop 1 := by
  induction l with
  | nil => rfl
  | cons a rest ih =>
    by_cases h : a = c
    · simp [List.indexOf_cons, h, List.dropWhile_cons]
    · simp [List.indexOf_cons, h, List.dropWhile_cons, ih]

/-- The test `p <= 0` of the loop rejects exactly the items without `:` and those that
begin with `:`. -/
theorem stringsIndex_le_zero_iff (kv : String) :
    stringsIndex kv ':' ≤ 0 ↔ badFilterItem kv = true := by
  simp only [stringsIndex, badFilterItem, Bool.or_eq_true, decide_eq_true_eq]
  by_cases hmem : ':' ∈ kv.data
  · simp only [hmem, if_true, not_true_eq_false, false_or]
    rcases hd : kv.data with _ | ⟨a, rest⟩
    · simp [hd] at hmem
    · by_cases h : a = ':'
      · simp [List.indexOf_cons, h]
      · simp [List.indexOf_cons, h]
  · simp [hmem]

/-- The slices taken by the loop are the two parts of the split at the first `:`. -/
theorem slices_eq_split (kv : String) (h : ¬ stringsIndex kv ':' ≤ 0) :
    sliceBetween kv 0 (stringsIndex kv ':').toNat = (splitAtFirstColon kv).1 ∧
    sliceFrom kv ((stringsIndex kv ':').toNat + 1) = (splitAtFirstColon kv).2 := by
  have hmem : ':' ∈ kv.data := by
    by_contra hn
    simp [stringsIndex, hn] at h
  simp only [stringsIndex, hmem, if_true, Int.toNat_ofNat, sliceBetween, sliceFrom,
    splitAtFirstColon, List.drop_zero]
  rw [take_indexOf_eq_takeWhile, drop_indexOf_eq_dropWhile]
  exact ⟨rfl, rfl⟩

/-- The loop over the filter items: it stops at the first rejected item, and otherwise
stores the parts of every item in turn. -/
theorem parseFilter_eq (items : List String) (filter : StringMap) :
    parseFilter items filter =
      match items.find? badFilterItem with
      | some kv => Except.error (Error.errorf "invalid list filter %q, missing ':'" [kv])
      | none =>
        Except.ok (items.foldl
          (fun (f : StringMap) kv =>
            StringMap.set f (splitAtFirstColon kv).1 (splitAtFirstColon kv).2) filter) := by
  induction items generalizing filter with
  | nil => rfl
  | cons kv rest ih =>
    by_cases h : stringsIndex kv ':' ≤ 0
    · have hb := (stringsIndex_le_zero_iff kv).mp h
      simp [parseFilter, h, List.find?_cons, hb]
    · have hb : badFilterItem kv = false := by
        rcases hbb : badFilterItem kv with _ | _
        · rfl
        · exact absurd ((stringsIndex_le_zero_iff kv).mpr hbb) h
      obtain ⟨h1, h2⟩ := slices_eq_split kv h
      simp only [parseFilter, h, if_false, List.find?_cons, hb, List.foldl_cons, h1, h2]
      exact ih _

theorem lookup_set (m : StringMap) (key value k : String) :
    (m.set key value).lookup k = if k = key then some value else m.lookup k := by
  induction m with
  | nil =>
    by_cases h : k = key
    · simp [StringMap.set, List.lookup, h]
    · have : (k == key) = false := by simpa using h
      simp [StringMap.set, List.lookup, h, this]
  | cons kv rest ih =>
    obtain ⟨k2, v2⟩ := kv
    by_cases h2 : k2 = key
    · by_cases h : k = key
      · simp [StringMap.set, h2, List.lookup, h]
      · have : (k == key) = false := by simpa using h
        simp [StringMap.set, h2, List.lookup, h, this]
    · by_cases h : k = k2
      · have hk : k ≠ key := fun hh => h2 (h ▸ hh)
        simp [StringMap.set, h2, List.lookup, h]
      · have : (k == k2) = false := by simpa using h
        simp [StringMap.set, h2, List.lookup, this, ih]

theorem lookup_foldl_set (items : List String) (filter : StringMap) (k : String) :
    (items.foldl (fun (f : StringMap) kv =>
            StringMap.set f (splitAtFirstColon kv).1 (splitAtFirstColon kv).2)
      filter).lookup k =
      match filterValue items k with
      | some v => some v
      | none => filter.lookup k := by
  induction items generalizing filter with
  | nil => rfl
  | cons kv rest ih =>
    rw [List.foldl_cons, ih]
    simp only [filterValue, List.reverse_cons, List.find?_append, lookup_set]
    rcases hrest : rest.reverse.find? (fun kv => decide ((splitAtFirstColon kv).1 = k)) with
      _ | kv2
    · by_cases hk : (splitAtFirstColon kv).1 = k
      · simp [List.find?_cons, hk]
      · have hk2 : ¬ k = (splitAtFirstColon kv).1 := fun h => hk h.symm
        simp [List.find?_cons, hk, hk2]
    · simp

/-- C17.  Filter parsing of `manifest list`.  Each `--filter` item is split at its first
`:` into the key before it and the value after it.  If some item contains no `:` or begins
with `:`, the command fails with the error `invalid list filter` for the first such item
and does not query the manifests.  Otherwise the command does not fail with that error and
queries `FindManifests` exactly once, with the map that gives every key the value of the
last item with that key and holds no other key. -/
theorem listManifestItems_filter {σ : Type} (env : ManifestListEnv σ)
    (flags : ManifestListFlags) (c : ManifestListState σ) :
    (∀ kv, flags.manifestListFilter.find? badFilterItem = some kv →
      (listManifestItems env flags c).1 =
        some (Error.errorf "invalid list filter %q, missing ':'" [kv]) ∧
      manifestListOutSince c (listManifestItems env flags c).2 =
        [ManifestListEvent.jsonBegin, ManifestListEvent.jsonEnd] ∧
      findManifestsQueries (manifestListOutSince c (listManifestItems env flags c).2) = [] ∧
      (listManifestItems env flags c).2.store = c.store) ∧
    (flags.manifestListFilter.find? badFilterItem = none →
      (∀ kv, (listManifestItems env flags c).1 ≠
        some (Error.errorf "invalid list filter %q, missing ':'" [kv])) ∧
      ∃ filter res rest,
        manifestListOutSince c (listManifestItems env flags c).2 =
          ManifestListEvent.jsonBegin :: ManifestListEvent.findManifests filter res :: rest ∧
        findManifestsQueries (manifestListOutSince c (listManifestItems env flags c).2) =
          [filter] ∧
        ∀ key, filter.lookup key = filterValue flags.manifestListFilter key) ∧
    ((∃ kv, (listManifestItems env flags c).1 =
        some (Error.errorf "invalid list filter %q, missing ':'" [kv])) ↔
      ∃ kv ∈ flags.manifestListFilter, badFilterItem kv = true) := by
  have hbad : ∀ kv, flags.manifestListFilter.find? badFilterItem = some kv →
      (listManifestItems env flags c).1 =
        some (Error.errorf "invalid list filter %q, missing ':'" [kv]) ∧
      manifestListOutSince c (listManifestItems env flags c).2 =
        [ManifestListEvent.jsonBegin, ManifestListEvent.jsonEnd] ∧
      findManifestsQueries (manifestListOutSince c (listManifestItems env flags c).2) = [] ∧
      (listManifestItems env flags c).2.store = c.store := by
    intro kv hkv
    simp [listManifestItems, parseFilter_eq, hkv, manifestListOutSince, findManifestsQueries]
  have hquery : ∀ evs : List ManifestListEvent,
      (∀ ev ∈ evs, ∀ f r, ev ≠ ManifestListEvent.findManifests f r) →
      findManifestsQueries evs = [] := by
    intro evs
    induction evs with
    | nil => intro _; rfl
    | cons ev rest ih =>
      intro h
      cases ev with
      | findManifests f r => exact absurd rfl (h _ (List.mem_cons_self _ _) f r)
      | jsonBegin => exact ih fun e he => h e (List.mem_cons_of_mem _ he)
      | jsonEnd => exact ih fun e he => h e (List.mem_cons_of_mem _ he)
      | jsonItem it => exact ih fun e he => h e (List.mem_cons_of_mem _ he)
      | row a b d e f => exact ih fun e he => h e (List.mem_cons_of_mem _ he)
  have hprint : ∀ (j : Bool) (items : List EntryMetadata),
      ∀ ev ∈ printItems j items, ∀ f r, ev ≠ ManifestListEvent.findManifests f r := by
    intro j items
    induction items with
    | nil => intro ev hev; simp [printItems] at hev
    | cons it rest ih =>
      intro ev hev f r
      simp only [printItems, List.mem_cons] at hev
      rcases hev with hev | hev
      · rw [hev]
        split <;> simp
      · exact ih ev hev f r
  have hgood : flags.manifestListFilter.find? badFilterItem = none →
      (∀ kv, (listManifestItems env flags c).1 ≠
        some (Error.errorf "invalid list filter %q, missing ':'" [kv])) ∧
      ∃ filter res rest,
        manifestListOutSince c (listManifestItems env flags c).2 =
          ManifestListEvent.jsonBegin :: ManifestListEvent.findManifests filter res :: rest ∧
        findManifestsQueries (manifestListOutSince c (listManifestItems env flags c).2) =
          [filter] ∧
        ∀ key, filter.lookup key = filterValue flags.manifestListFilter key := by
    intro hnone
    have hlook : ∀ key,
        (flags.manifestListFilter.foldl
          (fun (f : StringMap) kv =>
            StringMap.set f (splitAtFirstColon kv).1 (splitAtFirstColon kv).2)
          ([] : StringMap)).lookup key = filterValue flags.manifestListFilter key := by
      intro key
      rw [lookup_foldl_set]
      cases filterValue flags.manifestListFilter key <;> rfl
    rcases hfind : env.FindManifests
      (flags.manifestListFilter.foldl
        (fun (f : StringMap) kv =>
            StringMap.set f (splitAtFirstColon kv).1 (splitAtFirstColon kv).2)
        ([] : StringMap)) c.store with ⟨e | items, store1⟩
    · refine ⟨?_, _, Except.error e, [ManifestListEvent.jsonEnd], ?_, ?_, hlook⟩
      · intro kv
        simp [listManifestItems, parseFilter_eq, hnone, hfind, Error.Wrap]
      · simp [listManifestItems, parseFilter_eq, hnone, hfind, manifestListOutSince]
      · simp [listManifestItems, parseFilter_eq, hnone, hfind, manifestListOutSince,
          findManifestsQueries]
    · refine ⟨?_, _, Except.ok items,
        printItems flags.jsonOutput (sortSlice (manifestLess flags.manifestListSort) items) ++
          [ManifestListEvent.jsonEnd], ?_, ?_, hlook⟩
      · intro kv
        simp [listManifestItems, parseFilter_eq, hnone, hfind]
      · simp [listManifestItems, parseFilter_eq, hnone, hfind, manifestListOutSince]
      · have happ : ∀ xs ys : List ManifestListEvent,
            findManifestsQueries (xs ++ ys) =
              findManifestsQueries xs ++ findManifestsQueries ys := by
          intro xs ys
          induction xs with
          | nil => rfl
          | cons x xs ih => cases x <;> simp [findManifestsQueries, ih]
        have hnoq : findManifestsQueries (printItems flags.jsonOutput
            (sortSlice (manifestLess flags.manifestListSort) items)) = [] :=
          hquery _ (hprint _ _)
        simp [listManifestItems, parseFilter_eq, hnone, hfind, manifestListOutSince, happ,
          hnoq, findManifestsQueries]
  refine ⟨hbad, hgood, ?_⟩
  constructor
  · rintro ⟨kv, hkv⟩
    rcases hfind : flags.manifestListFilter.find? badFilterItem with _ | kv2
    · exact absurd hkv ((hgood hfind).1 kv)
    · exact ⟨kv2, List.mem_of_find?_eq_some hfind, List.find?_some hfind⟩
  · rintro ⟨kv, hmem, hb⟩
    rcases hfind : flags.manifestListFilter.find? badFilterItem with _ | kv2
    · have := List.find?_eq_none.mp hfind kv hmem
      simp [hb] at this
    · exact ⟨kv2, (hbad kv2 hfind).1⟩


/-! ## The content rewriter -/

/-- The listing of a prefix after a pass that is not a dry run: the listing before it,
followed by the new packs with that prefix. -/
theorem listPacks_RewriteContents (cm : ContentManager) (opt : RewriteContentsOptions)
    (st : Storage) (pfx : String) (hdry : opt.DryRun = false) :
    (RewriteContents cm opt st).storage.listPacks pfx =
      st.listPacks pfx ++
        (((rewrittenContents st (selectContents opt st)).map
          fun c => st.newPack cm c).dedup.filter fun b => decide (b.Prefix = pfx)) := by
  simp only [RewriteContents, hdry, Storage.listPacks, Bool.false_eq_true, if_false,
    List.filter_append]

theorem newPack_fresh (st : Storage) (cm : ContentManager) (c : ContentInfo) :
    st.newPack cm c ∉ st.packBlobs := by
  have hle : ∀ blobs : List BlobID, ∀ b ∈ blobs,
      b.Name.length ≤ (blobs.map fun b => b.Name.length).foldr max 0 := by
    intro blobs
    induction blobs with
    | nil => intro b hb; cases hb
    | cons a rest ih =>
      intro b hb
      rcases List.mem_cons.mp hb with rfl | hb
      · simp
      · have := ih b hb
        simp only [List.map_cons, List.foldr_cons]
        exact le_trans this (le_max_right _ _)
  intro hmem
  have h := hle st.packBlobs _ hmem
  change (List.replicate ((st.packBlobs.map fun b => b.Name.length).foldr max 0 + 1) 'n' ++
      (toString (cm.packNumber c)).data).length
    ≤ (st.packBlobs.map fun b => b.Name.length).foldr max 0 at h
  rw [List.length_append, List.length_replicate] at h
  omega

theorem selectContents_not_only (opt : RewriteContentsOptions) (st : Storage)
    (hshort : opt.ShortPacks = true) (c : ContentInfo) (hc : c ∈ selectContents opt st) :
    st.onlyPackForItsPrefix c.PackBlobID = false := by
  simp only [selectContents, hshort, if_true, List.mem_filter] at hc
  simpa using hc.2

theorem rewrittenContents_subset (st : Storage) (selected : List ContentInfo) (c : ContentInfo)
    (hc : c ∈ rewrittenContents st selected) : c ∈ selected :=
  (List.takeWhile_sublist _).subset hc

theorem rewrittenContents_all (st : Storage) (selected : List ContentInfo)
    (h : firstError st selected = none) : rewrittenContents st selected = selected := by
  induction selected with
  | nil => rfl
  | cons a rest ih =>
    cases hf : st.fault a with
    | none =>
      have h2 : firstError st rest = none := by
        simpa [firstError, List.find?, hf] using h
      simp only [rewrittenContents, List.takeWhile, hf, Option.isNone_none]
      exact congrArg _ (ih h2)
    | some e =>
      simp [firstError, List.find?, hf] at h

theorem selectContents_DryRun (opt : RewriteContentsOptions) (st : Storage) (dry : Bool) :
    selectContents { opt with DryRun := dry } st = selectContents opt st := rfl

theorem selectContents_index (opt : RewriteContentsOptions) (st : Storage) (c : ContentInfo)
    (hc : c ∈ selectContents opt st) : c ∈ st.index := by
  simp only [selectContents] at hc
  split_ifs at hc
  · exact (List.mem_filter.mp (List.mem_filter.mp hc).1).1
  · exact (List.mem_filter.mp hc).1

theorem length_le_one_of_all_eq {α : Type} (l : List α) (b : α) (hnd : l.Nodup)
    (hall : ∀ x ∈ l, x = b) : l.length ≤ 1 := by
  match l, hnd, hall with
  | [], _, _ => simp
  | [_], _, _ => simp
  | x :: y :: rest, hnd, hall =>
    exfalso
    have hx := hall x (List.mem_cons_self _ _)
    have hy := hall y (List.mem_cons_of_mem _ (List.mem_cons_self _ _))
    rw [List.nodup_cons] at hnd
    exact hnd.1 (by rw [hx, ← hy]; exact List.mem_cons_self _ _)

/-- C18 (counterexample): with `ShortPacks` set and two or more short packs of the prefix
`q`, the count of the `q` packs does not always grow by exactly one.  It stays as it was in
a dry run, in a pass restricted to the pack prefix `p`, in a pass over short packs that
hold no content, and in a pass whose first content cannot be read (the pass returns the
error); it grows by three when the content manager writes each of three contents to a pack
of its own.  It grows by one when the content manager writes them to one pack. -/
theorem RewriteContents_short_packs_no_growth :
    (((sampleStorage 2 3).listPacks "q").filter (sampleStorage 2 3).isShortPack).length = 3 ∧
    ((RewriteContents onePackManager { ShortPacks := true, DryRun := true }
        (sampleStorage 2 3)).storage.listPacks "q").length =
      ((sampleStorage 2 3).listPacks "q").length ∧
    ((RewriteContents onePackManager { ShortPacks := true, PackPrefix := "p" }
        (sampleStorage 2 3)).storage.listPacks "q").length =
      ((sampleStorage 2 3).listPacks "q").length ∧
    ((emptyPacksStorage.listPacks "q").filter emptyPacksStorage.isShortPack).length = 2 ∧
    ((RewriteContents onePackManager { ShortPacks := true }
        emptyPacksStorage).storage.listPacks "q").length =
      (emptyPacksStorage.listPacks "q").length ∧
    (((threePacksStorage true).listPacks "q").filter
      (threePacksStorage true).isShortPack).length = 3 ∧
    (RewriteContents onePackManager { ShortPacks := true } (threePacksStorage true)).err =
      some (Error.msg "unable to read content") ∧
    ((RewriteContents onePackManager { ShortPacks := true }
        (threePacksStorage true)).storage.listPacks "q").length =
      ((threePacksStorage true).listPacks "q").length ∧
    ((RewriteContents packPerContentManager { ShortPacks := true }
        (threePacksStorage false)).storage.listPacks "q").length =
      ((threePacksStorage false).listPacks "q").length + 3 ∧
    ((RewriteContents onePackManager { ShortPacks := true }
        (threePacksStorage false)).storage.listPacks "q").length =
      ((threePacksStorage false).listPacks "q").length + 1 := by
  refine ⟨by decide, by decide, by decide, by decide, by decide, by decide, by decide,
    by decide, by decide, by decide⟩

/-- C18 (amended): a call of `RewriteContents` with `ShortPacks` set leaves the count of the
pack blobs of a prefix that has exactly one pack blob unchanged.  For a prefix with two or
more short packs, of which one holds a content, a pass that is not a dry run, whose
`PackPrefix` is empty or that prefix, and that returns no error adds at least one pack blob
of that prefix, and exactly one when the content manager writes the contents of that
prefix to one pack; every pack blob that it adds is new to the listing. -/
theorem RewriteContents_short_packs (cm : ContentManager) (opt : RewriteContentsOptions)
    (st : Storage) (hshort : opt.ShortPacks = true) (pfx : String) :
    ((st.listPacks pfx).length = 1 →
      ((RewriteContents cm opt st).storage.listPacks pfx).length = 1) ∧
    (opt.DryRun = false → (opt.PackPrefix = "" ∨ opt.PackPrefix = pfx) →
      2 ≤ ((st.listPacks pfx).filter st.isShortPack).length →
      (∃ c ∈ st.index, c.PackBlobID.Prefix = pfx ∧ st.isShortPack c.PackBlobID = true) →
      (RewriteContents cm opt st).err = none →
      (st.listPacks pfx).length + 1 ≤
        ((RewriteContents cm opt st).storage.listPacks pfx).length ∧
      ((∀ c ∈ st.index, ∀ c2 ∈ st.index, c.PackBlobID.Prefix = pfx →
          c2.PackBlobID.Prefix = pfx → cm.packNumber c = cm.packNumber c2) →
        ((RewriteContents cm opt st).storage.listPacks pfx).length =
          (st.listPacks pfx).length + 1) ∧
      (∀ b ∈ (RewriteContents cm opt st).storage.listPacks pfx,
        b ∈ st.listPacks pfx ∨ b ∉ st.packBlobs)) := by
  constructor
  · intro hone
    cases hdry : opt.DryRun with
    | true => simpa [RewriteContents, hdry] using hone
    | false =>
      rw [listPacks_RewriteContents cm opt st pfx hdry, List.length_append, hone]
      have hnil : (((rewrittenContents st (selectContents opt st)).map
          fun c => st.newPack cm c).dedup.filter fun b => decide (b.Prefix = pfx)) = [] := by
        rw [List.filter_eq_nil_iff]
        intro b hb
        rw [List.mem_dedup, List.mem_map] at hb
        obtain ⟨c, hc, rfl⟩ := hb
        have hsel := rewrittenContents_subset st _ c hc
        have honly := selectContents_not_only opt st hshort c hsel
        simp only [decide_eq_true_eq]
        intro hcp
        have hcp2 : c.PackBlobID.Prefix = pfx := hcp
        simp only [Storage.onlyPackForItsPrefix, hcp2, hone, decide_True] at honly
        cases honly
      rw [hnil]
      rfl
  · intro hdry hpp htwo hcontent herr
    obtain ⟨c, hcidx, hcp, hcshort⟩ := hcontent
    have herr2 : firstError st (selectContents opt st) = none := by
      simpa [RewriteContents, hdry] using herr
    have hlen : 2 ≤ (st.listPacks pfx).length :=
      le_trans htwo (List.length_filter_le _ _)
    have hbegins : packBeginsWith opt.PackPrefix c.PackBlobID = true := by
      rcases hpp with h | h
      · simp [packBeginsWith, h]
      · simp [packBeginsWith, h, ← hcp]
    have hsel : c ∈ selectContents opt st := by
      simp only [selectContents, hshort, if_true, List.mem_filter]
      refine ⟨⟨hcidx, ?_⟩, ?_⟩
      · simp [matchesFilter, hbegins, hshort, hcshort]
      · simp only [Storage.onlyPackForItsPrefix, hcp, Bool.not_eq_true',
          decide_eq_false_iff_not]
        omega
    have hdone : rewrittenContents st (selectContents opt st) = selectContents opt st :=
      rewrittenContents_all st _ herr2
    have hmem : st.newPack cm c ∈
        (((rewrittenContents st (selectContents opt st)).map
          fun c => st.newPack cm c).dedup.filter fun b => decide (b.Prefix = pfx)) := by
      rw [List.mem_filter, List.mem_dedup, hdone]
      exact ⟨List.mem_map.mpr ⟨c, hsel, rfl⟩, by simpa [Storage.newPack] using hcp⟩
    have hpos : 1 ≤ (((rewrittenContents st (selectContents opt st)).map
          fun c => st.newPack cm c).dedup.filter fun b => decide (b.Prefix = pfx)).length :=
      List.length_pos_of_mem hmem
    rw [listPacks_RewriteContents cm opt st pfx hdry, List.length_append]
    refine ⟨by omega, ?_, ?_⟩
    · intro hsame
      have hall : ∀ b ∈ (((rewrittenContents st (selectContents opt st)).map
          fun c => st.newPack cm c).dedup.filter fun b => decide (b.Prefix = pfx)),
          b = st.newPack cm c := by
        intro b hb
        rw [List.mem_filter, List.mem_dedup, List.mem_map] at hb
        obtain ⟨⟨c2, hc2, rfl⟩, hb2⟩ := hb
        have hc2p : c2.PackBlobID.Prefix = pfx := by simpa [Storage.newPack] using hb2
        have hc2idx : c2 ∈ st.index :=
          selectContents_index opt st c2 (rewrittenContents_subset st _ c2 hc2)
        simp only [Storage.newPack, hc2p, hcp, hsame c2 hc2idx c hcidx hc2p hcp]
      have hle := length_le_one_of_all_eq _ _ ((List.nodup_dedup _).filter _) hall
      omega
    · intro b hb
      rcases List.mem_append.mp hb with h | h
      · exact Or.inl h
      · right
        rw [List.mem_filter, List.mem_dedup, List.mem_map] at h
        obtain ⟨⟨c2, _, rfl⟩, _⟩ := h
        exact newPack_fresh st cm c2

/-- Witness of C18 on the sample storage with one `p` pack and three `q` packs, with the
content manager that writes to one pack: the count of the `p` packs stays 1 and the count
of the `q` packs grows from 3 to 4. -/
theorem RewriteContents_short_packs_witness :
    ((RewriteContents onePackManager { ShortPacks := true }
      (sampleStorage 1 3)).storage.listPacks "p").length = 1 ∧
    ((RewriteContents onePackManager { ShortPacks := true }
      (sampleStorage 1 3)).storage.listPacks "q").length =
        ((sampleStorage 1 3).listPacks "q").length + 1 :=
  ⟨(RewriteContents_short_packs onePackManager { ShortPacks := true } (sampleStorage 1 3)
      rfl "p").1 (by decide),
   ((RewriteContents_short_packs onePackManager { ShortPacks := true } (sampleStorage 1 3)
      rfl "q").2 rfl (Or.inl rfl) (by decide) (by decide) (by decide)).2.1
      (fun _ _ _ _ _ _ => rfl)⟩

/-- C19: a call of `RewriteContents` with `DryRun` set returns no error and leaves the
storage state as it was: the listing of the pack blobs of every prefix and the contents of
the index are the same after the call; its selection is the one of the same call without
`DryRun`. -/
theorem RewriteContents_dry_run (cm : ContentManager) (opt : RewriteContentsOptions)
    (st : Storage) (hdry : opt.DryRun = true) :
    (RewriteContents cm opt st).err = none ∧
    (RewriteContents cm opt st).storage = st ∧
    (∀ pfx, (RewriteContents cm opt st).storage.listPacks pfx = st.listPacks pfx) ∧
    (RewriteContents cm opt st).storage.index = st.index ∧
    (RewriteContents cm opt st).selected =
      (RewriteContents cm { opt with DryRun := false } st).selected := by
  have hst : (RewriteContents cm opt st).storage = st := by simp [RewriteContents, hdry]
  refine ⟨by simp [RewriteContents, hdry], hst, ?_, by rw [hst], ?_⟩
  · intro pfx
    rw [hst]
  · simp only [RewriteContents, hdry, if_true, Bool.false_eq_true, if_false]
    exact (selectContents_DryRun opt st false).symm

/-- Witness of C19: a dry run of the short-pack rewrite on the sample storage with two `p`
packs and three `q` packs. -/
theorem RewriteContents_dry_run_witness :
    ((RewriteContents onePackManager { ShortPacks := true, DryRun := true }
      (sampleStorage 2 3)).storage.listPacks "p").length = 2 ∧
    ((RewriteContents onePackManager { ShortPacks := true, DryRun := true }
      (sampleStorage 2 3)).storage.listPacks "q").length = 3 ∧
    (RewriteContents onePackManager { ShortPacks := true, DryRun := true }
      (sampleStorage 2 3)).selected.length = 5 := by
  have h := RewriteContents_dry_run onePackManager { ShortPacks := true, DryRun := true }
    (sampleStorage 2 3) rfl
  refine ⟨?_, ?_, ?_⟩
  · rw [h.2.2.1 "p"]; decide
  · rw [h.2.2.1 "q"]; decide
  · rw [h.2.2.2.2]; decide

/-! ## A full-cycle update and the quick cycle -/

/-- C21, as stated, fails.  A full update on the sample repository (clock at 1000, full
interval 100, quick interval 10) succeeds and stores the next full time 1100 and the next
quick time 1110.  With that schedule and the full cycle enabled, a call of `shouldRun`
whose first reading of the clock is 1095 and whose second reading is 1115 returns
`quick`: the full cycle is not due at the first reading and the quick cycle is due at the
second. -/
theorem shouldRun_quick_after_full_update :
    (0 : Duration) ≤ (sampleParams 100 10).QuickCycle.Interval ∧
    (sampleParams 100 10).FullCycle.Enabled = true ∧
    (updateSchedule (sampleWorld (Except.ok (sampleParams 100 10)) LockState.free)
      { Mode := ModeFull, Params := sampleParams 100 10 }).1 = none ∧
    (updateSchedule (sampleWorld (Except.ok (sampleParams 100 10)) LockState.free)
      { Mode := ModeFull, Params := sampleParams 100 10 }).2.rep.schedule =
      { NextFullMaintenanceTime := 1100, NextQuickMaintenanceTime := 1110, Runs := [] } ∧
    (shouldRun
      { rep := { (updateSchedule (sampleWorld (Except.ok (sampleParams 100 10)) LockState.free)
          { Mode := ModeFull, Params := sampleParams 100 10 }).2.rep with
          now := 1095, ticks := [0, 20] }
        lock := LockState.free
        trace := [] }
      (sampleParams 100 10)).1 = Except.ok ModeQuick := by
  refine ⟨by decide, rfl, rfl, rfl, rfl⟩

/-- C21, amended.  After `updateSchedule` has run in mode `full` with a quick interval that
is not negative and has stored the schedule, the stored `NextQuickMaintenanceTime` is not
earlier than the stored `NextFullMaintenanceTime`.  In every world whose stored schedule
is that one, with the full cycle enabled: a call of `shouldRun` returns `quick` only if the
clock moves between its two readings, from a first reading that is not after the next
full time to a second reading that is after the next quick time; a call whose second
reading is not later than its first returns `full` or `none` (with an error when the
schedule cannot be loaded) and never `quick`. -/
theorem updateSchedule_full_covers_quick (w : World) (runParams : RunParameters)
    (hmode : runParams.Mode = ModeFull)
    (hquick : 0 ≤ runParams.Params.QuickCycle.Interval)
    (hok : (updateSchedule w runParams).1 = none) :
    (updateSchedule w runParams).2.rep.schedule.NextFullMaintenanceTime ≤
      (updateSchedule w runParams).2.rep.schedule.NextQuickMaintenanceTime ∧
    ∀ (w2 : World) (p : Params),
      w2.rep.schedule = (updateSchedule w runParams).2.rep.schedule →
      p.FullCycle.Enabled = true →
      ((shouldRun w2 p).1 = Except.ok ModeQuick →
        w2.rep.reading 0 ≤ w2.rep.schedule.NextFullMaintenanceTime ∧
        w2.rep.schedule.NextQuickMaintenanceTime < w2.rep.reading 1 ∧
        w2.rep.reading 0 < w2.rep.reading 1) ∧
      (w2.rep.reading 1 ≤ w2.rep.reading 0 →
        ((shouldRun w2 p).1 = Except.ok ModeFull ∨ (shouldRun w2 p).1 = Except.ok ModeNone ∨
          ∃ err, (shouldRun w2 p).1 = Except.error err) ∧
        (shouldRun w2 p).1 ≠ Except.ok ModeQuick) := by
  have hQF : ModeQuick ≠ ModeFull := by decide
  have hNQ : ModeNone ≠ ModeQuick := by decide
  have hFQ : ModeFull ≠ ModeQuick := by decide
  have hle : (updateSchedule w runParams).2.rep.schedule.NextFullMaintenanceTime ≤
      (updateSchedule w runParams).2.rep.schedule.NextQuickMaintenanceTime := by
    rcases updateSchedule_outcome w runParams with
      ⟨e, _, h1, _⟩ | ⟨e, s, _, h1, _⟩ | ⟨h1, _⟩ | ⟨_, _, _, h4⟩ | ⟨h1, _⟩
    · rw [hok] at h1; cases h1
    · rw [hok] at h1; cases h1
    · exact absurd hmode h1
    · have hF := congrArg Schedule.NextFullMaintenanceTime h4
      have hQ := congrArg Schedule.NextQuickMaintenanceTime h4
      simp only at hF hQ
      linarith
    · rw [hmode] at h1
      exact absurd h1 hFQ
  refine ⟨hle, ?_⟩
  intro w2 p hsched hfull
  rw [← hsched] at hle
  have hcases : (shouldRun w2 p).1 = Except.ok ModeNone ∨
      (∃ err, (shouldRun w2 p).1 = Except.error err) ∨
      (shouldRun w2 p).1 = Except.ok
        (if w2.rep.schedule.NextFullMaintenanceTime < w2.rep.reading 0 then ModeFull
          else if p.QuickCycle.Enabled ∧
            w2.rep.schedule.NextQuickMaintenanceTime < w2.rep.reading 1
            then ModeQuick else ModeNone) := by
    by_cases hown : p.Owner = w2.rep.Username ++ "@" ++ w2.rep.Hostname
    · rcases nextFault_cases w2.rep.getScheduleFaults with hf | ⟨e, hf⟩
      · have heq := shouldRun_eq w2 p hown hf
        rw [if_pos hfull] at heq
        exact Or.inr (Or.inr heq)
      · refine Or.inr (Or.inl ⟨e.Wrap "error getting status", ?_⟩)
        simp [shouldRun, GetSchedule, hown, hf]
    · left
      simp [shouldRun, hown]
  constructor
  · intro hq
    rcases hcases with h | ⟨err, h⟩ | h
    · rw [h] at hq
      exact absurd (Except.ok.inj hq) hNQ
    · rw [h] at hq
      cases hq
    · rw [h] at hq
      have hq2 := Except.ok.inj hq
      by_cases hdue : w2.rep.schedule.NextFullMaintenanceTime < w2.rep.reading 0
      · rw [if_pos hdue] at hq2
        exact absurd hq2 hFQ
      · rw [if_neg hdue] at hq2
        by_cases hqd : p.QuickCycle.Enabled ∧
            w2.rep.schedule.NextQuickMaintenanceTime < w2.rep.reading 1
        · have h0 := not_lt.mp hdue
          exact ⟨h0, hqd.2, lt_of_le_of_lt (le_trans h0 hle) hqd.2⟩
        · rw [if_neg hqd] at hq2
          exact absurd hq2 hNQ
  · intro hback
    rcases hcases with h | ⟨err, h⟩ | h
    · rw [h]
      exact ⟨Or.inr (Or.inl rfl), fun h2 => hNQ (Except.ok.inj h2)⟩
    · rw [h]
      exact ⟨Or.inr (Or.inr ⟨err, rfl⟩), fun h2 => by cases h2⟩
    · rw [h]
      by_cases hdue : w2.rep.schedule.NextFullMaintenanceTime < w2.rep.reading 0
      · rw [if_pos hdue]
        exact ⟨Or.inl rfl, fun h2 => hFQ (Except.ok.inj h2)⟩
      · have hnq : ¬ (p.QuickCycle.Enabled ∧
            w2.rep.schedule.NextQuickMaintenanceTime < w2.rep.reading 1) := by
          rintro ⟨_, hlt⟩
          exact hdue (lt_of_le_of_lt hle (lt_of_lt_of_le hlt hback))
        rw [if_neg hdue, if_neg hnq]
        exact ⟨Or.inr (Or.inl rfl), fun h2 => hNQ (Except.ok.inj h2)⟩

/-- Witness of C21: a full update on the sample repository (clock at 1000, full interval
100, quick interval 10) stores the next times 1100 and 1110; with that schedule and the
clock standing at 1105 `shouldRun` does not return `quick`. -/
theorem updateSchedule_full_covers_quick_witness :
    (updateSchedule (sampleWorld (Except.ok (sampleParams 100 10)) LockState.free)
      { Mode := ModeFull, Params := sampleParams 100 10 }).1 = none ∧
    (1100 : Time) ≤ 1110 ∧
    (shouldRun
      { rep := { sampleRepo (Except.ok (sampleParams 100 10)) with
          now := 1105
          schedule :=
            { NextFullMaintenanceTime := 1100, NextQuickMaintenanceTime := 1110, Runs := [] } }
        lock := LockState.free
        trace := [] }
      (sampleParams 100 10)).1 ≠ Except.ok ModeQuick :=
  ⟨rfl,
    (updateSchedule_full_covers_quick
      (sampleWorld (Except.ok (sampleParams 100 10)) LockState.free)
      { Mode := ModeFull, Params := sampleParams 100 10 } rfl (by decide) rfl).1,
    (((updateSchedule_full_covers_quick
      (sampleWorld (Except.ok (sampleParams 100 10)) LockState.free)
      { Mode := ModeFull, Params := sampleParams 100 10 } rfl (by decide) rfl).2
      { rep := { sampleRepo (Except.ok (sampleParams 100 10)) with
          now := 1105
          schedule :=
            { NextFullMaintenanceTime := 1100, NextQuickMaintenanceTime := 1110, Runs := [] } }
        lock := LockState.free
        trace := [] }
      (sampleParams 100 10) rfl rfl).2 (by decide)).2⟩

/-! ## The order of the rows of `manifest list` -/

theorem stringLess_eq_decide (a b : String) : stringLess a b = decide (a < b) := by
  simp only [stringLess]
  congr 1
  exact propext String.lt_iff_toList_lt.symm

theorem manifestLess_eq_tupleBefore (keys : List String) (a b : EntryMetadata) :
    manifestLess keys a b = tupleBefore (sortTuple keys a) (sortTuple keys b) := by
  induction keys with
  | nil => rfl
  | cons key keys ih =>
    simp only [tupleBefore, sortTuple, List.map_cons, valuesBefore] at ih ⊢
    by_cases h : a.Labels.get key = b.Labels.get key
    · have h2 : (a.Labels.lookup key).getD "" = (b.Labels.lookup key).getD "" := h
      simp only [manifestLess, h, ne_eq, not_true_eq_false, if_false, ih, h2, lt_irrefl,
        decide_False, Bool.false_or, decide_True, Bool.true_and]
    · have h2 : ¬ (a.Labels.lookup key).getD "" = (b.Labels.lookup key).getD "" := h
      simp only [manifestLess, h, ne_eq, not_false_eq_true, if_true, h2, decide_False,
        Bool.false_and, Bool.or_false, stringLess_eq_decide]
      rfl

theorem manifestLess_cons_false (key : String) (keys : List String) (a b : EntryMetadata) :
    manifestLess (key :: keys) b a = false ↔
      a.Labels.get key < b.Labels.get key ∨
        (a.Labels.get key = b.Labels.get key ∧ manifestLess keys b a = false) := by
  by_cases h : b.Labels.get key = a.Labels.get key
  · simp [manifestLess, h]
  · have hne : ¬ a.Labels.get key = b.Labels.get key := fun h2 => h h2.symm
    simp only [manifestLess, h, ne_eq, not_false_eq_true, if_true, stringLess_eq_false_iff,
      hne, false_and, or_false]
    exact ⟨fun hle => lt_of_le_of_ne hle hne, le_of_lt⟩

theorem manifestLess_total (keys : List String) (a b : EntryMetadata) :
    manifestLess keys b a = false ∨ manifestLess keys a b = false := by
  induction keys with
  | nil =>
    simp only [manifestLess, decide_eq_false_iff_not, not_lt]
    exact le_total a.ModTime b.ModTime
  | cons key keys ih =>
    rw [manifestLess_cons_false, manifestLess_cons_false]
    rcases lt_trichotomy (a.Labels.get key) (b.Labels.get key) with h | h | h
    · exact Or.inl (Or.inl h)
    · rcases ih with h2 | h2
      · exact Or.inl (Or.inr ⟨h, h2⟩)
      · exact Or.inr (Or.inr ⟨h.symm, h2⟩)
    · exact Or.inr (Or.inl h)

theorem manifestLess_trans (keys : List String) (a b c : EntryMetadata)
    (hab : manifestLess keys b a = false) (hbc : manifestLess keys c b = false) :
    manifestLess keys c a = false := by
  induction keys with
  | nil =>
    simp only [manifestLess, decide_eq_false_iff_not, not_lt] at hab hbc ⊢
    exact le_trans hab hbc
  | cons key keys ih =>
    rw [manifestLess_cons_false] at hab hbc ⊢
    rcases hab with h1 | ⟨h1, r1⟩
    · rcases hbc with h2 | ⟨h2, _⟩
      · exact Or.inl (lt_trans h1 h2)
      · exact Or.inl (h2 ▸ h1)
    · rcases hbc with h2 | ⟨h2, r2⟩
      · exact Or.inl (h1 ▸ h2)
      · exact Or.inr ⟨h1.trans h2, ih r1 r2⟩

theorem sortSlice_sorted (keys : List String) (items : List EntryMetadata) :
    (sortSlice (manifestLess keys) items).Pairwise
      fun a b => manifestLess keys b a = false := by
  have htotal : IsTotal EntryMetadata fun a b => manifestLess keys b a = false :=
    ⟨fun a b => manifestLess_total keys a b⟩
  have htrans : IsTrans EntryMetadata fun a b => manifestLess keys b a = false :=
    ⟨fun a b c => manifestLess_trans keys a b c⟩
  exact List.sorted_insertionSort (fun a b => manifestLess keys b a = false) items

/-- C24: when the filter is well formed and `FindManifests` finds `items`, the rows that
`manifest list` emits are those of a permutation of `items` in which no entry comes
before an entry with a smaller tuple `(Labels[k1], ..., Labels[kn], ModTime)`, the
tuples compared lexicographically, a missing label counting as the empty string; with no
sort keys the rows are in ascending order of `ModTime`. -/
theorem listManifestItems_order {σ : Type} (env : ManifestListEnv σ)
    (flags : ManifestListFlags) (c : ManifestListState σ) (filter : StringMap)
    (items : List EntryMetadata) (store1 : σ)
    (hfilter : parseFilter flags.manifestListFilter [] = Except.ok filter)
    (hfind : env.FindManifests filter c.store = (Except.ok items, store1)) :
    ∃ rows : List EntryMetadata,
      manifestListOutSince c (listManifestItems env flags c).2 =
        [ManifestListEvent.jsonBegin,
          ManifestListEvent.findManifests filter (Except.ok items)] ++
          printItems flags.jsonOutput rows ++ [ManifestListEvent.jsonEnd] ∧
      rows.Perm items ∧
      rows.Pairwise (fun a b =>
        tupleBefore (sortTuple flags.manifestListSort b)
          (sortTuple flags.manifestListSort a) = false) ∧
      (flags.manifestListSort = [] → rows.Pairwise fun a b => a.ModTime ≤ b.ModTime) := by
  refine ⟨sortSlice (manifestLess flags.manifestListSort) items, ?_,
    List.perm_insertionSort _ items, ?_, ?_⟩
  · simp only [listManifestItems, hfilter, hfind, manifestListOutSince, List.append_assoc,
      List.drop_left, List.singleton_append, List.cons_append, List.nil_append]
  · exact List.Pairwise.imp
      (fun {a b} hab => by rw [← manifestLess_eq_tupleBefore]; exact hab)
      (sortSlice_sorted flags.manifestListSort items)
  · intro hkeys
    refine List.Pairwise.imp (fun {a b} hab => ?_)
      (sortSlice_sorted flags.manifestListSort items)
    rw [hkeys] at hab
    simpa [manifestLess] using hab

/-- Witness of C24: the four sample entries, sorted by the label `host`: the entry without
that label comes first, then the two entries of host `a` in the order of their times, then
the entry of host `b`. -/
theorem listManifestItems_order_witness :
    sortSlice (manifestLess ["host"]) sampleManifestItems =
      [ { ID := "m2", Length := 20, Labels := [("type", "policy")], ModTime := 9 },
        { ID := "m4", Length := 40, Labels := [("type", "snapshot"), ("host", "a")],
          ModTime := 3 },
        { ID := "m3", Length := 30, Labels := [("type", "snapshot"), ("host", "a")],
          ModTime := 7 },
        { ID := "m1", Length := 10, Labels := [("type", "snapshot"), ("host", "b")],
          ModTime := 5 } ] ∧
    ∃ rows : List EntryMetadata,
      manifestListOutSince { store := 0, out := [] }
        (listManifestItems sampleManifestEnvWithItems
          { manifestListFilter := [], manifestListSort := ["host"], jsonOutput := true }
          { store := 0, out := [] }).2 =
        [ManifestListEvent.jsonBegin,
          ManifestListEvent.findManifests [] (Except.ok sampleManifestItems)] ++
          printItems true rows ++ [ManifestListEvent.jsonEnd] ∧
      rows.Perm sampleManifestItems ∧
      rows.Pairwise (fun a b =>
        tupleBefore (sortTuple ["host"] b) (sortTuple ["host"] a) = false) ∧
      (["host"] = ([] : List String) → rows.Pairwise fun a b => a.ModTime ≤ b.ModTime) :=
  ⟨by decide,
    listManifestItems_order sampleManifestEnvWithItems
      { manifestListFilter := [], manifestListSort := ["host"], jsonOutput := true }
      { store := 0, out := [] } [] sampleManifestItems 1 rfl rfl⟩

/-! ## Directory entries -/

theorem testBit_ModeType (i : Nat) :
    ModeType.testBit i =
      decide (i = 31 ∨ i = 27 ∨ i = 25 ∨ i = 24 ∨ i = 26 ∨ i = 21 ∨ i = 19) := by
  simp only [ModeType, ModeDir, ModeSymlink, ModeNamedPipe, ModeSocket, ModeDevice,
    ModeCharDevice, ModeIrregular, Nat.testBit_or, Nat.testBit_two_pow]
  rw [Bool.eq_iff_iff]
  simp only [Bool.or_eq_true, decide_eq_true_eq]
  omega

theorem testBit_ModePerm (i : Nat) : ModePerm.testBit i = decide (i < 9) := by
  have h : ModePerm = 2 ^ 9 - 1 := by decide
  rw [h, Nat.testBit_two_pow_sub_one]

theorem testBit_ModeDir (i : Nat) : ModeDir.testBit i = decide (i = 31) := by
  simp only [ModeDir, Nat.testBit_two_pow]
  rw [Bool.eq_iff_iff]
  simp only [decide_eq_true_eq]
  omega

/-- The permission bits are no type bits. -/
theorem perm_and_ModeType (x : Nat) : (x &&& ModePerm) &&& ModeType = 0 := by
  apply Nat.eq_of_testBit_eq
  intro i
  simp only [Nat.testBit_and, testBit_ModePerm, testBit_ModeType, Nat.zero_testBit]
  by_cases h : i < 9
  · have : ¬ (i = 31 ∨ i = 27 ∨ i = 25 ∨ i = 24 ∨ i = 26 ∨ i = 21 ∨ i = 19) := by omega
    simp [this]
  · simp [h]

/-- A mode with the directory bit has a type bit. -/
theorem dir_or_and_ModeType (x : Nat) : (ModeDir ||| x) &&& ModeType ≠ 0 := by
  intro h
  have h2 := congrArg (fun n => Nat.testBit n 31) h
  simp [Nat.testBit_and, Nat.testBit_or, testBit_ModeDir, testBit_ModeType] at h2

theorem dir_or_and_ModeDir (x : Nat) : (ModeDir ||| x) &&& ModeDir ≠ 0 := by
  intro h
  have h2 := congrArg (fun n => Nat.testBit n 31) h
  simp [Nat.testBit_and, Nat.testBit_or, testBit_ModeDir] at h2

/-- The decoded mode is the mode itself exactly when the mode has no bits other than the
directory bit and the permission bits. -/
theorem decoded_mode_eq_iff (m : Nat) :
    ((if m &&& ModeType = ModeDir then ModeDir else 0) ||| (m &&& ModePerm)) = m ↔
      m &&& (ModeDir ||| ModePerm) = m := by
  constructor
  · intro h
    apply Nat.eq_of_testBit_eq
    intro i
    have hi := congrArg (fun n => Nat.testBit n i) h
    simp only [Nat.testBit_and, Nat.testBit_or, testBit_ModeDir, testBit_ModePerm] at hi ⊢
    cases hm : m.testBit i
    · simp
    · rw [hm] at hi
      split_ifs at hi
      · simp only [testBit_ModeDir, Bool.true_and] at hi
        simpa using hi
      · simp only [Nat.zero_testBit, Bool.false_or, Bool.true_and] at hi
        simp [hi]
  · intro h
    have hbits : ∀ i, m.testBit i = true → i = 31 ∨ i < 9 := by
      intro i hi
      have h2 := congrArg (fun n => Nat.testBit n i) h
      simp only [Nat.testBit_and, Nat.testBit_or, testBit_ModeDir, testBit_ModePerm, hi,
        Bool.true_and] at h2
      simpa using h2
    apply Nat.eq_of_testBit_eq
    intro i
    by_cases hdir : m &&& ModeType = ModeDir
    · have h31 : m.testBit 31 = true := by
        have h2 := congrArg (fun n => Nat.testBit n 31) hdir
        simpa [Nat.testBit_and, testBit_ModeType, testBit_ModeDir] using h2
      simp only [hdir, if_true, Nat.testBit_or, Nat.testBit_and, testBit_ModeDir,
        testBit_ModePerm]
      cases hm : m.testBit i
      · by_cases h31i : i = 31
        · rw [h31i] at hm; rw [hm] at h31; cases h31
        · simp [h31i]
      · rcases hbits i hm with h1 | h1
        · simp [h1]
        · simp [h1]
    · have h31 : m.testBit 31 = false := by
        cases h31 : m.testBit 31
        · rfl
        · exfalso
          apply hdir
          apply Nat.eq_of_testBit_eq
          intro j
          simp only [Nat.testBit_and, testBit_ModeType, testBit_ModeDir]
          cases hj : m.testBit j
          · by_cases hj31 : j = 31
            · rw [hj31] at hj; rw [hj] at h31; cases h31
            · simp [hj31]
          · rcases hbits j hj with h1 | h1
            · simp [h1]
            · have : ¬ (j = 31 ∨ j = 27 ∨ j = 25 ∨ j = 24 ∨ j = 26 ∨ j = 21 ∨ j = 19) := by
                omega
              have h2 : ¬ j = 31 := by omega
              rw [decide_eq_false this, decide_eq_false h2]
              rfl
      simp only [hdir, if_false, Nat.testBit_or, Nat.zero_testBit, Bool.false_or,
        Nat.testBit_and, testBit_ModePerm]
      cases hm : m.testBit i
      · simp
      · rcases hbits i hm with h1 | h1
        · rw [h1] at hm; rw [hm] at h31; cases h31
        · simp [h1]

/-- The character that `strconv` writes for the digit `d`. -/
theorem digit_facts (d : Nat) (hd : d < 10) :
    digitOf (strconvDigits.getD d '0') = some d ∧
    (strconvDigits.getD d '0').toNat = '0'.toNat + d ∧
    decide (strconvDigits.getD d '0' ∈ "0123456789".data) = true ∧
    strconvDigits.getD d '0' ≠ Char.ofNat 10 ∧ fmtIsSpace (strconvDigits.getD d '0') = false ∧
    strconvDigits.getD d '0' ≠ '-' ∧ strconvDigits.getD d '0' ≠ '+' := by
  interval_cases d <;> decide

/-- A digit below a base of at most 10 is one of the characters from `'0'`. -/
theorem digitOf_below (base : Nat) (hbase : base ≤ 10) (c : Char) :
    (∃ d, digitOf c = some d ∧ d < base) ↔
      ('0'.toNat ≤ c.toNat ∧ c.toNat < '0'.toNat + base) := by
  have h0 : '0'.toNat = 48 := by decide
  have h9 : '9'.toNat = 57 := by decide
  have ha : 'a'.toNat = 97 := by decide
  simp only [digitOf, h0, h9, ha]
  constructor
  · rintro ⟨d, hd, hlt⟩
    split_ifs at hd with h1 h2
    · simp only [Option.some.injEq] at hd
      omega
    · simp only [Option.some.injEq] at hd
      omega
  · intro h
    refine ⟨c.toNat - 48, ?_, by omega⟩
    rw [if_pos (by omega)]

theorem digitOf_value (base : Nat) (hbase : base ≤ 10) (c : Char) (d : Nat)
    (hd : digitOf c = some d) (hlt : d < base) : d = c.toNat - '0'.toNat := by
  have h0 : '0'.toNat = 48 := by decide
  have h9 : '9'.toNat = 57 := by decide
  have ha : 'a'.toNat = 97 := by decide
  simp only [digitOf, h0, h9, ha] at hd
  rw [h0]
  split_ifs at hd with h1 h2
  · simp only [Option.some.injEq] at hd
    omega
  · simp only [Option.some.injEq] at hd
    omega

theorem foldl_value_mono (base : Nat) (hbase : 1 ≤ base) (cs : List Char) (n : Nat) :
    n ≤ cs.foldl (fun n c => n * base + (c.toNat - '0'.toNat)) n := by
  induction cs generalizing n with
  | nil => exact le_refl _
  | cons c cs ih =>
    simp only [List.foldl_cons]
    refine le_trans ?_ (ih _)
    calc n = n * 1 := (Nat.mul_one n).symm
      _ ≤ n * base := Nat.mul_le_mul_left n hbase
      _ ≤ n * base + (c.toNat - '0'.toNat) := Nat.le_add_right _ _

/-- The loop of `strconv.ParseUint` succeeds on the texts made of digits below the base
whose value does not exceed `maxVal`, and gives that value. -/
theorem parseUintLoop_ok (fn s0 : String) (base cutoff maxVal : Nat)
    (hbase1 : 1 ≤ base) (hbase : base ≤ 10)
    (hcut : ∀ n, cutoff ≤ n → maxVal < n * base)
    (cs : List Char) (n : Nat) (hn : n ≤ maxVal) (v : Nat) :
    parseUintLoop fn s0 base cutoff maxVal cs n = Except.ok v ↔
      (cs.all (fun c => decide ('0'.toNat ≤ c.toNat ∧ c.toNat < '0'.toNat + base)) = true ∧
        cs.foldl (fun n c => n * base + (c.toNat - '0'.toNat)) n = v ∧ v ≤ maxVal) := by
  induction cs generalizing n with
  | nil =>
    simp only [parseUintLoop, Except.ok.injEq, List.all_nil, List.foldl_nil, true_and]
    constructor
    · intro h
      exact ⟨h, h ▸ hn⟩
    · intro h
      exact h.1
  | cons c cs ih =>
    simp only [List.all_cons, List.foldl_cons, Bool.and_eq_true, decide_eq_true_eq]
    cases hd : digitOf c with
    | none =>
      simp only [parseUintLoop, hd]
      constructor
      · intro h; cases h
      · rintro ⟨⟨hc, _⟩, _⟩
        obtain ⟨d, hd2, _⟩ := (digitOf_below base hbase c).mpr hc
        rw [hd] at hd2
        cases hd2
    | some d =>
      simp only [parseUintLoop, hd]
      by_cases hlt : base ≤ d
      · rw [if_pos hlt]
        constructor
        · intro h; cases h
        · rintro ⟨⟨hc, _⟩, _⟩
          obtain ⟨d2, hd2, hlt2⟩ := (digitOf_below base hbase c).mpr hc
          rw [hd] at hd2
          cases hd2
          omega
      · rw [if_neg hlt]
        have hval : d = c.toNat - '0'.toNat := digitOf_value base hbase c d hd (by omega)
        have hc : '0'.toNat ≤ c.toNat ∧ c.toNat < '0'.toNat + base :=
          (digitOf_below base hbase c).mp ⟨d, hd, by omega⟩
        have hmono := foldl_value_mono base hbase1 cs (n * base + (c.toNat - '0'.toNat))
        by_cases hcu : cutoff ≤ n
        · rw [if_pos hcu]
          have := hcut n hcu
          constructor
          · intro h; cases h
          · rintro ⟨_, hv, hle⟩
            omega
        · rw [if_neg hcu]
          by_cases hmax : maxVal < n * base + d
          · rw [if_pos hmax]
            constructor
            · intro h; cases h
            · rintro ⟨_, hv, hle⟩
              omega
          · rw [if_neg hmax, ih (n * base + d) (by omega), ← hval]
            constructor
            · rintro ⟨h1, h2, h3⟩
              exact ⟨⟨hc, h1⟩, h2, h3⟩
            · rintro ⟨⟨_, h1⟩, h2, h3⟩
              exact ⟨h1, h2, h3⟩

/-- The cutoff of `strconv.ParseUint`: a number from the cutoff on overflows 64 bits when
it is multiplied by the base. -/
theorem cutoff_spec (base bits : Nat) (hbase1 : 1 ≤ base) (hbits : bits ≤ 64) (n : Nat)
    (h : (2 ^ 64 - 1) / base + 1 ≤ n) : 2 ^ bits - 1 < n * base := by
  have h1 : 2 ^ 64 - 1 < base * ((2 ^ 64 - 1) / base + 1) :=
    Nat.lt_mul_div_succ (2 ^ 64 - 1) hbase1
  have h2 : base * ((2 ^ 64 - 1) / base + 1) ≤ n * base := by
    rw [Nat.mul_comm n base]
    exact Nat.mul_le_mul_left base h
  have h3 : 2 ^ bits ≤ 2 ^ 64 := Nat.pow_le_pow_right (by decide) hbits
  omega

/-- What `strconv.ParseUint` accepts, for a base of at most 10. -/
theorem parseUintAs_ok (fn s : String) (base bits : Nat) (hbase1 : 1 ≤ base)
    (hbase : base ≤ 10) (hbits : bits ≤ 64) (v : Nat) :
    parseUintAs fn s base bits = Except.ok v ↔
      (validNumber base (2 ^ bits - 1) s.data = true ∧
        s.data.foldl (fun n c => n * base + (c.toNat - '0'.toNat)) 0 = v) := by
  have hs : s = "" ↔ s.data = [] := by
    constructor
    · intro h; rw [h]
    · intro h
      cases s
      simp only at h
      rw [h]
  by_cases he : s = ""
  · have hd := hs.mp he
    simp [parseUintAs, he, validNumber]
  · have hd : s.data ≠ [] := fun h => he (hs.mpr h)
    simp only [parseUintAs, he, if_false]
    rw [parseUintLoop_ok fn s base _ _ hbase1 hbase (cutoff_spec base bits hbase1 hbits)
      s.data 0 (Nat.zero_le _) v]
    simp only [validNumber, hd, ne_eq, not_false_eq_true, decide_True, Bool.true_and,
      Bool.and_eq_true, decide_eq_true_eq]
    constructor
    · rintro ⟨h1, h2, h3⟩
      exact ⟨⟨h1, h2 ▸ h3⟩, h2⟩
    · rintro ⟨⟨h1, h3⟩, h2⟩
      exact ⟨h1, h2, h2 ▸ h3⟩

/-- The digits that `strconv.formatBits` writes: at least one, each a digit below the base,
and their value is the number written. -/
theorem formatBitsLoop_spec (b : Nat) (hb2 : 2 ≤ b) (hb : b ≤ 10) (fuel u : Nat)
    (acc : List Char) (hu : u < b ^ (fuel + 1)) :
    ∃ cs : List Char, formatBitsLoop b fuel u acc = cs ++ acc ∧ cs ≠ [] ∧
      (∀ c ∈ cs, ∃ d, d < b ∧ c = strconvDigits.getD d '0') ∧
      cs.foldl (fun n c => n * b + (c.toNat - '0'.toNat)) 0 = u := by
  induction fuel generalizing u acc with
  | zero =>
    have hu2 : u < b := by simpa using hu
    refine ⟨[strconvDigits.getD u '0'], rfl, by simp, ?_, ?_⟩
    · intro c hc
      exact ⟨u, hu2, by simpa using hc⟩
    · have := (digit_facts u (by omega)).2.1
      simp only [List.foldl_cons, List.foldl_nil, this]
      omega
  | succ fuel ih =>
    by_cases hle : b ≤ u
    · have hdiv : u / b < b ^ (fuel + 1) := by
        apply Nat.div_lt_of_lt_mul
        rw [← Nat.pow_succ']
        exact hu
      obtain ⟨cs, h1, h2, h3, h4⟩ := ih (u / b) (strconvDigits.getD (u % b) '0' :: acc) hdiv
      have hmod : u % b < b := Nat.mod_lt u (by omega)
      refine ⟨cs ++ [strconvDigits.getD (u % b) '0'], ?_, by simp, ?_, ?_⟩
      · simp only [formatBitsLoop, hle, if_true, h1, List.append_assoc, List.singleton_append]
      · intro c hc
        rcases List.mem_append.mp hc with hc | hc
        · exact h3 c hc
        · exact ⟨u % b, hmod, by simpa using hc⟩
      · have := (digit_facts (u % b) (by omega)).2.1
        simp only [List.foldl_append, List.foldl_cons, List.foldl_nil, h4, this]
        have := Nat.div_add_mod' u b
        omega
    · have hu2 : u < b := by omega
      refine ⟨[strconvDigits.getD u '0'], ?_, by simp, ?_, ?_⟩
      · simp only [formatBitsLoop, hle, if_false, List.singleton_append]
      · intro c hc
        exact ⟨u, hu2, by simpa using hc⟩
      · have := (digit_facts u (by omega)).2.1
        simp only [List.foldl_cons, List.foldl_nil, this]
        omega

/-- The digits written for a 64-bit number, with the facts that reading them back needs.
-/
theorem formatBitsLoop_64 (b : Nat) (hb2 : 2 ≤ b) (hb : b ≤ 10) (u : Nat) (hu : u < 2 ^ 64) :
    formatBitsLoop b 64 u [] ≠ [] ∧
    (formatBitsLoop b 64 u []).all
      (fun c => decide ('0'.toNat ≤ c.toNat ∧ c.toNat < '0'.toNat + b)) = true ∧
    (∀ c ∈ formatBitsLoop b 64 u [], ∃ d, d < 10 ∧ c = strconvDigits.getD d '0') ∧
    (formatBitsLoop b 64 u []).foldl (fun n c => n * b + (c.toNat - '0'.toNat)) 0 = u := by
  have hpow : u < b ^ (64 + 1) := by
    have h1 : 2 ^ 64 ≤ b ^ 64 := Nat.pow_le_pow_left hb2 64
    have h2 : b ^ 64 ≤ b ^ (64 + 1) := Nat.pow_le_pow_right (by omega) (by omega)
    have h3 : (2 : Nat) ^ 64 = 18446744073709551616 := by norm_num
    omega
  obtain ⟨cs, h1, h2, h3, h4⟩ := formatBitsLoop_spec b hb2 hb 64 u [] hpow
  rw [List.append_nil] at h1
  rw [h1]
  refine ⟨h2, ?_, ?_, h4⟩
  · rw [List.all_eq_true]
    intro c hc
    obtain ⟨d, hd, rfl⟩ := h3 c hc
    have := (digit_facts d (by omega)).2.1
    simp only [decide_eq_true_eq, this]
    omega
  · intro c hc
    obtain ⟨d, hd, rfl⟩ := h3 c hc
    exact ⟨d, by omega, rfl⟩

/-- Reading back with `strconv.ParseUint` what `strconv.FormatInt` wrote for a number that
is not negative. -/
theorem ParseUint_FormatInt (base bits u : Nat) (hb2 : 2 ≤ base) (hb : base ≤ 10)
    (hbits : bits ≤ 64) (hu : u < 2 ^ bits) :
    FormatInt (u : Int) base ≠ "" ∧ ParseUint (FormatInt (u : Int) base) base bits =
      Except.ok u := by
  have hu64 : u < 2 ^ 64 := lt_of_lt_of_le hu (Nat.pow_le_pow_right (by decide) hbits)
  obtain ⟨h1, h2, _, h4⟩ := formatBitsLoop_64 base hb2 hb u hu64
  have hneg : ¬ ((u : Int) < 0) := by omega
  have hdata : (FormatInt (u : Int) base).data = formatBitsLoop base 64 u [] := by
    simp [FormatInt, hneg]
  refine ⟨?_, ?_⟩
  · intro h
    rw [h] at hdata
    exact h1 hdata.symm
  · rw [ParseUint, parseUintAs_ok "ParseUint" _ base bits (by omega) hb hbits u, hdata]
    refine ⟨?_, h4⟩
    simp only [validNumber, h1, ne_eq, not_false_eq_true, decide_True, Bool.true_and, h2, h4,
      decide_eq_true_eq]
    omega

theorem validNumber_iff (base max : Nat) (cs : List Char) :
    validNumber base max cs = true ↔
      (cs ≠ [] ∧
        cs.all (fun c => decide ('0'.toNat ≤ c.toNat ∧ c.toNat < '0'.toNat + base)) = true ∧
        cs.foldl (fun n c => n * base + (c.toNat - '0'.toNat)) 0 ≤ max) := by
  simp only [validNumber, Bool.and_eq_true, decide_eq_true_eq, and_assoc]

/-- The unsigned conversion inside `strconv.ParseInt`. -/
theorem parseInt_unsigned (s : String) (rest : List Char) (un : Nat) :
    (if rest = [] then Except.error (syntaxError "ParseInt" s)
      else parseUintLoop "ParseInt" s 10 ((2 ^ 64 - 1) / 10 + 1) (2 ^ 64 - 1) rest 0) =
        Except.ok un ↔
      (validNumber 10 (2 ^ 64 - 1) rest = true ∧
        rest.foldl (fun n c => n * 10 + (c.toNat - '0'.toNat)) 0 = un) := by
  rw [validNumber_iff]
  by_cases hr : rest = []
  · simp [hr]
  · rw [if_neg hr, parseUintLoop_ok "ParseInt" s 10 _ _ (by decide) (by decide)
      (cutoff_spec 10 64 (by decide) (by decide)) rest 0 (Nat.zero_le _) un]
    constructor
    · rintro ⟨h1, h2, h3⟩
      exact ⟨⟨hr, h1, h2 ▸ h3⟩, h2⟩
    · rintro ⟨⟨_, h1, h3⟩, h2⟩
      exact ⟨h1, h2, h2 ▸ h3⟩

/-- What `strconv.ParseInt(s, 10, 64)` returns, by the sign and the digits of `s`. -/
theorem ParseInt_ok (s : String) (v : Int) :
    ParseInt s 10 64 = Except.ok v ↔
      ∃ un : Nat,
        validNumber 10 (2 ^ 64 - 1)
          (if s.data.head? = some '+' ∨ s.data.head? = some '-' then s.data.tail
            else s.data) = true ∧
        (if s.data.head? = some '+' ∨ s.data.head? = some '-' then s.data.tail
            else s.data).foldl (fun n c => n * 10 + (c.toNat - '0'.toNat)) 0 = un ∧
        (if s.data.head? = some '-' then un ≤ 2 ^ 63 ∧ v = -(un : Int)
          else un < 2 ^ 63 ∧ v = (un : Int)) := by
  by_cases hs : s = ""
  · subst hs
    simp [ParseInt, validNumber]
  · simp only [ParseInt, hs, if_false]
    generalize (if s.data.head? = some '+' ∨ s.data.head? = some '-' then s.data.tail
      else s.data) = rest
    split
    · rename_i err herr
      constructor
      · intro h; cases h
      · rintro ⟨un, h1, h2, _⟩
        have := (parseInt_unsigned s _ un).mpr ⟨h1, h2⟩
        rw [herr] at this
        cases this
    · rename_i un hun
      have hun2 := (parseInt_unsigned s _ un).mp hun
      by_cases hneg : s.data.head? = some '-'
      · simp only [hneg, decide_True, Bool.true_eq_false, false_and, if_false, true_and,
          if_true]
        constructor
        · intro h
          split_ifs at h with h1
          simp only [Except.ok.injEq] at h
          exact ⟨un, hun2.1, hun2.2, by omega, h.symm⟩
        · rintro ⟨un2, h1, h2, h3, h4⟩
          have : un2 = un := by rw [← h2, ← hun2.2]
          subst this
          rw [if_neg (by omega), h4]
      · simp only [hneg, decide_False, true_and, Bool.false_eq_true, false_and, if_false]
        constructor
        · intro h
          split_ifs at h with h1
          simp only [Except.ok.injEq] at h
          exact ⟨un, hun2.1, hun2.2, by omega, h.symm⟩
        · rintro ⟨un2, h1, h2, h3, h4⟩
          have : un2 = un := by rw [← h2, ← hun2.2]
          subst this
          rw [if_neg (by omega), h4]

/-- The texts that `strconv.ParseInt(s, 10, 64)` accepts are the valid base-10 signed
64-bit numbers. -/
theorem ParseInt_isOk (s : String) :
    (∃ v, ParseInt s 10 64 = Except.ok v) ↔ validDecimal64 s = true := by
  have h63 : (2 : Nat) ^ 63 = 9223372036854775808 := by norm_num
  have h64 : (2 : Nat) ^ 64 = 18446744073709551616 := by norm_num
  unfold validDecimal64
  constructor
  · rintro ⟨v, hv⟩
    obtain ⟨un, h1, h2, h3⟩ := (ParseInt_ok s v).mp hv
    by_cases hneg : s.data.head? = some '-'
    · rw [if_pos (Or.inr hneg)] at h1 h2
      rw [if_pos hneg] at h3
      rw [validNumber_iff] at h1
      rw [if_pos hneg, validNumber_iff]
      exact ⟨h1.1, h1.2.1, by rw [h2]; exact h3.1⟩
    · by_cases hpos : s.data.head? = some '+'
      · rw [if_pos (Or.inl hpos)] at h1 h2
        rw [if_neg hneg] at h3
        rw [validNumber_iff] at h1
        rw [if_neg hneg, if_pos hpos, validNumber_iff]
        exact ⟨h1.1, h1.2.1, by rw [h2]; omega⟩
      · rw [if_neg (not_or.mpr ⟨hpos, hneg⟩)] at h1 h2
        rw [if_neg hneg] at h3
        rw [validNumber_iff] at h1
        rw [if_neg hneg, if_neg hpos, validNumber_iff]
        exact ⟨h1.1, h1.2.1, by rw [h2]; omega⟩
  · intro hvalid
    by_cases hneg : s.data.head? = some '-'
    · rw [if_pos hneg, validNumber_iff] at hvalid
      refine ⟨-((s.data.tail.foldl (fun n c => n * 10 + (c.toNat - '0'.toNat)) 0 : Nat) : Int),
        (ParseInt_ok s _).mpr
          ⟨s.data.tail.foldl (fun n c => n * 10 + (c.toNat - '0'.toNat)) 0, ?_, ?_, ?_⟩⟩
      · rw [if_pos (Or.inr hneg), validNumber_iff]
        exact ⟨hvalid.1, hvalid.2.1, by omega⟩
      · rw [if_pos (Or.inr hneg)]
      · rw [if_pos hneg]
        exact ⟨hvalid.2.2, rfl⟩
    · by_cases hpos : s.data.head? = some '+'
      · rw [if_neg hneg, if_pos hpos, validNumber_iff] at hvalid
        refine ⟨((s.data.tail.foldl (fun n c => n * 10 + (c.toNat - '0'.toNat)) 0 : Nat) : Int),
          (ParseInt_ok s _).mpr
            ⟨s.data.tail.foldl (fun n c => n * 10 + (c.toNat - '0'.toNat)) 0, ?_, ?_, ?_⟩⟩
        · rw [if_pos (Or.inl hpos), validNumber_iff]
          exact ⟨hvalid.1, hvalid.2.1, by omega⟩
        · rw [if_pos (Or.inl hpos)]
        · rw [if_neg hneg]
          exact ⟨by omega, rfl⟩
      · rw [if_neg hneg, if_neg hpos, validNumber_iff] at hvalid
        refine ⟨((s.data.foldl (fun n c => n * 10 + (c.toNat - '0'.toNat)) 0 : Nat) : Int),
          (ParseInt_ok s _).mpr
            ⟨s.data.foldl (fun n c => n * 10 + (c.toNat - '0'.toNat)) 0, ?_, ?_, ?_⟩⟩
        · rw [if_neg (not_or.mpr ⟨hpos, hneg⟩), validNumber_iff]
          exact ⟨hvalid.1, hvalid.2.1, by omega⟩
        · rw [if_neg (not_or.mpr ⟨hpos, hneg⟩)]
        · rw [if_neg hneg]
          exact ⟨by omega, rfl⟩

/-- Reading back with `strconv.ParseInt` what `strconv.FormatInt` wrote for a 64-bit
number. -/
theorem ParseInt_FormatInt (n : Int) (hlo : -(2 : Int) ^ 63 ≤ n) (hhi : n < (2 : Int) ^ 63) :
    FormatInt n 10 ≠ "" ∧ ParseInt (FormatInt n 10) 10 64 = Except.ok n := by
  have h63 : (2 : Nat) ^ 63 = 9223372036854775808 := by norm_num
  have h64 : (2 : Nat) ^ 64 = 18446744073709551616 := by norm_num
  have h63i : (2 : Int) ^ 63 = 9223372036854775808 := by norm_num
  have habs : n.natAbs < 2 ^ 64 := by omega
  obtain ⟨h1, h2, h3, h4⟩ := formatBitsLoop_64 10 (by decide) (by decide) n.natAbs habs
  obtain ⟨c, cs, hcs⟩ := List.exists_cons_of_ne_nil h1
  obtain ⟨d, hd, hcd⟩ := h3 c (by rw [hcs]; exact List.mem_cons_self c cs)
  have hc := digit_facts d hd
  rw [← hcd] at hc
  by_cases hneg : n < 0
  · have hdata : (FormatInt n 10).data = '-' :: formatBitsLoop 10 64 n.natAbs [] := by
      simp [FormatInt, hneg]
    refine ⟨fun h => (by rw [h] at hdata; cases hdata), ?_⟩
    rw [ParseInt_ok]
    have hhead : (FormatInt n 10).data.head? = some '-' := by rw [hdata]; rfl
    refine ⟨n.natAbs, ?_, ?_, ?_⟩
    · rw [if_pos (Or.inr hhead), hdata, List.tail_cons, validNumber_iff]
      exact ⟨h1, h2, by omega⟩
    · rw [if_pos (Or.inr hhead), hdata, List.tail_cons, h4]
    · rw [if_pos hhead]
      exact ⟨by omega, by omega⟩
  · have hdata : (FormatInt n 10).data = formatBitsLoop 10 64 n.natAbs [] := by
      simp [FormatInt, hneg]
    refine ⟨fun h => (by rw [h] at hdata; exact h1 hdata.symm), ?_⟩
    rw [ParseInt_ok]
    have hhead : (FormatInt n 10).data.head? = some c := by rw [hdata, hcs]; rfl
    have hnm : ¬ (FormatInt n 10).data.head? = some '-' := by
      rw [hhead]
      intro h
      exact hc.2.2.2.2.2.1 (Option.some.inj h)
    have hnp : ¬ (FormatInt n 10).data.head? = some '+' := by
      rw [hhead]
      intro h
      exact hc.2.2.2.2.2.2 (Option.some.inj h)
    refine ⟨n.natAbs, ?_, ?_, ?_⟩
    · rw [if_neg (not_or.mpr ⟨hnp, hnm⟩), hdata, validNumber_iff]
      exact ⟨h1, h2, by omega⟩
    · rw [if_neg (not_or.mpr ⟨hnp, hnm⟩), hdata, h4]
    · rw [if_neg hnm]
      exact ⟨by omega, by omega⟩

/-- The texts that `strconv.ParseUint(s, 8, 32)` accepts are the valid base-8 unsigned
numbers that fit in 32 bits. -/
theorem ParseUint_isOk (s : String) :
    (∃ v, ParseUint s 8 32 = Except.ok v) ↔ validOctal32 s = true := by
  unfold validOctal32 ParseUint
  constructor
  · rintro ⟨v, hv⟩
    exact ((parseUintAs_ok "ParseUint" s 8 32 (by decide) (by decide) (by decide) v).mp hv).1
  · intro h
    exact ⟨_, (parseUintAs_ok "ParseUint" s 8 32 (by decide) (by decide) (by decide) _).mpr
      ⟨h, rfl⟩⟩

/-- The scan of a number that `fmt.Sprintf` wrote with `%d`, followed by the end of the text
or by a colon. -/
theorem scanUint_written (u : Nat) (hu : u < 2 ^ 32) (rest : List Char)
    (hrest : rest = [] ∨ ∃ r, rest = ':' :: r) :
    scanUint 32 (formatBitsLoop 10 64 u [] ++ rest) = some (u, rest) := by
  have h32 : (2 : Nat) ^ 32 = 4294967296 := by norm_num
  have h64 : (2 : Nat) ^ 64 = 18446744073709551616 := by norm_num
  obtain ⟨h1, h2, h3, h4⟩ := formatBitsLoop_64 10 (by decide) (by decide) u (by omega)
  obtain ⟨c, cs, hcs⟩ := List.exists_cons_of_ne_nil h1
  obtain ⟨d, hd, hcd⟩ := h3 c (by rw [hcs]; exact List.mem_cons_self c cs)
  have hc := digit_facts d hd
  rw [← hcd] at hc
  have hskip : skipSpace (formatBitsLoop 10 64 u [] ++ rest) =
      some (formatBitsLoop 10 64 u [] ++ rest) := by
    rw [hcs]
    show skipSpace (c :: (cs ++ rest)) = some (c :: (cs ++ rest))
    simp only [skipSpace, hc.2.2.2.1, hc.2.2.2.2.1, if_false, Bool.false_eq_true]
  have hall : ∀ a ∈ formatBitsLoop 10 64 u [],
      (fun c => decide (c ∈ "0123456789".data)) a = true := by
    intro a ha
    obtain ⟨d2, hd2, rfl⟩ := h3 a ha
    exact (digit_facts d2 hd2).2.2.1
  have htake : (formatBitsLoop 10 64 u [] ++ rest).takeWhile
      (fun c => decide (c ∈ "0123456789".data)) = formatBitsLoop 10 64 u [] := by
    rw [List.takeWhile_append_of_pos hall]
    rcases hrest with h | ⟨r, h⟩
    · rw [h]; simp
    · rw [h]
      have : decide (':' ∈ "0123456789".data) = false := by decide
      simp [List.takeWhile_cons, this]
  have hdrop : (formatBitsLoop 10 64 u [] ++ rest).dropWhile
      (fun c => decide (c ∈ "0123456789".data)) = rest := by
    rw [List.dropWhile_append_of_pos hall]
    rcases hrest with h | ⟨r, h⟩
    · rw [h]; simp
    · rw [h]
      have : decide (':' ∈ "0123456789".data) = false := by decide
      simp [List.dropWhile_cons, this]
  have hparse : ParseUint (String.mk (formatBitsLoop 10 64 u [])) 10 64 = Except.ok u := by
    rw [ParseUint, parseUintAs_ok "ParseUint" _ 10 64 (by decide) (by decide) (by decide) u]
    refine ⟨?_, h4⟩
    rw [validNumber_iff]
    exact ⟨h1, h2, by rw [h4]; omega⟩
  have hmod : u % 2 ^ 32 = u := Nat.mod_eq_of_lt hu
  simp only [scanUint, hskip, htake, hdrop, h1, if_false, hparse, hmod, ne_eq,
    not_true_eq_false]

/-- Reading back with `fmt.Sscanf` what `fmt.Sprintf` wrote for two `uint32` numbers. -/
theorem sscanfOwner_sprintfOwner (u g a b : Nat) (hu : u < 2 ^ 32) (hg : g < 2 ^ 32) :
    sprintfOwner u g ≠ "" ∧ sscanfOwner (sprintfOwner u g) a b = (u, g) := by
  have h1 := scanUint_written u hu (':' :: formatBitsLoop 10 64 g []) (Or.inr ⟨_, rfl⟩)
  have h2 := scanUint_written g hg [] (Or.inl rfl)
  rw [List.append_nil] at h2
  refine ⟨?_, ?_⟩
  · intro h
    have := congrArg String.data h
    simp [sprintfOwner] at this
  · simp only [sscanfOwner, sprintfOwner, h1, h2]

/-- The entry that decoding gives back from what `WriteEntry` builds. -/
theorem decodeWritten_eq (e : directoryEntry) (hname : e.name ≠ "") (hrange : e.inRange) :
    decodeWritten e =
      (none,
        { name := e.name
          fileMode :=
            (if e.fileMode &&& ModeType = ModeDir then ModeDir else 0) |||
              (e.fileMode &&& ModePerm)
          fileSize := if e.fileMode &&& ModeType = ModeDir then 0 else e.Size
          modTime := e.modTime
          userID := e.userID
          groupID := e.groupID
          objectID := e.objectID }) := by
  obtain ⟨_, huid, hgid, hlo, hhi⟩ := hrange
  have hpermlt : e.fileMode &&& ModePerm < 2 ^ 32 := by
    have h1 : e.fileMode &&& ModePerm ≤ ModePerm := Nat.and_le_right
    have h2 : ModePerm < 2 ^ 32 := by decide
    omega
  obtain ⟨hp1, hp2⟩ := ParseUint_FormatInt 8 32 (e.fileMode &&& ModePerm) (by decide)
    (by decide) (by decide) hpermlt
  obtain ⟨ho1, ho2⟩ := sscanfOwner_sprintfOwner e.userID e.groupID 0 0 huid hgid
  have hsizerange : -(2 : Int) ^ 63 ≤ e.Size ∧ e.Size < (2 : Int) ^ 63 := by
    unfold directoryEntry.Size
    split_ifs
    · exact ⟨hlo, hhi⟩
    · norm_num
  obtain ⟨hs1, hs2⟩ := ParseInt_FormatInt e.Size hsizerange.1 hsizerange.2
  have hmod : (e.fileMode &&& ModePerm) % 2 ^ 32 = e.fileMode &&& ModePerm :=
    Nat.mod_eq_of_lt hpermlt
  by_cases hdir : e.fileMode &&& ModeType = ModeDir
  · simp [decodeWritten, WriteEntry, directoryEntry.fromJSON, directoryEntry.Mode,
      directoryEntry.Name, directoryEntry.ModTime, directoryEntry.UserID,
      directoryEntry.GroupID, directoryEntry.ObjectID, hdir, hname, hp1, hp2, ho1, ho2, hmod,
      Except.map]
    rw [Nat.mod_eq_of_lt (by omega)]
  · simp [decodeWritten, WriteEntry, directoryEntry.fromJSON, directoryEntry.Mode,
      directoryEntry.Name, directoryEntry.ModTime, directoryEntry.UserID,
      directoryEntry.GroupID, directoryEntry.ObjectID, hdir, hname, hp1, hp2, ho1, ho2, hmod,
      hs1, hs2, Except.map]
    omega

/-- C22: for an entry `e` with a name that is not empty (and fields that are values of
their Go types), decoding into a fresh entry the `jsonDirectoryEntry` that `WriteEntry`
builds for `e` succeeds and gives an entry with the `Name`, `ModTime`, `UserID`, `GroupID`,
`ObjectID` and `Size()` of `e`, whose `Mode` is the permission bits of `e` plus the
directory bit when the type of `e` is exactly directory; the decoded entry agrees with `e`
on all accessors if and only if the mode of `e` has no bits other than the directory bit
and the permission bits. -/
theorem WriteEntry_fromJSON_round_trip (e : directoryEntry) (hname : e.name ≠ "")
    (hrange : e.inRange) :
    (decodeWritten e).1 = none ∧
    (decodeWritten e).2.Name = e.Name ∧
    (decodeWritten e).2.ModTime = e.ModTime ∧
    (decodeWritten e).2.UserID = e.UserID ∧
    (decodeWritten e).2.GroupID = e.GroupID ∧
    (decodeWritten e).2.ObjectID = e.ObjectID ∧
    (decodeWritten e).2.Size = e.Size ∧
    (decodeWritten e).2.Mode =
      (if e.Mode &&& ModeType = ModeDir then ModeDir else 0) ||| (e.Mode &&& ModePerm) ∧
    (sameOnAccessors (decodeWritten e).2 e ↔ e.Mode &&& (ModeDir ||| ModePerm) = e.Mode) := by
  have heq := decodeWritten_eq e hname hrange
  have hsize : (decodeWritten e).2.Size = e.Size := by
    rw [heq]
    by_cases hdir : e.fileMode &&& ModeType = ModeDir
    · have h1 : ¬ (ModeDir ||| e.fileMode &&& ModePerm) &&& ModeType = 0 :=
        dir_or_and_ModeType _
      have h2 : ¬ ModeDir = 0 := by decide
      simp only [directoryEntry.Size, directoryEntry.Mode, FileMode_IsRegular, hdir, if_true,
        h1, h2, decide_False, Bool.false_eq_true, if_false]
    · have h1 : (0 ||| e.fileMode &&& ModePerm) &&& ModeType = 0 := by
        rw [Nat.zero_or]
        exact perm_and_ModeType _
      simp only [directoryEntry.Size, directoryEntry.Mode, FileMode_IsRegular, hdir, if_false,
        h1, decide_True, if_true]
  have hmode : (decodeWritten e).2.Mode =
      (if e.Mode &&& ModeType = ModeDir then ModeDir else 0) ||| (e.Mode &&& ModePerm) := by
    rw [heq]
    rfl
  refine ⟨by rw [heq], by rw [heq]; rfl, by rw [heq]; rfl, by rw [heq]; rfl, by rw [heq]; rfl,
    by rw [heq]; rfl, hsize, hmode, ?_⟩
  constructor
  · intro h
    have h2 : (decodeWritten e).2.Mode = e.Mode := h.2.1
    rw [hmode] at h2
    exact (decoded_mode_eq_iff e.Mode).mp h2
  · intro h
    have h2 : (decodeWritten e).2.Mode = e.Mode := by
      rw [hmode]
      exact (decoded_mode_eq_iff e.Mode).mpr h
    refine ⟨by rw [heq]; rfl, h2, ?_, hsize, by rw [heq]; rfl, by rw [heq]; rfl,
      by rw [heq]; rfl, by rw [heq]; rfl⟩
    simp only [directoryEntry.IsDir, h2]

/-- Witness of C22: the sample file is decoded without error and with its size; the sample
link, whose mode has the symlink and the set-uid bit, is not decoded to an entry that
agrees with it on all accessors. -/
theorem WriteEntry_fromJSON_round_trip_witness :
    (decodeWritten sampleFileEntry).1 = none ∧
    (decodeWritten sampleFileEntry).2.Size = sampleFileEntry.Size ∧
    sameOnAccessors (decodeWritten sampleFileEntry).2 sampleFileEntry ∧
    ¬ sameOnAccessors (decodeWritten sampleLinkEntry).2 sampleLinkEntry :=
  ⟨(WriteEntry_fromJSON_round_trip sampleFileEntry (by decide)
      ⟨by decide, by decide, by decide, by decide, by decide⟩).1,
    (WriteEntry_fromJSON_round_trip sampleFileEntry (by decide)
      ⟨by decide, by decide, by decide, by decide, by decide⟩).2.2.2.2.2.2.1,
    (WriteEntry_fromJSON_round_trip sampleFileEntry (by decide)
      ⟨by decide, by decide, by decide, by decide, by decide⟩).2.2.2.2.2.2.2.2.mpr
        (by decide),
    fun h => absurd
      ((WriteEntry_fromJSON_round_trip sampleLinkEntry (by decide)
        ⟨by decide, by decide, by decide, by decide, by decide⟩).2.2.2.2.2.2.2.2.mp h)
      (by decide)⟩

theorem Except_ok_or_error {α : Type} (r : Except Error α) :
    (∃ v, r = Except.ok v) ∨ ∃ err, r = Except.error err := by
  cases r with
  | error err => exact Or.inr ⟨err, rfl⟩
  | ok v => exact Or.inl ⟨v, rfl⟩

/-- The result of `fromJSON` by the two conversions that can fail. -/
theorem fromJSON_result (de : directoryEntry) (jde : jsonDirectoryEntry) :
    ((de.fromJSON jde).1 = none ↔
      (jde.Permissions = "" ∨ ∃ v, ParseUint jde.Permissions 8 32 = Except.ok v) ∧
      (jde.Size = "" ∨ ∃ v, ParseInt jde.Size 10 64 = Except.ok v)) := by
  by_cases hp : jde.Permissions = ""
  · by_cases hs : jde.Size = ""
    · simp [directoryEntry.fromJSON, hp, hs]
    · rcases Except_ok_or_error (ParseInt jde.Size 10 64) with ⟨v, hv⟩ | ⟨err, herr⟩
      · simp [directoryEntry.fromJSON, hp, hs, hv]
      · simp [directoryEntry.fromJSON, hp, hs, herr]
  · rcases Except_ok_or_error (ParseUint jde.Permissions 8 32) with ⟨u, hu⟩ | ⟨err, herr⟩
    · by_cases hs : jde.Size = ""
      · simp [directoryEntry.fromJSON, hp, hs, hu, Except.map]
      · rcases Except_ok_or_error (ParseInt jde.Size 10 64) with ⟨v, hv⟩ | ⟨err, herr⟩
        · simp [directoryEntry.fromJSON, hp, hs, hu, hv, Except.map]
        · simp [directoryEntry.fromJSON, hp, hs, hu, herr, Except.map]
    · simp [directoryEntry.fromJSON, hp, herr, Except.map]

/-- The ids after `fromJSON`: those of the entry before the call, or what `fmt.Sscanf` has
left in them. -/
theorem fromJSON_ids (de : directoryEntry) (jde : jsonDirectoryEntry) :
    ((de.fromJSON jde).2.userID = de.userID ∧ (de.fromJSON jde).2.groupID = de.groupID) ∨
    ((de.fromJSON jde).2.userID = (sscanfOwner jde.Owner de.userID de.groupID).1 ∧
      (de.fromJSON jde).2.groupID = (sscanfOwner jde.Owner de.userID de.groupID).2) := by
  by_cases hd : jde.DirName = "" <;> by_cases hf : jde.FileName = "" <;>
    by_cases hp : jde.Permissions = "" <;> by_cases ho : jde.Owner = "" <;>
    by_cases hs : jde.Size = "" <;>
    rcases Except_ok_or_error (ParseUint jde.Permissions 8 32) with ⟨u, hu⟩ | ⟨e1, hu⟩ <;>
    rcases Except_ok_or_error (ParseInt jde.Size 10 64) with ⟨v, hv⟩ | ⟨e2, hv⟩ <;>
    simp [directoryEntry.fromJSON, hd, hf, hp, ho, hs, hu, hv, Except.map]

/-- The name and the mode after `fromJSON` of an entry with a `DirName`. -/
theorem fromJSON_dir (de : directoryEntry) (jde : jsonDirectoryEntry)
    (hd : jde.DirName ≠ "") :
    (de.fromJSON jde).2.name = jde.DirName ∧
    ((de.fromJSON jde).1 = none → ∃ perm, (de.fromJSON jde).2.fileMode = ModeDir ||| perm) := by
  by_cases hp : jde.Permissions = "" <;> by_cases ho : jde.Owner = "" <;>
    by_cases hs : jde.Size = "" <;>
    rcases Except_ok_or_error (ParseUint jde.Permissions 8 32) with ⟨u, hu⟩ | ⟨e1, hu⟩ <;>
    rcases Except_ok_or_error (ParseInt jde.Size 10 64) with ⟨v, hv⟩ | ⟨e2, hv⟩ <;>
    simp [directoryEntry.fromJSON, hd, hp, ho, hs, hu, hv, Except.map] <;>
    exact ⟨0, rfl⟩

/-- The result of `fromJSON` does not depend on the `Owner` text. -/
theorem fromJSON_owner (de : directoryEntry) (jde : jsonDirectoryEntry) (owner : String) :
    (de.fromJSON { jde with Owner := owner }).1 = (de.fromJSON jde).1 := by
  by_cases hp : jde.Permissions = "" <;> by_cases ho : jde.Owner = "" <;>
    by_cases ho2 : owner = "" <;> by_cases hs : jde.Size = "" <;>
    rcases Except_ok_or_error (ParseUint jde.Permissions 8 32) with ⟨u, hu⟩ | ⟨e1, hu⟩ <;>
    rcases Except_ok_or_error (ParseInt jde.Size 10 64) with ⟨v, hv⟩ | ⟨e2, hv⟩ <;>
    simp [directoryEntry.fromJSON, hp, ho, ho2, hs, hu, hv, Except.map]

/-- C23: `fromJSON` returns an error if and only if `Permissions` is not empty and is not
a valid base-8 unsigned number that fits in 32 bits, or `Size` is not empty and is not a
valid base-10 signed 64-bit number.  The `Owner` text has no part in the result; an id that
`fmt.Sscanf` fails to scan keeps the value that it had (zero in a fresh entry).  An entry
with a `DirName` gets that name, whether or not `FileName` is set, and is a directory when
the decoding succeeds. -/
theorem fromJSON_failures (de : directoryEntry) (jde : jsonDirectoryEntry) :
    ((de.fromJSON jde).1 ≠ none ↔
      (jde.Permissions ≠ "" ∧ validOctal32 jde.Permissions = false) ∨
      (jde.Size ≠ "" ∧ validDecimal64 jde.Size = false)) ∧
    (∀ owner : String, (de.fromJSON { jde with Owner := owner }).1 = (de.fromJSON jde).1) ∧
    (scanUint 32 jde.Owner.data = none →
      (de.fromJSON jde).2.userID = de.userID ∧ (de.fromJSON jde).2.groupID = de.groupID) ∧
    (∀ u rest, scanUint 32 jde.Owner.data = some (u, rest) →
      (∀ r, rest = ':' :: r → scanUint 32 r = none) →
      (de.fromJSON jde).2.groupID = de.groupID) ∧
    (jde.DirName ≠ "" →
      (de.fromJSON jde).2.name = jde.DirName ∧
      ((de.fromJSON jde).1 = none → (de.fromJSON jde).2.IsDir = true)) := by
  refine ⟨?_, fromJSON_owner de jde, ?_, ?_, ?_⟩
  · have hoct : validOctal32 jde.Permissions = false ↔
        ¬ ∃ v, ParseUint jde.Permissions 8 32 = Except.ok v := by
      rw [ParseUint_isOk]
      simp
    have hdec : validDecimal64 jde.Size = false ↔
        ¬ ∃ v, ParseInt jde.Size 10 64 = Except.ok v := by
      rw [ParseInt_isOk]
      simp
    rw [hoct, hdec, ne_eq, fromJSON_result]
    tauto
  · intro hscan
    rcases fromJSON_ids de jde with h | h
    · exact h
    · simpa [sscanfOwner, hscan] using h
  · intro u rest hscan hrest
    rcases fromJSON_ids de jde with h | h
    · exact h.2
    · rw [h.2]
      simp only [sscanfOwner, hscan]
      cases rest with
      | nil => rfl
      | cons c r =>
        by_cases hc : c = ':'
        · subst hc
          simp only [hrest r rfl]
        · split
          · rename_i heq
            simp only [List.cons.injEq] at heq
            exact absurd heq.1 hc
          · rfl
  · intro hd
    obtain ⟨h1, h2⟩ := fromJSON_dir de jde hd
    refine ⟨h1, fun hok => ?_⟩
    obtain ⟨perm, hperm⟩ := h2 hok
    simp only [directoryEntry.IsDir, directoryEntry.Mode, FileMode_IsDir, hperm,
      decide_eq_true_eq]
    exact dir_or_and_ModeDir perm

/-- Witness of C23: an entry text with both names, the permissions `755`, the size `12` and
the owner `x:5` is decoded, into a fresh entry, without error as the directory `d` with
both ids zero; with the permissions `9` or the size `1x` the decoding fails. -/
theorem fromJSON_failures_witness :
    (({} : directoryEntry).fromJSON
      { FileName := "f", DirName := "d", Permissions := "755", Size := "12",
        Owner := "x:5" }).1 = none ∧
    (({} : directoryEntry).fromJSON
      { FileName := "f", DirName := "d", Permissions := "755", Size := "12",
        Owner := "x:5" }).2.userID = 0 ∧
    (({} : directoryEntry).fromJSON
      { FileName := "f", DirName := "d", Permissions := "755", Size := "12",
        Owner := "x:5" }).2.name = "d" ∧
    (({} : directoryEntry).fromJSON { FileName := "f", Permissions := "9" }).1 ≠ none ∧
    (({} : directoryEntry).fromJSON { FileName := "f", Size := "1x" }).1 ≠ none :=
  ⟨rfl,
    ((fromJSON_failures {}
      { FileName := "f", DirName := "d", Permissions := "755", Size := "12",
        Owner := "x:5" }).2.2.1 (by decide)).1,
    ((fromJSON_failures {}
      { FileName := "f", DirName := "d", Permissions := "755", Size := "12",
        Owner := "x:5" }).2.2.2.2 (by decide)).1,
    (fromJSON_failures {} { FileName := "f", Permissions := "9" }).1.mpr
      (Or.inl ⟨by decide, by decide⟩),
    (fromJSON_failures {} { FileName := "f", Size := "1x" }).1.mpr
      (Or.inr ⟨by decide, by decide⟩)⟩

end Maintenance
